import Mathlib

/-!
# Artwork resolver and media-library indexer: a shallow embedding

The definitions below follow `plugins/artwork/artwork.c` and
`plugins/medialib/medialib.c` function by function.  C strings are lists of
characters (one `Char` per C `char`, the terminating NUL left implicit),
pointers to heap objects are natural-number identities or the object they
point to, and every function that mutates global state takes the state and
returns the new one.
-/

namespace Artwork

/-- A NUL-terminated C string: the characters before the terminator. -/
abbrev CStr := List Char

/-- Value of `INT64_MAX` from `stdint.h`. -/
def INT64_MAX : Int := 9223372036854775807

/-- Capacity of the in-memory cover cache (`#define MAX_COVERS_IN_CACHE 20`). -/
def MAX_COVERS_IN_CACHE : Nat := 20

/-- The fields of `ddb_cover_info_t` that `artwork.c` reads or writes. -/
structure ddb_cover_info_t where
  filepath : CStr
  album : CStr
  artist : CStr
  title : CStr
  image_filename : Option CStr
  blob : Option (List Nat)
  blob_size : Nat
  blob_image_offset : Nat
  blob_image_size : Nat
  cover_found : Int
  timestamp : Int
deriving DecidableEq, Repr

/-- The array `cover_cache[MAX_COVERS_IN_CACHE]`; `none` is a NULL slot. -/
abbrev CoverCache := List (Option ddb_cover_info_t)

/-- Local variables of the scanning loop of `cover_update_cache`. -/
structure ScanVars where
  minTimestamp : Int
  minTimestampIdx : Int
  emptyIdx : Int
deriving DecidableEq, Repr

/-- The `for (i = 0; i < MAX_COVERS_IN_CACHE; i++)` loop of
`cover_update_cache`, started at index `i` with `n` iterations left.  An empty
slot records its index and breaks; otherwise the slot is compared with the
running minimum under the guard
`cover_cache[i]->timestamp < minTimestamp || emptyIdx == -1`. -/
def cover_update_cache_loop (cache : CoverCache) : Nat → Nat → ScanVars → ScanVars
  | 0, _, v => v
  | n + 1, i, v =>
    match cache.getD i none with
    | none => { v with emptyIdx := (i : Int) }
    | some c =>
      cover_update_cache_loop cache n (i + 1)
        (if c.timestamp < v.minTimestamp ∨ v.emptyIdx = -1 then
          { v with minTimestamp := c.timestamp, minTimestampIdx := (i : Int) }
        else v)

/-- Outcome of `cover_update_cache`: the new cache array, the cover handed to
`cover_info_release` (if a slot was evicted), the slot that received the new
cover, and the cover object itself after `cover->timestamp = time(NULL)`. -/
structure UpdateResult where
  cache : CoverCache
  released : Option ddb_cover_info_t
  slot : Int
  cover : ddb_cover_info_t
deriving DecidableEq, Repr

/-- Embedding of `cover_update_cache (cover)`; `now` is the value of
`time(NULL)`. -/
def cover_update_cache (now : Int) (cache : CoverCache) (cover : ddb_cover_info_t) :
    UpdateResult :=
  let v := cover_update_cache_loop cache MAX_COVERS_IN_CACHE 0
    { minTimestamp := INT64_MAX, minTimestampIdx := -1, emptyIdx := -1 }
  let stored := { cover with timestamp := now }
  if v.emptyIdx < 0 then
    { cache := (cache.set v.minTimestampIdx.toNat none).set v.minTimestampIdx.toNat (some stored)
      released := cache.getD v.minTimestampIdx.toNat none
      slot := v.minTimestampIdx
      cover := stored }
  else
    { cache := cache.set v.emptyIdx.toNat (some stored)
      released := none
      slot := v.emptyIdx
      cover := stored }

/-- The loop of `cover_cache_find` from slot `i` on: the first occupied slot
whose `filepath` equals (`strcmp`) the one of `cover`, with its index. -/
def cover_cache_find_from (cover : ddb_cover_info_t) :
    Nat → CoverCache → Option (Nat × ddb_cover_info_t)
  | _, [] => none
  | i, none :: rest => cover_cache_find_from cover (i + 1) rest
  | i, some c :: rest =>
    if c.filepath = cover.filepath then some (i, c) else cover_cache_find_from cover (i + 1) rest

/-- Embedding of `cover_cache_find (cover)`. -/
def cover_cache_find (cache : CoverCache) (cover : ddb_cover_info_t) :
    Option (Nat × ddb_cover_info_t) :=
  cover_cache_find_from cover 0 cache

/-- A cover whose only interesting fields are its path and its timestamp. -/
def mkCover (path : CStr) (ts : Int) : ddb_cover_info_t :=
  { filepath := path, album := [], artist := [], title := [], image_filename := none,
    blob := none, blob_size := 0, blob_image_offset := 0, blob_image_size := 0,
    cover_found := 1, timestamp := ts }

/-- A full cache: slot `i` holds a cover cached at time `100 + i`, so slot 0
is the least recently used one. -/
def agedCache : CoverCache :=
  (List.range 20).map (fun i => some (mkCover (List.replicate (i + 1) 'a') (100 + (i : Int))))

/-- The LRU contract of an insertion into a full cache: the new cover
goes to a slot `k` whose timestamp is minimal, and no other slot changes. -/
def EvictsMinimal (now : Int) (cache : CoverCache) (cover : ddb_cover_info_t) : Prop :=
  ∃ k c, k < MAX_COVERS_IN_CACHE ∧ cache.getD k none = some c ∧
    (∀ j d, j < MAX_COVERS_IN_CACHE → cache.getD j none = some d → c.timestamp ≤ d.timestamp) ∧
    (cover_update_cache now cache cover).cache = cache.set k (some { cover with timestamp := now })


/-! ### The pending query list and the squasher -/

/-- The fields of `ddb_cover_query_t` read by `artwork.c`.  `addr` is the
address of the query object (queries are compared by pointer when a finished
job looks for its group); `track` is the `DB_playItem_t *`, 0 for NULL. -/
structure ddb_cover_query_t where
  addr : Nat
  type : Int
  flags : Nat
  track : Nat
deriving DecidableEq, Repr

/-- The host API (`deadbeef->...`) as far as the artwork code calls it:
metadata lookup by key and title-formatting evaluation by script.  Metadata
values are interned by the host, so the pointer comparison `uri1 == uri2` is
the comparison of the returned values. -/
structure DB_functions_t where
  pl_find_meta : Nat → String → Option CStr
  tf_eval : String → Nat → CStr

/-- The script compiled into `query_compare_tf` by `cover_get`. -/
def query_compare_script : String :=
  "$if($and(%title%,%artist%,%album%),%track number% - %title% - %artist% - %album%)"

/-- Embedding of `queries_squashable (query1, query2)`. -/
def queries_squashable (db : DB_functions_t) (query1 query2 : ddb_cover_query_t) : Bool :=
  if query1.type ≠ query2.type ∨ query1.flags ≠ query2.flags then false
  else if query1.track = query2.track then true
  else if db.pl_find_meta query1.track ":URI" = db.pl_find_meta query2.track ":URI" then true
  else
    let query1title := db.tf_eval query_compare_script query1.track
    let query2title := db.tf_eval query_compare_script query2.track
    if query1title ≠ [] ∧ query2title ≠ [] ∧ query1title = query2title then true
    else false

/-- Capacity of the arrays of a squash group (`#define MAX_SQUASHED_QUERIES 50`). -/
def MAX_SQUASHED_QUERIES : Nat := 50

/-- One `artwork_query_t` node.  `addr` is the address of the node; `members`
lists the pairs `(queries[i], callbacks[i])` for `i < query_count`, so
`query_count` is `members.length`.  Callbacks are function pointers, kept as
their address. -/
structure artwork_query_t where
  addr : Nat
  members : List (ddb_cover_query_t × Nat)
deriving DecidableEq, Repr

/-- The field `query_count` of a node. -/
def artwork_query_t.query_count (q : artwork_query_t) : Nat := q.members.length

/-- The global state guarded by `sync_queue`: the job counters, the cover
cache, the chain of nodes reachable from `query_head` through `next` (in that
order) and the address held in `query_tail`. -/
structure State where
  last_job_idx : Int
  cancellation_idx : Int
  cover_cache : CoverCache
  query_nodes : List artwork_query_t
  query_tail : Option Nat
deriving DecidableEq, Repr

/-- The state right after the plugin has started: zeroed globals. -/
def State.init : State :=
  { last_job_idx := 0, cancellation_idx := 0,
    cover_cache := List.replicate MAX_COVERS_IN_CACHE none,
    query_nodes := [], query_tail := none }

/-- The address in `query_head`. -/
def State.query_head (s : State) : Option Nat := s.query_nodes.head?.map (·.addr)

/-- The head/tail pointers are consistent with the chain: node addresses are
pairwise distinct and `query_tail` is the address of the last node (NULL for
the empty chain). -/
def State.Consistent (s : State) : Prop :=
  (s.query_nodes.map (·.addr)).Nodup ∧ s.query_tail = s.query_nodes.getLast?.map (·.addr)

/-- The guard of the search loop of `squash_query`:
`queries_squashable (query, q->queries[0]) && q->query_count < MAX_SQUASHED_QUERIES-1`. -/
def squash_guard (db : DB_functions_t) (query : ddb_cover_query_t) (q : artwork_query_t) : Bool :=
  (match q.members.head? with
    | some m => queries_squashable db query m.1
    | none => false) && decide (q.query_count < MAX_SQUASHED_QUERIES - 1)

/-- The effect of `query_tail->next = q` on the chain reachable from the head:
when the node at address `t` is in the chain, `q` becomes its successor. -/
def link_after (nodes : List artwork_query_t) (t : Nat) (q : artwork_query_t) :
    List artwork_query_t :=
  match nodes with
  | [] => []
  | x :: rest => if x.addr = t then [x, q] else x :: link_after rest t q

/-- Appends `(query, callback)` to the first node that satisfies the guard. -/
def squash_into (db : DB_functions_t) (query : ddb_cover_query_t) (callback : Nat) :
    List artwork_query_t → List artwork_query_t
  | [] => []
  | q :: rest =>
    if squash_guard db query q then { q with members := q.members ++ [(query, callback)] } :: rest
    else q :: squash_into db query callback rest

/-- Embedding of `squash_query (callback, query)`.  `fresh` is the address
returned by `calloc` should a new node be needed.  Returns the new state and
the value of `squashed`. -/
def squash_query (db : DB_functions_t) (fresh : Nat) (s : State) (callback : Nat)
    (query : ddb_cover_query_t) : State × Int :=
  if s.query_nodes.any (squash_guard db query) then
    ({ s with query_nodes := squash_into db query callback s.query_nodes }, 1)
  else
    let q : artwork_query_t := { addr := fresh, members := [(query, callback)] }
    match s.query_tail with
    | some t => ({ s with query_nodes := link_after s.query_nodes t q, query_tail := some fresh }, 0)
    | none => ({ s with query_nodes := [q], query_tail := some fresh }, 0)

/-- One invocation `callback (error, query, cover)` of a user callback. -/
structure CallbackCall where
  callback : Nat
  error : Int
  query : ddb_cover_query_t
  cover : Option ddb_cover_info_t
deriving DecidableEq, Repr

/-- Embedding of `execute_callback (callback, cover, query)`. -/
def execute_callback (callback : Nat) (cover : ddb_cover_info_t) (query : ddb_cover_query_t) :
    CallbackCall :=
  if cover.cover_found ≠ 0 then { callback := callback, error := 0, query := query, cover := some cover }
  else { callback := callback, error := -1, query := query, cover := none }

/-- The test `q->queries[0] == query` of `callback_and_free_squashed`. -/
def headed_by (query : ddb_cover_query_t) (q : artwork_query_t) : Bool :=
  match q.members.head? with
  | some m => decide (m.1.addr = query.addr)
  | none => false

/-- The search-and-unlink loop of `callback_and_free_squashed`, walking the
chain with `prev` trailing behind: returns the chain after unlinking, the new
value of `query_tail` and the node that was unlinked, if any. -/
def unlink_group (query : ddb_cover_query_t) (tail : Option Nat) :
    Option Nat → List artwork_query_t → List artwork_query_t × Option Nat × Option artwork_query_t
  | _, [] => ([], tail, none)
  | prev, q :: rest =>
    if headed_by query q then
      (rest, if some q.addr = tail then prev else tail, some q)
    else
      let r := unlink_group query tail (some q.addr) rest
      (q :: r.1, r.2.1, r.2.2)

/-- Embedding of `callback_and_free_squashed (cover, query)`: the cover enters
the cache, the first node headed by `query` is unlinked, and the callbacks of
its members are executed in array order. -/
def callback_and_free_squashed (now : Int) (s : State) (cover : ddb_cover_info_t)
    (query : ddb_cover_query_t) : State × List CallbackCall :=
  let u := cover_update_cache now s.cover_cache cover
  let r := unlink_group query s.query_tail none s.query_nodes
  ({ s with cover_cache := u.cache, query_nodes := r.1, query_tail := r.2.1 },
    match r.2.2 with
    | some g => g.members.map (fun m => execute_callback m.2 u.cover m.1)
    | none => [])


/-! ### `cover_get`, block by block, and `queue_clear` -/

/-- Embedding of `queue_clear`: `cancellation_idx = last_job_idx++` (the
request to abort HTTP transfers touches no state of this file).  The counters
are `int64_t`; they are kept as unbounded integers, 2^63 submissions being
out of reach. -/
def queue_clear (s : State) : State :=
  { s with cancellation_idx := s.last_job_idx, last_job_idx := s.last_job_idx + 1 }

/-- First block of `cover_get`, run on `sync_queue`: `job_idx = last_job_idx++`.
Returns the new state and `job_idx`.  (`cancel_query` is initialised to 0 and
never assigned, so the early return that follows is dead.) -/
def cover_get_submit (s : State) : State × Int :=
  ({ s with last_job_idx := s.last_job_idx + 1 }, s.last_job_idx)

/-- A cover as returned by `cover_info_alloc`: a zero-filled object. -/
def cover_info_alloc : ddb_cover_info_t :=
  { filepath := [], album := [], artist := [], title := [], image_filename := none,
    blob := none, blob_size := 0, blob_image_offset := 0, blob_image_size := 0,
    cover_found := 0, timestamp := 0 }

/-- The test made at each cancellation checkpoint of `cover_get`. -/
def job_cancelled (s : State) (job_idx : Int) : Bool := decide (job_idx < s.cancellation_idx)

/-- How the block that `cover_get` puts on `process_queue` ends: it returned
(after the listed callback invocations, none when the query was absorbed into
an existing group), or it created a group and now waits for a fetch slot. -/
inductive ProcessOutcome where
  | done (calls : List CallbackCall)
  | waiting (cover : ddb_cover_info_t)
deriving DecidableEq, Repr

/-- The block of `cover_get` on `process_queue`, up to
`dispatch_semaphore_wait`.  `filepath_size` is `sizeof (cover->filepath)`,
`sync_queue` tells whether the queue still exists, `now` is `time(NULL)` and
`fresh` the address `calloc` would return. -/
def cover_get_process (db : DB_functions_t) (filepath_size : Nat) (sync_queue : Bool)
    (now : Int) (fresh : Nat) (s : State) (job_idx : Int) (query : ddb_cover_query_t)
    (callback : Nat) : State × ProcessOutcome :=
  let failure : CallbackCall := { callback := callback, error := -1, query := query, cover := none }
  if query.track = 0 then (s, .done [failure])
  else
    let cover : ddb_cover_info_t :=
      { cover_info_alloc with
        filepath := ((db.pl_find_meta query.track ":URI").getD []).take (filepath_size - 1)
        album := db.tf_eval "%album%" query.track
        artist := db.tf_eval "%artist%" query.track
        title := db.tf_eval "%title%" query.track }
    if !sync_queue then (s, .done [failure])
    else if job_cancelled s job_idx then (s, .done [failure])
    else
      match cover_cache_find s.cover_cache cover with
      | some (i, cached) =>
        let cached := { cached with timestamp := now }
        ({ s with cover_cache := s.cover_cache.set i (some cached) },
          .done [execute_callback callback cached query])
      | none =>
        let r := squash_query db fresh s callback query
        if r.2 ≠ 0 then (r.1, .done []) else (r.1, .waiting cover)

/-- The part of the same block after `dispatch_semaphore_wait`: the second
checkpoint.  A cancelled job invokes its own callback with -1 and returns;
otherwise (`none`) the fetch block is dispatched.  The state is returned as it
was: nothing is unlinked here. -/
def cover_get_checkpoint (s : State) (job_idx : Int) (query : ddb_cover_query_t)
    (callback : Nat) : State × Option CallbackCall :=
  if job_cancelled s job_idx then
    (s, some { callback := callback, error := -1, query := query, cover := none })
  else (s, none)

/-- Operations that touch the job counters. -/
inductive Op where
  | get
  | reset
deriving DecidableEq, Repr

/-- One operation on the counters: a submission through `cover_get` or a
`reset` (`artwork_reset` calls `queue_clear`). -/
def Op.run (s : State) : Op → State
  | .get => (cover_get_submit s).1
  | .reset => queue_clear s

/-- A sequence of operations, oldest first. -/
def run_ops (s : State) (ops : List Op) : State := ops.foldl Op.run s


/-- A burst of submissions reaching `squash_query` one after the other, with
no completion in between; each entry is `(query, callback, fresh)`.  Returns
the final state and the values returned by `squash_query`, oldest first (a 0
is a query that goes on to start the probe chain). -/
def squash_all (db : DB_functions_t) :
    State → List (ddb_cover_query_t × Nat × Nat) → State × List Int
  | s, [] => (s, [])
  | s, (query, callback, fresh) :: rest =>
    let r := squash_query db fresh s callback query
    let r2 := squash_all db r.1 rest
    (r2.1, r.2 :: r2.2)

/-- A group that `squash_query` joins: its head query is equivalent to
`query` and it has fewer than `MAX_SQUASHED_QUERIES - 1 = 49` members. -/
def Joinable (db : DB_functions_t) (query : ddb_cover_query_t) (g : artwork_query_t) : Prop :=
  ∃ m, g.members.head? = some m ∧ queries_squashable db query m.1 = true ∧ g.members.length < 49

/-- A host without metadata: every lookup fails, every script evaluates to
the empty string. -/
def db0 : DB_functions_t :=
  { pl_find_meta := fun _ _ => none, tf_eval := fun _ _ => [] }

/-- The `i`-th query of a burst for one and the same track (track 1). -/
def burstQuery (i : Nat) : ddb_cover_query_t :=
  { addr := 1000 + i, type := 0, flags := 0, track := 1 }

/-- A burst of `n` queries for track 1; query `i` has callback `i` and would
get node address `i + 1`. -/
def burst (n : Nat) : List (ddb_cover_query_t × Nat × Nat) :=
  (List.range n).map (fun i => (burstQuery i, i, i + 1))


/-- A pending list with two groups: node 1 holds query 0 of the burst, node 2
(the tail) holds queries 1 and 2 with callbacks 20 and 21. -/
def pendingTwo : State :=
  { State.init with
    query_nodes := [{ addr := 1, members := [(burstQuery 0, 10)] },
                    { addr := 2, members := [(burstQuery 1, 20), (burstQuery 2, 21)] }],
    query_tail := some 2 }


/-- A host in which every track has the URI `/m/t.mp3` and no other
metadata. -/
def db1 : DB_functions_t :=
  { pl_find_meta := fun _ key => if key = ":URI" then some "/m/t.mp3".toList else none,
    tf_eval := fun _ _ => [] }

/-- A run of the code: query 0 of the burst is submitted and processed (it
creates its group and waits for a fetch slot), `reset` is called, the job
reaches the checkpoint after the wait, and then query 1 for the same track is
submitted and processed.  The result pairs the outcome of the checkpoint with
the outcome of processing query 1. -/
def cancelRun : (State × Option CallbackCall) × (State × ProcessOutcome) :=
  let s1 := cover_get_submit State.init
  let p1 := cover_get_process db1 4096 true 100 1 s1.1 s1.2 (burstQuery 0) 10
  let s3 := queue_clear p1.1
  let c := cover_get_checkpoint s3 s1.2 (burstQuery 0) 10
  let s4 := cover_get_submit c.1
  let p2 := cover_get_process db1 4096 true 101 2 s4.1 s4.2 (burstQuery 1) 11
  (c, p2)


/-! ### The disk cache path -/

/-- Value of `NAME_MAX` from `limits.h` (Linux). -/
def NAME_MAX : Nat := 255

/-- Value of `PATH_MAX` from `limits.h` (Linux). -/
def PATH_MAX : Nat := 4096

/-- Embedding of `esc_char`; `win32` selects the branch compiled under
`#ifdef WIN32`. -/
def esc_char (win32 : Bool) (c : Char) : Char :=
  if win32 then (if c = '\\' then '_' else c)
  else (if c = '/' then '\\' else c)

/-- Embedding of `make_cache_dir_path (artist, outpath, outsize)`.
`make_cache_root_path` (defined in `cache.c`) is a parameter: for a buffer
size it gives its return value and the string it leaves in `outpath`.  The
result is the return value and the content of `outpath`; `size_left` is a
`size_t`, hence the reduction modulo 2^64, and `snprintf` stores at most
`size_left - 1` characters. -/
def make_cache_dir_path (win32 : Bool) (make_cache_root_path : Int → Int × CStr)
    (artist : Option CStr) (outsize : Int) : Int × CStr :=
  let esc_artist : CStr :=
    match artist with
    | some a => (a.take NAME_MAX).map (esc_char win32)
    | none => "Unknown artist".toList
  let r := make_cache_root_path outsize
  if r.1 < 0 then (-1, r.2)
  else
    let outpath := r.2
    let size_left : Int := (outsize - (outpath.length : Int)) % 2 ^ 64
    let formatted : CStr := "covers2/".toList ++ esc_artist ++ ['/']
    let path_length : Int := (formatted.length : Int)
    if path_length ≥ size_left then (-1, outpath ++ formatted.take (size_left - 1).toNat)
    else (0, outpath ++ formatted)

/-- The first block of `make_cache_path`: the string used as album name.  An
album that is NULL or empty is replaced by `filepath` when that is not NULL,
else by a non-empty `artist`; `none` is the `return -1` of that block. -/
def make_cache_path_album (filepath album artist : Option CStr) : Option CStr :=
  if album = none ∨ album = some [] then
    match filepath with
    | some f => some f
    | none => if artist ≠ none ∧ artist ≠ some [] then artist else none
  else album

/-- The second block of `make_cache_path`: a NULL or empty artist becomes
`Unknown artist`. -/
def make_cache_path_artist (artist : Option CStr) : CStr :=
  match artist with
  | none => "Unknown artist".toList
  | some a => if a = [] then "Unknown artist".toList else a

/-- The last block of `make_cache_path`, run once `outpath` holds the
directory: the file name is appended.  `sizeof ("1.jpg.part")` is 11. -/
def make_cache_path_name (win32 : Bool) (album outpath : CStr) (outsize : Int) : Int × CStr :=
  let name_size : Int := outsize - (outpath.length : Int)
  let max_album_chars : Int := min (NAME_MAX : Int) name_size - 11
  if max_album_chars ≤ 0 then (-1, outpath)
  else
    let palbum : CStr :=
      if (album.length : Int) > max_album_chars then
        album.drop (album.length - max_album_chars.toNat)
      else album
    let esc_album : CStr := palbum.map (esc_char win32)
    (0, outpath ++ esc_album ++ ".jpg".toList)

/-- Embedding of `make_cache_path (filepath, album, artist, outpath, outsize)`:
the return value and the content of `outpath` on return.  A NULL argument is
`none`. -/
def make_cache_path (win32 : Bool) (make_cache_root_path : Int → Int × CStr)
    (filepath album artist : Option CStr) (outsize : Int) : Int × CStr :=
  match make_cache_path_album filepath album artist with
  | none => (-1, [])
  | some album =>
    let d := make_cache_dir_path win32 make_cache_root_path
      (some (make_cache_path_artist artist)) (outsize - NAME_MAX)
    if d.1 ≠ 0 then (-1, d.2)
    else make_cache_path_name win32 album d.2 outsize

/-- Where a relative path ends up, counted in directory levels below the
starting directory: `.` and empty components stay, `..` goes up one level,
any other component goes down one.  `none` when the path climbs above the
starting directory. -/
def resolve_depth : Nat → List CStr → Option Nat
  | d, [] => some d
  | d, c :: rest =>
    if c = [] ∨ c = ['.'] then resolve_depth d rest
    else if c = ['.', '.'] then (if d = 0 then none else resolve_depth (d - 1) rest)
    else resolve_depth (d + 1) rest

/-- A cache root for the examples: `make_cache_root_path` succeeds and leaves
`/c/` in the buffer. -/
def rootC : Int → Int × CStr := fun _ => (0, "/c/".toList)


/-! ### Embedded artwork: ID3v2, APEv2, MP4 -/

/-- The fields of `DB_id3v2_frame_t` used here; `data` holds the `size`
payload bytes.  `head` is the memory of the structure in front of `data`
(the fields `next`, `id`, `size`, `flags` and padding, as `deadbeef.h` lays
them out), byte by byte: the structure occupies `head ++ data`, and the
offset of `data` in it is the length of `head`. -/
structure DB_id3v2_frame_t where
  head : List Nat
  id : CStr
  size : Nat
  flags : List Nat
  data : List Nat
deriving DecidableEq, Repr

/-- The fields of `DB_id3v2_tag_t` used here; `frames` is the linked list of
frames in order. -/
structure DB_id3v2_tag_t where
  version : List Nat
  frames : List DB_id3v2_frame_t
deriving DecidableEq, Repr

/-- The fields of `DB_apev2_frame_t` used here; `head` is the memory of the
structure in front of `data`, as for `DB_id3v2_frame_t`. -/
structure DB_apev2_frame_t where
  head : List Nat
  key : CStr
  size : Nat
  data : List Nat
deriving DecidableEq, Repr

/-- The fields of `mp4p_ilst_meta_t` used here (`values` are 16-bit). -/
structure mp4p_ilst_meta_t where
  data_size : Nat
  blob : Option (List Nat)
  values : Option (List Nat)
deriving DecidableEq, Repr

/-- The loop `while (ptr < end && *ptr) ptr++` with `n` iterations left;
offsets are relative to the start of the payload. -/
def skip_bytes (data : List Nat) (end_ : Nat) : Nat → Nat → Nat
  | 0, ptr => ptr
  | n + 1, ptr =>
    if ptr < end_ ∧ data.getD ptr 0 ≠ 0 then skip_bytes data end_ n (ptr + 1) else ptr

/-- The loop `while (ptr < end-1 && (ptr[0] || ptr[1])) ptr += 2` with `n`
iterations left. -/
def skip_pairs (data : List Nat) (end_ : Nat) : Nat → Nat → Nat
  | 0, ptr => ptr
  | n + 1, ptr =>
    if (ptr : Int) < (end_ : Int) - 1 ∧ (data.getD ptr 0 ≠ 0 ∨ data.getD (ptr + 1) 0 ≠ 0) then
      skip_pairs data end_ n (ptr + 2)
    else ptr

/-- Embedding of `id3v2_skip_str (enc, ptr, end)`; pointers are offsets into
the payload, NULL is `none`.  Each loop runs at most `end - ptr` times. -/
def id3v2_skip_str (enc : Int) (data : List Nat) (ptr end_ : Nat) : Option Nat :=
  if enc = 0 ∨ enc = 3 then
    let p := skip_bytes data end_ (end_ - ptr) ptr + 1
    if p < end_ then some p else none
  else
    let p := skip_pairs data end_ (end_ - ptr) ptr + 2
    if p < end_ then some p else none

/-- Embedding of `id3v2_artwork (f, minor_version, type)`: the offset of the
returned pointer from `f->data`, `none` for NULL. -/
def id3v2_artwork (f : DB_id3v2_frame_t) (minor_version : Int) (type : Int) : Option Nat :=
  if (minor_version > 2 ∧ f.id ≠ "APIC".toList) ∨ (minor_version = 2 ∧ f.id ≠ "PIC".toList) then none
  else if f.size < 20 then none
  else
    let data0 : Nat := if minor_version = 4 ∧ (f.flags.getD 1 0) % 2 = 1 then 4 else 0
    let end_ : Nat := f.size
    let enc : Int := (f.data.getD data0 0 : Nat)
    let data1 := data0 + 1
    if minor_version > 2 then
      match id3v2_skip_str 0 f.data data1 end_ with
      | none => none
      | some mime_end =>
        if type = -1 ∨ ((f.data.getD mime_end 0 : Nat) : Int) = type then none
        else id3v2_skip_str enc f.data (mime_end + 1) end_
    else id3v2_skip_str enc f.data (data1 + 3 + 1) end_

/-- The comparison `!strcasecmp (s1, s2)`. -/
def strcasecmp_eq (s1 s2 : CStr) : Bool :=
  decide (s1.map Char.toLower = s2.map Char.toLower)

/-- Embedding of `apev2_artwork (f)`: the offset of the returned pointer from
`f->data`, `none` for NULL. -/
def apev2_artwork (f : DB_apev2_frame_t) : Option Nat :=
  if !strcasecmp_eq f.key "cover art (front)".toList then none
  else
    let end_ : Nat := f.size
    let data := skip_bytes f.data end_ end_ 0
    if data = end_ then none
    else
      let sz : Nat := end_ - (data + 1)
      if sz < 20 then none else some (data + 1)


/-! ### The probe chain -/

/-- Compile-time switches and configuration globals read by the probe chain. -/
structure Settings where
  WIN32 : Bool
  USE_VFS_CURL : Bool
  USE_METAFLAC : Bool
  artwork_disable_cache : Bool
  artwork_save_to_music_folders : Bool
  artwork_enable_embedded : Bool
  artwork_enable_local : Bool
  artwork_enable_lfm : Bool
  artwork_enable_wos : Bool

/-- Outcome of a remote fetch: it returned 0, it failed with
`errno == ECONNABORTED`, or it failed otherwise. -/
inductive FetchResult where
  | ok
  | aborted
  | failed
deriving DecidableEq, Repr

/-- Everything outside `artwork.c` that the probe chain consults: the file
system, the tag readers of the host, the remote services and the helpers of
the other files of the plugin.  `local_image_file` stands for the sibling
file scanner, whose answer is a function of directory listings: the image
file name it found for `(local_path, uri, vfsplug given)`, if any.
`stat` gives `(S_ISREG, st_size)` of an existing path, `write_file` its
return value. -/
structure World where
  make_cache_root_path : Int → Int × CStr
  is_local_file : CStr → Bool
  scandir_plug : CStr → Bool
  dirname : CStr → CStr
  local_image_file : CStr → Option CStr → Bool → Option CStr
  flac_extract_art : Option CStr → ddb_cover_info_t → Option ddb_cover_info_t
  junk_id3v2_read_full : CStr → Option DB_id3v2_tag_t
  junk_apev2_read_full : CStr → Option (List DB_apev2_frame_t)
  mp4_get_cover_atom : CStr → Option mp4p_ilst_meta_t
  stat : CStr → Option (Bool × Nat)
  write_file : CStr → Nat → Int
  fetch_from_lastfm : CStr → CStr → CStr → FetchResult
  fetch_from_wos : CStr → CStr → FetchResult

/-- What the probe chain does to the outside, in order. -/
inductive Action where
  | local_scan (local_path : CStr) (uri : Option CStr)
  | flac (filepath : CStr)
  | id3 (filepath : CStr)
  | apev2 (filepath : CStr)
  | mp4 (filepath : CStr)
  | lastfm (artist album dest : CStr)
  | wos (title dest : CStr)
  | write_file (path : CStr) (size : Nat)
  | copy_file (src dst : CStr)
deriving DecidableEq, Repr

/-- The actions that look for artwork (everything but the two file writes). -/
def Action.is_probe : Action → Bool
  | .write_file _ _ => false
  | .copy_file _ _ => false
  | _ => true

/-- The test `!stat (outname, &st) && S_ISREG (st.st_mode) && st.st_size > 0`. -/
def nonempty_regular_file (w : World) (path : CStr) : Bool :=
  match w.stat path with
  | some (isreg, size) => isreg && decide (size > 0)
  | none => false

/-- The body shared by the embedded probes once image bytes of size `sz` have
been located and caching is enabled: an existing non-empty regular file at
`outname` is taken as it is, otherwise the bytes are written there.  Returns
whether the probe is done (`err = 0; break`) with the cover and the file
writes attempted. -/
def store_embedded (w : World) (outname : CStr) (sz : Nat) (cover : ddb_cover_info_t) :
    Bool × ddb_cover_info_t × List Action :=
  if nonempty_regular_file w outname then
    (true, { cover with image_filename := some outname }, [])
  else if w.write_file outname sz = 0 then
    (true, { cover with image_filename := some outname }, [Action.write_file outname sz])
  else (false, cover, [Action.write_file outname sz])

/-- The frame loop of `id3_extract_art`: `err`, the cover and the file writes.
With caching disabled the blob handed out is the frame structure itself
(`cover->blob = (char *)f`), `blob_size` is the size of the payload, and
`blob_image_offset` is `image_data` counted from the start of the structure. -/
def id3_extract_art_loop (cfg : Settings) (w : World) (outname : Option CStr)
    (minor_version : Int) : List DB_id3v2_frame_t → ddb_cover_info_t →
    Int × ddb_cover_info_t × List Action
  | [], cover => (-1, cover, [])
  | f :: rest, cover =>
    let image_data :=
      match id3v2_artwork f minor_version 3 with
      | some p => some p
      | none => id3v2_artwork f minor_version 0
    match image_data with
    | none => id3_extract_art_loop cfg w outname minor_version rest cover
    | some p =>
      let sz : Nat := f.size - p
      if sz = 0 then id3_extract_art_loop cfg w outname minor_version rest cover
      else if !cfg.artwork_disable_cache then
        let r := store_embedded w (outname.getD []) sz cover
        if r.1 then (0, r.2.1, r.2.2)
        else
          let r2 := id3_extract_art_loop cfg w outname minor_version rest cover
          (r2.1, r2.2.1, r.2.2 ++ r2.2.2)
      else
        (0, { cover with blob := some (f.head ++ f.data), blob_size := f.size,
                         blob_image_offset := f.head.length + p,
                         blob_image_size := sz }, [])

/-- Embedding of `id3_extract_art (outname, cover)`. -/
def id3_extract_art (cfg : Settings) (w : World) (outname : Option CStr)
    (cover : ddb_cover_info_t) : Int × ddb_cover_info_t × List Action :=
  match w.junk_id3v2_read_full cover.filepath with
  | none => (-1, cover, [])
  | some tag => id3_extract_art_loop cfg w outname (tag.version.getD 0 0 : Nat) tag.frames cover

/-- The frame loop of `apev2_extract_art`. -/
def apev2_extract_art_loop (cfg : Settings) (w : World) (outname : Option CStr) :
    List DB_apev2_frame_t → ddb_cover_info_t → Int × ddb_cover_info_t × List Action
  | [], cover => (-1, cover, [])
  | f :: rest, cover =>
    match apev2_artwork f with
    | none => apev2_extract_art_loop cfg w outname rest cover
    | some p =>
      let sz : Nat := f.size - p
      if sz = 0 then apev2_extract_art_loop cfg w outname rest cover
      else if !cfg.artwork_disable_cache then
        let r := store_embedded w (outname.getD []) sz cover
        if r.1 then (0, r.2.1, r.2.2)
        else
          let r2 := apev2_extract_art_loop cfg w outname rest cover
          (r2.1, r2.2.1, r.2.2 ++ r2.2.2)
      else
        (0, { cover with blob := some (f.head ++ f.data), blob_size := f.size,
                         blob_image_offset := f.head.length + p,
                         blob_image_size := sz }, [])

/-- Embedding of `apev2_extract_art (outname, cover)`. -/
def apev2_extract_art (cfg : Settings) (w : World) (outname : Option CStr)
    (cover : ddb_cover_info_t) : Int × ddb_cover_info_t × List Action :=
  match w.junk_apev2_read_full cover.filepath with
  | none => (-1, cover, [])
  | some frames => apev2_extract_art_loop cfg w outname frames cover

/-- The test `strcasestr (haystack, needle) != NULL`. -/
def strcasestr_found (haystack needle : CStr) : Bool :=
  (haystack.map Char.toLower).tails.any (fun t => (needle.map Char.toLower).isPrefixOf t)

/-- Embedding of `mp4_extract_art (outname, cover)`.  The atom tree is read by
`mp4p_open` / `mp4_get_cover_atom`; 16-bit `values` are stored big-endian. -/
def mp4_extract_art (cfg : Settings) (w : World) (outname : Option CStr)
    (cover : ddb_cover_info_t) : Int × ddb_cover_info_t × List Action :=
  if !strcasestr_found cover.filepath ".mp4".toList ∧ !strcasestr_found cover.filepath ".m4a".toList
      ∧ !strcasestr_found cover.filepath ".m4b".toList then (-1, cover, [])
  else
    match w.mp4_get_cover_atom cover.filepath with
    | none => (-1, cover, [])
    | some data =>
      let sz := data.data_size
      let image_blob : Option (List Nat) :=
        match data.blob, data.values with
        | some b, _ => some (b.take sz)
        | none, some v => some ((v.take (sz / 2)).flatMap (fun x => [x / 256 % 256, x % 256]))
        | none, none => none
      match image_blob with
      | none => (-1, cover, [])
      | some bytes =>
        if !cfg.artwork_disable_cache then
          let r := store_embedded w (outname.getD []) sz cover
          if r.1 then (0, r.2.1, r.2.2) else (-1, cover, r.2.2)
        else
          (0, { cover with blob := some bytes, blob_size := data.data_size,
                           blob_image_size := data.data_size }, [])


/-- Index of the first occurrence of `needle` in a string (`strstr`). -/
def strstr_idx (needle : CStr) : CStr → Option Nat
  | [] => if needle = [] then some 0 else none
  | c :: rest =>
    if needle.isPrefixOf (c :: rest) then some 0 else (strstr_idx needle rest).map (· + 1)

/-- Index of the last occurrence of `c` in a string (`strrchr`). -/
def strrchr_idx (c : Char) : CStr → Option Nat
  | [] => none
  | x :: rest =>
    match strrchr_idx c rest with
    | some i => some (i + 1)
    | none => if x = c then some 0 else none

/-- Embedding of `vfs_path (fname)`: the returned string (NULL is `none`) and
the content of `fname` afterwards, which is cut at the last `:` of the part
that follows `://`. -/
def vfs_path (fname : CStr) : Option CStr × CStr :=
  if fname.head? = some '/' ∨ "file://".toList.isPrefixOf fname then (none, fname)
  else
    match strstr_idx "://".toList fname with
    | none => (none, fname)
    | some i =>
      let p := fname.drop (i + 3)
      match strrchr_idx ':' p with
      | some q => (some (p.take q), fname.take (i + 3 + q))
      | none => (some p, fname)

/-- Embedding of `web_lookups (cache_path, cover)`: the return value, the
cover and the fetches made.  MusicBrainz and AlbumArt.org are compiled out
(`ENABLE_MUSICBRAINZ` and `ENABLE_ALBUMART_ORG` are 0). -/
def web_lookups (cfg : Settings) (w : World) (cache_path : Option CStr)
    (cover : ddb_cover_info_t) : Int × ddb_cover_info_t × List Action :=
  match cache_path with
  | none => (0, cover, [])
  | some path =>
    if cfg.USE_VFS_CURL ∧ cfg.artwork_enable_lfm then
      match w.fetch_from_lastfm cover.artist cover.album path with
      | .ok => (1, { cover with image_filename := some path },
          [Action.lastfm cover.artist cover.album path])
      | .aborted => (0, cover, [Action.lastfm cover.artist cover.album path])
      | .failed => (-1, cover, [Action.lastfm cover.artist cover.album path])
    else (-1, cover, [])

/-- The sibling-file stage of `process_query`: whether the function returned
there, the cover and the scans made. -/
def process_query_local (cfg : Settings) (w : World) (cover : ddb_cover_info_t) :
    Bool × ddb_cover_info_t × List Action :=
  if cfg.artwork_enable_local ∧ w.is_local_file cover.filepath then
    let v := vfs_path cover.filepath
    let dir := w.dirname (v.1.getD v.2)
    let in_directory (before : List Action) : Bool × ddb_cover_info_t × List Action :=
      match w.local_image_file dir none false with
      | some img => (true, { cover with image_filename := some img, cover_found := 1 },
          before ++ [Action.local_scan dir none])
      | none => (false, cover, before ++ [Action.local_scan dir none])
    match v.1 with
    | some vfs_fname =>
      if w.scandir_plug vfs_fname then
        match w.local_image_file vfs_fname (some v.2) true with
        | some img => (true, { cover with image_filename := some img, cover_found := 1 },
            [Action.local_scan vfs_fname (some v.2)])
        | none => in_directory [Action.local_scan vfs_fname (some v.2)]
      else in_directory []
    | none => in_directory []
  else (false, cover, [])

/-- The embedded-tag stage of `process_query`: FLAC (under `USE_METAFLAC`),
ID3v2, APEv2, MP4, in this order; the first probe that returns 0 ends the
function with `cover_found = 1`. -/
def process_query_embedded (cfg : Settings) (w : World) (cache_path : Option CStr)
    (cover : ddb_cover_info_t) : Bool × ddb_cover_info_t × List Action :=
  if cfg.artwork_enable_embedded ∧ w.is_local_file cover.filepath then
    let flac : Option ddb_cover_info_t × List Action :=
      if cfg.USE_METAFLAC then (w.flac_extract_art cache_path cover, [Action.flac cover.filepath])
      else (none, [])
    match flac.1 with
    | some c => (true, { c with cover_found := 1 }, flac.2)
    | none =>
      let r1 := id3_extract_art cfg w cache_path cover
      let a1 := flac.2 ++ [Action.id3 cover.filepath] ++ r1.2.2
      if r1.1 = 0 then (true, { r1.2.1 with cover_found := 1 }, a1)
      else
        let r2 := apev2_extract_art cfg w cache_path cover
        let a2 := a1 ++ [Action.apev2 cover.filepath] ++ r2.2.2
        if r2.1 = 0 then (true, { r2.2.1 with cover_found := 1 }, a2)
        else
          let r3 := mp4_extract_art cfg w cache_path cover
          let a3 := a2 ++ [Action.mp4 cover.filepath] ++ r3.2.2
          if r3.1 = 0 then (true, { r3.2.1 with cover_found := 1 }, a3)
          else (false, cover, a3)
  else (false, cover, [])

/-- The web stage of `process_query` (compiled under `USE_VFS_CURL`), entered
with a non-NULL `cache_path`: whether the function returned there, the cover
and what was done. -/
def process_query_web (cfg : Settings) (w : World) (cache_path : CStr)
    (cover : ddb_cover_info_t) : Bool × ddb_cover_info_t × List Action :=
  if cfg.artwork_enable_wos ∧ cover.filepath.length > 3 ∧
      strcasecmp_eq (cover.filepath.drop (cover.filepath.length - 3)) ".ay".toList then
    match w.fetch_from_wos cover.title cache_path with
    | .ok => (true, { cover with image_filename := some cache_path, cover_found := 1 },
        [Action.wos cover.title cache_path])
    | .aborted => (true, { cover with cover_found := 0 }, [Action.wos cover.title cache_path])
    | .failed => (false, cover, [Action.wos cover.title cache_path])
  else
    let r1 := web_lookups cfg w (some cache_path) cover
    let r2 : Int × ddb_cover_info_t × List Action :=
      if r1.1 < 0 then
        match r1.2.1.album.findIdx? (fun c => c = '(' ∨ c = '[') with
        | some p =>
          let r := web_lookups cfg w (some cache_path) { r1.2.1 with album := r1.2.1.album.take p }
          (r.1, { r.2.1 with album := r1.2.1.album.set p '(' }, r1.2.2 ++ r.2.2)
        | none => r1
      else r1
    if r2.1 ≥ 0 then
      let cover2 := { r2.2.1 with cover_found := r2.1 }
      match cover2.image_filename with
      | some img =>
        if r2.1 ≠ 0 ∧ cfg.artwork_save_to_music_folders then
          match strrchr_idx '/' cover2.filepath with
          | none => (true, cover2, r2.2.2)
          | some slash =>
            let coverpath := cover2.filepath.take (slash + 1) ++ "cover.jpg".toList
            if (w.stat coverpath).isNone then
              (true, cover2, r2.2.2 ++ [Action.copy_file img coverpath])
            else (true, cover2, r2.2.2)
        else (true, cover2, r2.2.2)
      | none => (true, cover2, r2.2.2)
    else (false, r2.2.1, r2.2.2)

/-- The first statements of `process_query`: `cache_path` stays NULL when
caching is disabled, otherwise it points to `cache_path_buf` as left by
`make_cache_path`, whose return value the code does not look at. -/
def process_query_cache_path (cfg : Settings) (w : World) (cover : ddb_cover_info_t) :
    Option CStr :=
  if !cfg.artwork_disable_cache then
    some (make_cache_path cfg.WIN32 w.make_cache_root_path (some cover.filepath)
      (some cover.album) (some cover.artist) PATH_MAX).2
  else none

/-- The rest of `process_query`, for a given `cache_path`: the stages in
order, then the zero-byte placeholder. -/
def process_query_chain (cfg : Settings) (w : World) (cache_path : Option CStr)
    (cover : ddb_cover_info_t) : ddb_cover_info_t × List Action :=
  let l := process_query_local cfg w cover
  if l.1 then (l.2.1, l.2.2)
  else
    let e := process_query_embedded cfg w cache_path l.2.1
    if e.1 then (e.2.1, l.2.2 ++ e.2.2)
    else
      match cache_path with
      | none => ({ e.2.1 with cover_found := 0 }, l.2.2 ++ e.2.2)
      | some path =>
        let web : Bool × ddb_cover_info_t × List Action :=
          if cfg.USE_VFS_CURL then process_query_web cfg w path e.2.1 else (false, e.2.1, [])
        if web.1 then (web.2.1, l.2.2 ++ e.2.2 ++ web.2.2)
        else
          ({ web.2.1 with cover_found := 0 },
            l.2.2 ++ e.2.2 ++ web.2.2 ++ [Action.write_file path 0])

/-- Embedding of `process_query (cover)`: the cover on return and what the
function did, in order. -/
def process_query (cfg : Settings) (w : World) (cover : ddb_cover_info_t) :
    ddb_cover_info_t × List Action :=
  process_query_chain cfg w (process_query_cache_path cfg w cover) cover

/-- The block of `cover_get` on `fetch_queue`: `process_query` followed by
`callback_and_free_squashed`. -/
def cover_get_fetch (cfg : Settings) (w : World) (now : Int) (s : State)
    (cover : ddb_cover_info_t) (query : ddb_cover_query_t) :
    State × List CallbackCall × List Action :=
  let p := process_query cfg w cover
  let r := callback_and_free_squashed now s p.1 query
  (r.1, r.2, p.2)


/-- Settings for the examples: POSIX build with remote probes compiled in,
caching on, every probe enabled. -/
def cfgAll : Settings :=
  { WIN32 := false, USE_VFS_CURL := true, USE_METAFLAC := false,
    artwork_disable_cache := false, artwork_save_to_music_folders := false,
    artwork_enable_embedded := true, artwork_enable_local := true,
    artwork_enable_lfm := true, artwork_enable_wos := true }

/-- Settings for the examples: caching on, every probe switched off. -/
def cfgNone : Settings :=
  { cfgAll with artwork_enable_embedded := false, artwork_enable_local := false,
                artwork_enable_lfm := false, artwork_enable_wos := false }

/-- The cover record of a local track `/m/t.mp3` by `Artist` on `Album`. -/
def trackCover : ddb_cover_info_t :=
  { cover_info_alloc with filepath := "/m/t.mp3".toList, album := "Album".toList,
                          artist := "Artist".toList, title := "Title".toList }

/-- A world for the examples.  The cache root is `/c/`; the only file known
to `stat` is a regular file of `size` bytes at the cache path of
`trackCover`; the track has no tags and every remote fetch fails; the sibling
scan finds `/m/cover.jpg` when `sibling` is set. -/
def worldC (size : Nat) (sibling : Bool) : World :=
  { make_cache_root_path := rootC
    is_local_file := fun _ => true
    scandir_plug := fun _ => false
    dirname := fun _ => "/m".toList
    local_image_file := fun _ _ _ => if sibling then some "/m/cover.jpg".toList else none
    flac_extract_art := fun _ _ => none
    junk_id3v2_read_full := fun _ => none
    junk_apev2_read_full := fun _ => none
    mp4_get_cover_atom := fun _ => none
    stat := fun p => if p = "/c/covers2/Artist/Album.jpg".toList then some (true, size) else none
    write_file := fun _ _ => 0
    fetch_from_lastfm := fun _ _ _ => FetchResult.failed
    fetch_from_wos := fun _ _ => FetchResult.failed }

/-- An ID3v2.3 `APIC` frame of 24 bytes: encoding 0, empty MIME string,
picture type 0, empty description, 20 image bytes.  The bytes in front of the
payload are left out (`head` is empty). -/
def apicFrame : DB_id3v2_frame_t :=
  { head := [], id := "APIC".toList, size := 24, flags := [0, 0],
    data := [0, 0, 0, 0] ++ List.replicate 20 255 }

/-- The world `worldC size false` for a track that carries `apicFrame`. -/
def worldTagged (size : Nat) : World :=
  { worldC size false with
    junk_id3v2_read_full := fun _ => some { version := [3, 0], frames := [apicFrame] } }


/-- The album component in the words of the fallback rule: the album when it
is non-empty, otherwise the track URI when there is one, otherwise the artist
when it is non-empty, otherwise none. -/
def album_component (filepath album artist : Option CStr) : Option CStr :=
  match album with
  | some (a :: l) => some (a :: l)
  | _ =>
    match filepath with
    | some f => some f
    | none =>
      match artist with
      | some (r :: l) => some (r :: l)
      | _ => none

/-- The artist component in the words of the fallback rule: the artist, or
`Unknown artist` when the artist is missing or empty. -/
def artist_component (artist : Option CStr) : CStr :=
  match artist with
  | some (a :: l) => a :: l
  | _ => "Unknown artist".toList

/-- A cache root of 3830 characters: with it the directory part no longer fits
into the `PATH_MAX - NAME_MAX` bytes that `make_cache_path` grants it. -/
def longRoot : CStr := '/' :: List.replicate 3828 'r' ++ ['/']

/-- The world `worldC 0 sibling` with the cache root `longRoot` and no file
known to `stat`. -/
def worldLong (sibling : Bool) : World :=
  { worldC 0 sibling with
    make_cache_root_path := fun _ => (0, longRoot)
    stat := fun _ => none }


/-- The description of a picture frame with its terminator: single bytes
closed by one NUL, or byte pairs closed by a NUL pair. -/
inductive Description where
  | single (text : List Nat)
  | double (pairs : List (Nat × Nat))
deriving DecidableEq, Repr

/-- The bytes of a description, terminator included. -/
def Description.bytes : Description → List Nat
  | .single text => text ++ [0]
  | .double pairs => pairs.flatMap (fun p => [p.1, p.2]) ++ [0, 0]

/-- The description is terminated as its encoding byte says: encodings 0 and
3 have single bytes, none of them NUL, encodings 1 and 2 have byte pairs,
none of them a NUL pair. -/
def Description.ok (enc : Nat) : Description → Bool
  | .single text => (enc = 0 || enc = 3) && !text.contains 0
  | .double pairs => (enc = 1 || enc = 2) && !pairs.contains (0, 0)

/-- What stands between the encoding byte and the picture type: for v2.3 and
later a MIME string with its closing NUL and no other NUL, for v2.2 the three
bytes of the image format. -/
def mime_or_format_ok (minor_version : Int) (header : List Nat) : Bool :=
  if minor_version > 2 then header.getLast? = some 0 && !header.dropLast.contains 0
  else minor_version = 2 && header.length = 3

/-- The payload of a picture frame: the four bytes of the data length
indicator when there is one (`pre`), the encoding byte, the MIME string or
image format, the picture type, the description and the image. -/
def picture_payload (pre : List Nat) (enc : Nat) (header : List Nat) (picture_type : Nat)
    (description : Description) (image : List Nat) : List Nat :=
  pre ++ enc :: (header ++ picture_type :: (description.bytes ++ image))

/-- An ID3v2.3 `APIC` frame of 24 bytes with the given picture type: encoding
0, empty MIME string, empty description, 20 image bytes.  The bytes in front
of the payload are left out (`head` is empty). -/
def apicFrameOfType (picture_type : Nat) : DB_id3v2_frame_t :=
  { head := [], id := "APIC".toList, size := 24, flags := [0, 0],
    data := picture_payload [] 0 [0] picture_type (.single []) (List.replicate 20 255) }


/-- The world `worldC 0 false` for a track whose ID3v2.3 tag carries two
`APIC` frames: picture type 5 first, then picture type 3 (front cover). -/
def worldTwoFrames : World :=
  { worldC 0 false with
    junk_id3v2_read_full := fun _ =>
      some { version := [3, 0], frames := [apicFrameOfType 5, apicFrameOfType 3] } }

/-- An ID3v2.2 `PIC` frame of 30 bytes: encoding 1, image format `JPG`,
picture type 3, the description `A` in two-byte characters closed by a NUL
pair, 21 image bytes.  The bytes in front of the payload are left out. -/
def picFrame22 : DB_id3v2_frame_t :=
  { head := [], id := "PIC".toList, size := 30, flags := [0, 0],
    data := picture_payload [] 1 [74, 80, 71] 3 (.double [(65, 0)]) (List.replicate 21 255) }


/-- An APEv2 cover frame: the file name `a.jpg`, its closing NUL and 20 image
bytes.  The bytes in front of the payload are left out. -/
def apeFrame : DB_apev2_frame_t :=
  { head := [], key := "Cover Art (Front)".toList, size := 26,
    data := [97, 46, 106, 112, 103, 0] ++ List.replicate 20 255 }


/-- An album name of 245 characters: `x` followed by 244 times `y`. -/
def longAlbum : CStr := 'x' :: List.replicate 244 'y'

/-- The frame `picFrame22` as it lies in memory, the fields in front of `data`
taking 22 bytes. -/
def picFrameInMemory : DB_id3v2_frame_t :=
  { picFrame22 with head := List.replicate 22 170 }

/-- A text frame `TT2` of an ID3v2.2 tag. -/
def textFrame22 : DB_id3v2_frame_t :=
  { head := List.replicate 22 170, id := "TT2".toList, size := 6, flags := [0, 0],
    data := [0, 84, 105, 116, 108, 101] }

/-- The world `worldC 0 false` for a track whose ID3v2.2 tag carries
`textFrame22` and then `picFrameInMemory`. -/
def worldPicture : World :=
  { worldC 0 false with
    junk_id3v2_read_full := fun _ =>
      some { version := [2, 0], frames := [textFrame22, picFrameInMemory] } }

end Artwork

namespace Medialib

open Artwork (CStr strrchr_idx)

/-! ### The library index (`medialib.c`) -/

/-- A playlist item as `medialib.c` sees it: its address, its flags
(`pl_get_item_flags`), its `:URI` and its other metadata as key/value pairs.
Metadata values are interned by the host (`metacache`), so comparing two of
them by pointer is comparing the strings. -/
structure DB_playItem_t where
  id : Nat
  flags : Nat
  uri : CStr
  metadata : List (String × CStr)
deriving DecidableEq, Repr

/-- Embedding of `deadbeef->pl_find_meta (it, key)`. -/
def pl_find_meta (it : DB_playItem_t) (key : String) : Option CStr :=
  if key = ":URI" then some it.uri else it.metadata.lookup key

/-- The host services `ml_index` relies on: title formatting for a compiled
script, integer metadata, and the address at which the string interner keeps
a given string (the index hashes these addresses). -/
structure Host where
  tf_eval : String → DB_playItem_t → CStr
  pl_find_meta_int : DB_playItem_t → String → Int → Int
  metacache_addr : CStr → Nat

/-- The script compiled into `artist_album_id_bc`. -/
def artist_album_id_script : String :=
  "artist=$if2(%album artist%,Unknown Artist);album=$if2(%album%,Unknown Album)"

/-- Value of `DDB_IS_SUBTRACK` in `deadbeef.h`. -/
def DDB_IS_SUBTRACK : Nat := 1

/-- Number of buckets of every hash of the index (`#define ML_HASH_SIZE 4096`). -/
def ML_HASH_SIZE : Nat := 4096

/-- Embedding of `hash_for_ptr (ptr)`: the multiplication is in `uint64_t`. -/
def hash_for_ptr (ptr : Nat) : Nat :=
  (1181783497276652981 * ptr % 2 ^ 64) % ML_HASH_SIZE

/-- An element of the array `musicpaths_json`: a JSON string or anything else. -/
inductive json_t where
  | string (value : CStr)
  | other
deriving DecidableEq, Repr

/-- One `ml_string_t`: its text and the tracks of its item list, in list
order, with `items_count`. -/
structure ml_string_t where
  text : CStr
  items : List DB_playItem_t
  items_count : Int
deriving DecidableEq, Repr

/-- One `ml_collection_t`: `strings` is the list from `head` to `tail`,
`hash h` is the chain of bucket `h` (newest first), each node referred to by
its text, and `count` is the field of that name. -/
structure ml_collection_t where
  hash : Nat → List CStr
  strings : List ml_string_t
  count : Int

/-- A zeroed collection. -/
def ml_collection_t.empty : ml_collection_t :=
  { hash := fun _ => [], strings := [], count := 0 }

/-- The tail of `hash_add`: with a track given, a new `ml_collection_item_t`
is appended to the item list of the string. -/
def ml_string_t.add_item (s : ml_string_t) : Option DB_playItem_t → ml_string_t
  | none => s
  | some it => { s with items := s.items ++ [it], items_count := s.items_count + 1 }

/-- Embedding of `ml_reg_col (coll, c, it)` together with the `hash_add` it
calls.  The bucket of the address of `c` is searched for a node with that
text; if there is none a node is created, put in front of the bucket and
linked after `tail`; the track, if any, is appended to the node.  The result
is the collection and the returned pointer: the new node (given by its text)
or NULL when the string was already there. -/
def ml_reg_col (host : Host) (coll : ml_collection_t) (c : CStr) (it : Option DB_playItem_t) :
    ml_collection_t × Option CStr :=
  let h := hash_for_ptr (host.metacache_addr c)
  if c ∈ coll.hash h then
    ({ coll with strings := coll.strings.map (fun s => if s.text = c then s.add_item it else s) },
      none)
  else
    ({ hash := fun k => if k = h then c :: coll.hash h else coll.hash k
       strings := coll.strings ++ [({ text := c, items := [], items_count := 0 } : ml_string_t).add_item it]
       count := coll.count + 1 }, some c)

/-- One `ml_tree_node_t`: its text, the tracks of its item list and its child
nodes, both in list order. -/
inductive ml_tree_node_t where
  | mk (text : CStr) (items : List DB_playItem_t) (children : List ml_tree_node_t)

/-- The text of a tree node. -/
def ml_tree_node_t.text : ml_tree_node_t → CStr
  | .mk t _ _ => t

/-- The first `len` characters of both strings agree (`!strncmp (s1, s2, len)`),
a string that ends early counting as followed by NUL. -/
def strncmp_eq (s1 s2 : CStr) (len : Nat) : Bool :=
  decide (s1.take len = s2.take len)

/-- The child search of `ml_reg_item_in_folder`: the first child accepted by
`found` is replaced by `descend` of it; `none` when no child is accepted. -/
def update_first_child (found : ml_tree_node_t → Bool) (descend : ml_tree_node_t → ml_tree_node_t) :
    List ml_tree_node_t → Option (List ml_tree_node_t)
  | [] => none
  | c :: rest =>
    if found c then some (descend c :: rest)
    else (update_first_child found descend rest).map (fun r => c :: r)

/-- Embedding of `ml_reg_item_in_folder (node, path, it)`, with the number of
calls bounded by `n`; each call consumes at least one character of a
non-empty path.  After the last segment the code steps over the terminator;
the character read there is taken to be NUL. -/
def ml_reg_item_in_folder : Nat → ml_tree_node_t → CStr → DB_playItem_t → ml_tree_node_t
  | 0, node, _, _ => node
  | n + 1, .mk text items children, path, it =>
    if path = [] then .mk text (items ++ [it]) children
    else
      let slash : Nat := (path.indexOf? '/').getD path.length
      let len : Nat := if slash = 0 ∧ path = ['/'] then 1 else slash
      let next := path.drop (len + 1)
      match update_first_child (fun c => strncmp_eq c.text path len)
          (fun c => ml_reg_item_in_folder n c next it) children with
      | some children2 => .mk text items children2
      | none =>
        .mk text items
          (children ++ [ml_reg_item_in_folder n (.mk (path.take len) [] []) next it])

/-- One `ml_entry_t`; a pointer to an `ml_string_t` is the text of that
string, `none` for NULL. -/
structure ml_entry_t where
  file : CStr
  title : Option CStr
  subtrack : Int
  artist : Option CStr
  album : Option CStr
  genre : Option CStr
  folder : Option CStr
  track_uri : Option CStr
deriving DecidableEq, Repr

/-- The index `ml_db_t`: `tracks` is the entry list in `next` order and
`filename_hash h` the chain of bucket `h` in `bucket_next` order. -/
structure ml_db_t where
  tracks : List ml_entry_t
  filename_hash : Nat → List ml_entry_t
  albums : ml_collection_t
  artists : ml_collection_t
  genres : ml_collection_t
  folders_tree : ml_tree_node_t
  track_uris : ml_collection_t


/-- The search for the relative URI in `ml_index`: the array is walked in
order, a non-string element ends the search, and the first path that `uri`
starts with (`strncmp` over the length of the path) is stripped together with
one following `/`.  `none` is `reluri == NULL`. -/
def find_reluri : List json_t → CStr → Option CStr
  | [], _ => none
  | .other :: _, _ => none
  | .string musicdir :: rest, uri =>
    if musicdir.isPrefixOf uri then
      let reluri := uri.drop musicdir.length
      some (if reluri.head? = some '/' then reluri.drop 1 else reluri)
    else find_reluri rest uri

/-- The interned string `<?>`. -/
def unknown : CStr := "<?>".toList

/-- The variables of `ml_index` that live across loop iterations. -/
structure IndexVars where
  db : ml_db_t
  has_unknown_artist : Bool
  has_unknown_album : Bool
  has_unknown_genre : Bool

/-- The state of `ml_index` when the loop is entered: the index has been
cleared by `ml_free_db` and the root of the folder tree created. -/
def IndexVars.init : IndexVars :=
  { db := { tracks := [], filename_hash := fun _ => [],
            albums := ml_collection_t.empty, artists := ml_collection_t.empty,
            genres := ml_collection_t.empty, folders_tree := .mk [] [] [],
            track_uris := ml_collection_t.empty },
    has_unknown_artist := false, has_unknown_album := false, has_unknown_genre := false }

/-- The body of the loop of `ml_index` for a track that is kept, `reluri`
being its relative URI and `artist` its artist or `<?>`. -/
def ml_index_track (host : Host) (it : DB_playItem_t) (artist reluri : CStr) (v : IndexVars) :
    IndexVars :=
  let has_unknown_album := v.has_unknown_album || (pl_find_meta it "album").isNone
  let album := host.tf_eval artist_album_id_script it
  let genre := (pl_find_meta it "genre").getD unknown
  let has_unknown_genre := v.has_unknown_genre || decide (genre = unknown)
  let alb := ml_reg_col host v.db.albums album (some it)
  let art := ml_reg_col host v.db.artists artist (some it)
  let gnr := ml_reg_col host v.db.genres genre (some it)
  let trkuri := ml_reg_col host v.db.track_uris it.uri (some it)
  let folder : CStr :=
    match strrchr_idx '/' reluri with
    | some fn => reluri.take fn
    | none => ['/']
  let tree := ml_reg_item_in_folder (folder.length + 1) v.db.folders_tree folder it
  let en : ml_entry_t :=
    { file := it.uri
      title := pl_find_meta it "title"
      subtrack := if it.flags / DDB_IS_SUBTRACK % 2 = 1 then host.pl_find_meta_int it ":TRACKNUM" (-1)
                  else -1
      artist := art.2, album := alb.2, genre := gnr.2, folder := none, track_uri := trkuri.2 }
  let hash := hash_for_ptr (host.metacache_addr en.file)
  { db := { tracks := v.db.tracks ++ [en]
            filename_hash := fun k => if k = hash then en :: v.db.filename_hash hash
                                      else v.db.filename_hash k
            albums := alb.1, artists := art.1, genres := gnr.1
            folders_tree := tree, track_uris := trkuri.1 }
    has_unknown_artist := v.has_unknown_artist
    has_unknown_album := has_unknown_album
    has_unknown_genre := has_unknown_genre }

/-- The loop `while (it && !source->scanner_terminate)` of `ml_index` over the
items of the playlist, entered with `scanner_terminate` clear (the flag is
only changed on the queue that runs `ml_index`).  Returns the items left in
the playlist, in order, and the loop variables. -/
def ml_index_loop (host : Host) (musicpaths_json : List json_t) :
    List DB_playItem_t → IndexVars → List DB_playItem_t × IndexVars
  | [], v => ([], v)
  | it :: rest, v =>
    let artist := (pl_find_meta it "artist").getD unknown
    let v1 := { v with has_unknown_artist := v.has_unknown_artist || decide (artist = unknown) }
    match find_reluri musicpaths_json it.uri with
    | none => ml_index_loop host musicpaths_json rest v1
    | some reluri =>
      let r := ml_index_loop host musicpaths_json rest (ml_index_track host it artist reluri v1)
      (it :: r.1, r.2)

/-- The statements of `ml_index` after the loop: the string `<?>` is
registered, without a track, in each collection whose flag is clear. -/
def ml_index_finish (host : Host) (v : IndexVars) : ml_db_t :=
  let artists := if !v.has_unknown_artist then (ml_reg_col host v.db.artists unknown none).1
                 else v.db.artists
  let albums := if !v.has_unknown_album then (ml_reg_col host v.db.albums unknown none).1
                else v.db.albums
  let genres := if !v.has_unknown_genre then (ml_reg_col host v.db.genres unknown none).1
                else v.db.genres
  { v.db with artists := artists, albums := albums, genres := genres }

/-- Embedding of `ml_index (source, plt)`: the playlist afterwards and the
index built.  `scanner_terminate` and `musicpaths_json` are the fields of the
source. -/
def ml_index (host : Host) (scanner_terminate : Bool) (musicpaths_json : List json_t)
    (plt : List DB_playItem_t) : List DB_playItem_t × ml_db_t :=
  let r := if scanner_terminate then (plt, IndexVars.init)
           else ml_index_loop host musicpaths_json plt IndexVars.init
  (r.1, ml_index_finish host r.2)

/-- The texts of the strings of a collection, in list order. -/
def ml_collection_t.texts (coll : ml_collection_t) : List CStr := coll.strings.map (·.text)

/-- A host for the examples: the formatter knows the album key script only
through the `album` field, integers are not consulted, and the interner keeps
a string at an address derived from its length and first character. -/
def host0 : Host :=
  { tf_eval := fun _ it => "artist=Unknown Artist;album=".toList ++
      ((it.metadata.lookup "album").getD "Unknown Album".toList)
    pl_find_meta_int := fun _ _ d => d
    metacache_addr := fun s => 4096 + 16 * (s.length + 256 * (s.headD 'a').toNat) }

/-- A track with the given address, URI and metadata. -/
def mkTrack (id : Nat) (uri : String) (metadata : List (String × String)) : DB_playItem_t :=
  { id := id, flags := 0, uri := uri.toList, metadata := metadata.map (fun p => (p.1, p.2.toList)) }


/-- The monitored paths that `ml_index` gets to see: the string elements of
the array before its first non-string element. -/
def monitored_paths : List json_t → List CStr
  | [] => []
  | .other :: _ => []
  | .string d :: rest => d :: monitored_paths rest

/-- The URI starts with one of the monitored paths, character by character. -/
def starts_with_monitored (musicpaths_json : List json_t) (uri : CStr) : Bool :=
  (monitored_paths musicpaths_json).any (fun d => d.isPrefixOf uri)

/-- The URI lies inside the directory: it is the directory path, a separator,
and a path below it (the separator may be the last character of the
directory path). -/
def lies_inside (dir uri : CStr) : Bool :=
  dir.isPrefixOf uri &&
    (decide (dir.getLast? = some '/') || decide ((uri.drop dir.length).head? = some '/'))

/-- The buckets of the filename hash, one after the other. -/
def ml_db_t.hashed_entries (db : ml_db_t) : List ml_entry_t :=
  (List.range ML_HASH_SIZE).flatMap db.filename_hash


/-! ### Reading the index -/

mutual
/-- The tracks of the item lists of a folder-tree node and of all nodes below
it: the node's own items first, then those of its children in order. -/
def tree_items : ml_tree_node_t → List DB_playItem_t
  | .mk _ items children => items ++ forest_items children
/-- The tracks of the item lists of a list of folder-tree nodes. -/
def forest_items : List ml_tree_node_t → List DB_playItem_t
  | [] => []
  | c :: rest => tree_items c ++ forest_items rest
end

/-- The string under which `ml_index` registers a track in the artists
collection: its `artist` or `<?>`. -/
def artist_key (it : DB_playItem_t) : CStr := (pl_find_meta it "artist").getD unknown

/-- The string under which `ml_index` registers a track in the albums
collection: the composite key given by the formatter. -/
def album_key (host : Host) (it : DB_playItem_t) : CStr := host.tf_eval artist_album_id_script it

/-- The string under which `ml_index` registers a track in the genres
collection: its `genre` or `<?>`. -/
def genre_key (it : DB_playItem_t) : CStr := (pl_find_meta it "genre").getD unknown

/-- A track occurs exactly once in the item lists of a collection, namely in
the list of the one string whose text is `key`. -/
def once_under (coll : ml_collection_t) (key : CStr) (it : DB_playItem_t) : Prop :=
  coll.texts.Nodup ∧ key ∈ coll.texts ∧
    ∀ s ∈ coll.strings, s.items.count it = if s.text = key then 1 else 0

/-- How often a track occurs in the item lists of the strings with text `t`. -/
def ml_collection_t.count_of (coll : ml_collection_t) (t : CStr) (x : DB_playItem_t) : Nat :=
  ((coll.strings.filter (fun s => decide (s.text = t))).map (fun s => s.items.count x)).sum

/-- Registration of a list of tracks, one after the other, each under its key. -/
def reg_all (host : Host) (key : DB_playItem_t → CStr) (coll : ml_collection_t)
    (tracks : List DB_playItem_t) : ml_collection_t :=
  tracks.foldl (fun c it => (ml_reg_col host c (key it) (some it)).1) coll

/-- The hash and the list of a collection hold the same strings, each once. -/
def CollInv (host : Host) (coll : ml_collection_t) : Prop :=
  coll.texts.Nodup ∧
    ∀ c, c ∈ coll.hash (hash_for_ptr (host.metacache_addr c)) ↔ c ∈ coll.texts


/-! ### The scan filter (`ml_filter_int`) -/

/-- White space as `isspace` sees it in the C locale. -/
def isspace (c : Char) : Bool :=
  c = ' ' || c = '\t' || c = '\n' || c.toNat = 11 || c.toNat = 12 || c = '\r'

/-- The number written by a list of decimal digits. -/
def digits_value (ds : List Char) : Nat := ds.foldl (fun n c => 10 * n + (c.toNat - 48)) 0

/-- Saturation to the range of `long long`. -/
def clamp64 (v : Int) : Int := max (-(2 ^ 63)) (min v (2 ^ 63 - 1))

/-- The conversion `%lld` of `sscanf` (and `strtol`) at the start of a string:
white space is skipped, a sign is optional, and at least one decimal digit
must follow, otherwise nothing is converted (`none`).  A value out of range
is saturated, as `strtoll` does. -/
def scan_lld (s : CStr) : Option Int :=
  let t := s.dropWhile isspace
  let neg := decide (t.head? = some '-')
  let u := if t.head? = some '-' ∨ t.head? = some '+' then t.drop 1 else t
  let ds := u.takeWhile Char.isDigit
  if ds = [] then none
  else some (clamp64 (if neg then -(digits_value ds : Int) else (digits_value ds : Int)))

/-- Embedding of `hash_find (coll->hash, val)`: the string of the
collection found in the bucket of the address of `val`, the chain being
searched for a node with that text. -/
def hash_find (host : Host) (coll : ml_collection_t) (val : CStr) : Option ml_string_t :=
  if val ∈ coll.hash (hash_for_ptr (host.metacache_addr val)) then
    coll.strings.find? (fun s => decide (s.text = val))
  else none

/-- The first loop of `ml_filter_int` over the items of the track-URI string:
`true` when it leaves the function with `return 0`, that is at the first
item without `:MEDIALIB_SCAN_TIME`, with one that `sscanf` does not convert,
or with a scan time below `mtime`. -/
def ml_filter_check (mtime : Int) : List DB_playItem_t → Bool
  | [] => false
  | it :: rest =>
    match pl_find_meta it ":MEDIALIB_SCAN_TIME" with
    | none => true
    | some stimestamp =>
      match scan_lld stimestamp with
      | none => true
      | some timestamp => if timestamp < mtime then true else ml_filter_check mtime rest

/-- The second loop of `ml_filter_int`: an item that is still in
`ml_playlist` is removed from it and inserted after the tail of the playlist
being built; the state is `(ml_playlist, plt)`. -/
def ml_filter_move :
    List DB_playItem_t → List DB_playItem_t × List DB_playItem_t →
      List DB_playItem_t × List DB_playItem_t
  | [], st => st
  | it :: rest, st =>
    if it ∈ st.1 then ml_filter_move rest (st.1.erase it, st.2 ++ [it])
    else ml_filter_move rest st

/-- Embedding of `ml_filter_int (data, mtime, source)`.  `interned` tells
whether `metacache_get_string` finds the file name, `db` and `ml_playlist`
are the fields of the source and `plt` is `data->plt`.  The result is the
return value with the two playlists afterwards. -/
def ml_filter_int (host : Host) (interned : CStr → Bool) (db : ml_db_t)
    (ml_playlist plt : List DB_playItem_t) (filename : CStr) (mtime : Int) :
    Int × List DB_playItem_t × List DB_playItem_t :=
  if !interned filename then (0, ml_playlist, plt)
  else
    let hash := hash_for_ptr (host.metacache_addr filename)
    if db.filename_hash hash = [] then (0, ml_playlist, plt)
    else
      match (db.filename_hash hash).find? (fun en => decide (en.file = filename)) with
      | none => (-1, ml_playlist, plt)
      | some _ =>
        match hash_find host db.track_uris filename with
        | none => (-1, ml_playlist, plt)
        | some str =>
          if ml_filter_check mtime str.items then (0, ml_playlist, plt)
          else (-1, ml_filter_move str.items (ml_playlist, plt))

/-- The tracks entered in the index under a URI: the items of its string in
the track-URI collection. -/
def uri_items (host : Host) (db : ml_db_t) (uri : CStr) : List DB_playItem_t :=
  match hash_find host db.track_uris uri with
  | none => []
  | some str => str.items

/-- A track has no parseable `:MEDIALIB_SCAN_TIME`, or one strictly older
than `mtime`. -/
def stale (mtime : Int) (it : DB_playItem_t) : Bool :=
  match pl_find_meta it ":MEDIALIB_SCAN_TIME" with
  | none => true
  | some stimestamp =>
    match scan_lld stimestamp with
    | none => true
    | some timestamp => decide (timestamp < mtime)

/-- The file name of an indexed track and one of a file that is not indexed. -/
def fileA : CStr := "/music/a.mp3".toList

/-- A file name that is not indexed. -/
def fileB : CStr := "/music/b.mp3".toList

/-- A host whose interner keeps the two file names `fileA` and `fileB` at the
addresses `0x10000` and `0x20000`, both of which fall into bucket 0. -/
def host1 : Host :=
  { host0 with
    metacache_addr := fun s =>
      if s = fileA then 65536 else if s = fileB then 131072 else host0.metacache_addr s }


/-- The indexed track of the examples: the file `fileA`, scanned at time 100. -/
def trackA : DB_playItem_t := mkTrack 1 "/music/a.mp3" [(":MEDIALIB_SCAN_TIME", "100")]

/-- The index built from the playlist holding `trackA` alone. -/
def dbA : ml_db_t := (ml_index host1 false [json_t.string "/music".toList] [trackA]).2


/-! ### The source: listeners, folders, refresh and the scanner -/

/-- The values of `ddb_mediasource_state_t` that `medialib.c` assigns to
`_ml_state`. -/
inductive ddb_mediasource_state_t where
  | IDLE
  | LOADING
  | SCANNING
  | INDEXING
  | SAVING
deriving DecidableEq, Repr

/-- The events that `medialib.c` passes to `ml_notify_listeners`:
`DDB_MEDIASOURCE_EVENT_CONTENT_DID_CHANGE`, `..._STATE_DID_CHANGE`,
`..._ENABLED_DID_CHANGE` and
`DDB_MEDIALIB_MEDIASOURCE_EVENT_FOLDERS_DID_CHANGE`. -/
inductive ddb_mediasource_event_t where
  | CONTENT_DID_CHANGE
  | STATE_DID_CHANGE
  | ENABLED_DID_CHANGE
  | FOLDERS_DID_CHANGE
deriving DecidableEq, Repr

/-- Size of the listener table (`#define MAX_LISTENERS 10`). -/
def MAX_LISTENERS : Nat := 10

/-- The fields of `medialib_source_t` other than the two queues and the
filter registration.  A listener is the address of its function, 0 for NULL,
and so is its userdata; `musicpaths_json` is `none` for NULL; `db` is `none`
as long as the index is the zeroed one of a new source. -/
structure medialib_source_t where
  scanner_terminate : Bool
  scanner_current_index : Int
  scanner_cancel_index : Int
  musicpaths_json : Option (List json_t)
  disable_file_operations : Bool
  enabled : Int
  ml_playlist : Option (List DB_playItem_t)
  db : Option ml_db_t
  ml_listeners : List Nat
  ml_listeners_userdatas : List Nat
  _ml_state : ddb_mediasource_state_t
  source_conf_prefix : CStr

/-- What a function of the source does that can be seen from outside, in the
order in which it happens: an assignment to `_ml_state`, a call of a listener
with an event and its userdata, `conf_set_str`, `conf_save`, and `plt_save`
of a playlist to a file. -/
inductive Step where
  | state (s : ddb_mediasource_state_t)
  | listener (fn : Nat) (event : ddb_mediasource_event_t) (userdata : Nat)
  | conf_set_str (key value : CStr)
  | conf_save
  | plt_save (fname : CStr) (plt : List DB_playItem_t)
deriving DecidableEq, Repr

/-- Embedding of `ml_notify_listeners (source, event)`: the slots are visited
from 0 to `MAX_LISTENERS - 1` and every non-NULL listener is called with the
userdata of its slot. -/
def ml_notify_listeners (source : medialib_source_t) (event : ddb_mediasource_event_t) :
    List Step :=
  (List.range MAX_LISTENERS).filterMap (fun i =>
    if source.ml_listeners.getD i 0 ≠ 0 then
      some (Step.listener (source.ml_listeners.getD i 0) event
        (source.ml_listeners_userdatas.getD i 0))
    else none)

/-- Embedding of `ml_add_listener (source, listener, user_data)`: the first
slot holding NULL takes the listener and its userdata and its index is
returned; -1 when there is no such slot. -/
def ml_add_listener (source : medialib_source_t) (listener user_data : Nat) :
    medialib_source_t × Int :=
  match (List.range MAX_LISTENERS).find? (fun i => decide (source.ml_listeners.getD i 0 = 0)) with
  | some i =>
    ({ source with ml_listeners := source.ml_listeners.set i listener
                   ml_listeners_userdatas := source.ml_listeners_userdatas.set i user_data },
      (i : Int))
  | none => (source, -1)

/-- Embedding of `ml_remove_listener (source, listener_id)`.  The code writes
to the slot without a bounds check; an id outside the table has no defined
effect (`none`). -/
def ml_remove_listener (source : medialib_source_t) (listener_id : Int) :
    Option medialib_source_t :=
  if 0 ≤ listener_id ∧ listener_id < MAX_LISTENERS then
    some { source with ml_listeners := source.ml_listeners.set listener_id.toNat 0
                       ml_listeners_userdatas :=
                         source.ml_listeners_userdatas.set listener_id.toNat 0 }
  else none

/-- The configuration store and the JSON library as the source uses them:
`conf_get_str_fast` (`none` for a key without value), `conf_get_int` with its
default, `json_loads` (`none` when the text does not load as an array) and
`json_dumps` with `JSON_COMPACT` of an array (`none` for failure). -/
structure Conf where
  conf_get_str_fast : CStr → Option CStr
  conf_get_int : CStr → Int → Int
  json_loads : CStr → Option (List json_t)
  json_dumps : List json_t → Option CStr

/-- Embedding of `_ml_get_music_paths (source)`: the array stored under
`<prefix>paths`, an empty array when the key has no value. -/
def _ml_get_music_paths (conf : Conf) (source : medialib_source_t) : Option (List json_t) :=
  match conf.conf_get_str_fast ((source.source_conf_prefix ++ "paths".toList).take 199) with
  | none => some []
  | some paths => conf.json_loads paths

/-- Embedding of `_save_folders_config (source)`: the dump of the array is
stored under `<prefix>paths` and the configuration saved; nothing happens
when `json_dumps` gives NULL, which it does for a NULL array. -/
def _save_folders_config (conf : Conf) (source : medialib_source_t) : List Step :=
  match source.musicpaths_json with
  | none => []
  | some array =>
    match conf.json_dumps array with
    | none => []
    | some dump =>
      [Step.conf_set_str ((source.source_conf_prefix ++ "paths".toList).take 199) dump,
       Step.conf_save]

/-- Embedding of `json_array_insert (json, index, value)`: -1 for NULL and
for an index beyond the size (a negative `int` is a huge `size_t`). -/
def json_array_insert (json : Option (List json_t)) (index : Int) (value : json_t) :
    Option (List json_t) × Int :=
  match json with
  | none => (none, -1)
  | some array =>
    if 0 ≤ index ∧ index ≤ array.length then
      (some (array.take index.toNat ++ value :: array.drop index.toNat), 0)
    else (some array, -1)

/-- Embedding of `json_array_remove (json, index)`: -1 for NULL and for an
index that is not below the size. -/
def json_array_remove (json : Option (List json_t)) (index : Int) :
    Option (List json_t) × Int :=
  match json with
  | none => (none, -1)
  | some array =>
    if 0 ≤ index ∧ index < array.length then (some (array.eraseIdx index.toNat), 0)
    else (some array, -1)

/-- Embedding of `json_array_append (json, value)`: -1 for NULL. -/
def json_array_append (json : Option (List json_t)) (value : json_t) :
    Option (List json_t) × Int :=
  match json with
  | none => (none, -1)
  | some array => (some (array ++ [value]), 0)

/-- Embedding of `ml_set_folders (source, folders, count)`: the array is
created if it is NULL, cleared and filled with the folders, and the
configuration is saved.  The function has no other statement. -/
def ml_set_folders (conf : Conf) (source : medialib_source_t) (folders : List CStr) :
    medialib_source_t × List Step :=
  let source1 := { source with musicpaths_json := some (folders.map json_t.string) }
  (source1, _save_folders_config conf source1)

/-- Embedding of `ml_insert_folder_at_index (source, folder, index)`. -/
def ml_insert_folder_at_index (conf : Conf) (source : medialib_source_t) (folder : CStr)
    (index : Int) : medialib_source_t × List Step :=
  let r := json_array_insert source.musicpaths_json index (json_t.string folder)
  let source1 := { source with musicpaths_json := r.1 }
  (source1, _save_folders_config conf source1 ++
    (if r.2 ≠ -1 then ml_notify_listeners source1 ddb_mediasource_event_t.FOLDERS_DID_CHANGE
     else []))

/-- Embedding of `ml_remove_folder_at_index (source, index)`. -/
def ml_remove_folder_at_index (conf : Conf) (source : medialib_source_t) (index : Int) :
    medialib_source_t × List Step :=
  let r := json_array_remove source.musicpaths_json index
  let source1 := { source with musicpaths_json := r.1 }
  (source1, _save_folders_config conf source1 ++
    (if r.2 ≠ -1 then ml_notify_listeners source1 ddb_mediasource_event_t.FOLDERS_DID_CHANGE
     else []))

/-- Embedding of `ml_append_folder (source, folder)`. -/
def ml_append_folder (conf : Conf) (source : medialib_source_t) (folder : CStr) :
    medialib_source_t × List Step :=
  let r := json_array_append source.musicpaths_json (json_t.string folder)
  let source1 := { source with musicpaths_json := r.1 }
  (source1, _save_folders_config conf source1 ++
    (if r.2 ≠ -1 then ml_notify_listeners source1 ddb_mediasource_event_t.FOLDERS_DID_CHANGE
     else []))

/-- Addition in `int64_t`, wrapping around. -/
def wrap64 (v : Int) : Int := (v + 2 ^ 63) % 2 ^ 64 - 2 ^ 63

/-- Embedding of `ml_create_source (source_path)`: the structure comes zeroed
from `calloc`, then the prefix, the folders and `enabled` are set. -/
def ml_create_source (conf : Conf) (source_path : CStr) : medialib_source_t :=
  let zeroed : medialib_source_t :=
    { scanner_terminate := false, scanner_current_index := 0, scanner_cancel_index := 0,
      musicpaths_json := none, disable_file_operations := false, enabled := 0,
      ml_playlist := none, db := none,
      ml_listeners := List.replicate MAX_LISTENERS 0,
      ml_listeners_userdatas := List.replicate MAX_LISTENERS 0,
      _ml_state := ddb_mediasource_state_t.IDLE,
      source_conf_prefix := ("medialib.".toList ++ source_path ++ ['.']).take 99 }
  { zeroed with
    musicpaths_json := _ml_get_music_paths conf zeroed
    enabled := conf.conf_get_int (( zeroed.source_conf_prefix ++ "enabled".toList).take 199) 1 }

/-- The first block of `ml_refresh`, run on the sync queue: the scan in
progress is told to stop, all queued scans are cancelled and a new scan index
is drawn, which the block hands to the job that `ml_refresh` queues. -/
def ml_refresh_block (source : medialib_source_t) : medialib_source_t × Int :=
  let current := wrap64 (source.scanner_current_index + 1)
  ({ source with scanner_terminate := true
                 scanner_cancel_index := source.scanner_current_index
                 scanner_current_index := current }, current)

/-- The source after `n` calls of `ml_refresh`: the two scan indices are
written nowhere but in the first block of `ml_refresh`. -/
def after_refreshes : Nat → medialib_source_t → medialib_source_t
  | 0, source => source
  | n + 1, source => (ml_refresh_block (after_refreshes n source)).1


/-- A registration in force: the id that `ml_add_listener` returned for it,
the listener and its userdata. -/
structure Registration where
  id : Nat
  listener : Nat
  userdata : Nat
deriving DecidableEq, Repr

/-- A call of `ml_add_listener` or of `ml_remove_listener`. -/
inductive ListenerOp where
  | add (listener user_data : Nat)
  | remove (listener_id : Int)
deriving DecidableEq, Repr

/-- One call on the source, together with the list of the registrations in
force, kept in the order in which they were made: a successful
`ml_add_listener` of a non-NULL listener adds one at the end, and
`ml_remove_listener` ends the one with that id. -/
def listener_op (st : medialib_source_t × List Registration) :
    ListenerOp → Option (medialib_source_t × List Registration)
  | .add listener user_data =>
    let r := ml_add_listener st.1 listener user_data
    some (r.1, if 0 ≤ r.2 ∧ listener ≠ 0 then st.2 ++ [⟨r.2.toNat, listener, user_data⟩] else st.2)
  | .remove listener_id =>
    (ml_remove_listener st.1 listener_id).map
      (fun s => (s, st.2.filter (fun r => decide ((r.id : Int) ≠ listener_id))))

/-- A sequence of calls, `none` when one of them has no defined effect. -/
def listener_ops :
    List ListenerOp → medialib_source_t × List Registration →
      Option (medialib_source_t × List Registration)
  | [], st => some st
  | op :: rest, st => (listener_op st op).bind (listener_ops rest)

/-- A configuration store without values, whose dump of an array is the
texts of its strings, each followed by a comma, between brackets. -/
def conf0 : Conf :=
  { conf_get_str_fast := fun _ => none
    conf_get_int := fun _ d => d
    json_loads := fun _ => none
    json_dumps := fun array => some ('[' :: (array.flatMap (fun d =>
      match d with
      | .string v => v ++ [',']
      | .other => ['?', ','])) ++ [']']) }


/-- The listener table and the list of registrations in force agree: slot `i`
holds a listener exactly when a registration has the id `i`, and then it
holds the listener and userdata of that registration; no two registrations
share an id. -/
def ListenerInv (tbl : medialib_source_t) (reg : List Registration) : Prop :=
  tbl.ml_listeners.length = MAX_LISTENERS ∧
  tbl.ml_listeners_userdatas.length = MAX_LISTENERS ∧
  (∀ i, i < MAX_LISTENERS →
    reg.find? (fun r => decide (r.id = i)) =
      if tbl.ml_listeners.getD i 0 ≠ 0 then
        some ⟨i, tbl.ml_listeners.getD i 0, tbl.ml_listeners_userdatas.getD i 0⟩
      else none) ∧
  (∀ r ∈ reg, r.id < MAX_LISTENERS) ∧
  (reg.map (fun r => r.id)).Nodup

/-- Two listeners are added, the first one is removed and a third one is
added. -/
def listenerOpsX : List ListenerOp :=
  [.add 101 1, .add 102 2, .remove 0, .add 103 3]

/-- The source after `listenerOpsX`: the third listener sits in slot 0, in
front of the second one. -/
def sourceX : medialib_source_t :=
  { ml_create_source conf0 "x".toList with
    ml_listeners := [103, 102, 0, 0, 0, 0, 0, 0, 0, 0]
    ml_listeners_userdatas := [3, 2, 0, 0, 0, 0, 0, 0, 0, 0] }


/-- The services of the player that the scanner uses: the configuration
directory, `plt_load2` of a playlist file into a new playlist, the clock, and
`plt_insert_dir3`, which adds the files below a directory (NULL for an array
element that is not a string) to the playlist being built; it is given the
abort flag and, through the registered file filter, may move tracks over from
`ml_playlist`, so it maps the two playlists to the two playlists. -/
structure ScanHost where
  get_system_dir : CStr
  plt_load2 : CStr → List DB_playItem_t
  time : Int
  plt_insert_dir3 : Bool → Option CStr → List DB_playItem_t × List DB_playItem_t →
    List DB_playItem_t × List DB_playItem_t

/-- Embedding of `deadbeef->pl_replace_meta (it, key, value)`: the value of
the key is replaced, or the pair added at the end. -/
def pl_replace_meta (it : DB_playItem_t) (key : String) (value : CStr) : DB_playItem_t :=
  { it with
    metadata :=
      if (it.metadata.lookup key).isSome then
        it.metadata.map (fun p => if p.1 = key then (key, value) else p)
      else it.metadata ++ [(key, value)] }

/-- The statements `source->ml_playlist = plt; ml_index (source, plt)`. -/
def ml_index_source (host : Host) (source : medialib_source_t) (plt : List DB_playItem_t) :
    medialib_source_t :=
  let r := ml_index host source.scanner_terminate (source.musicpaths_json.getD []) plt
  { source with ml_playlist := some r.1, db := some r.2 }

/-- Embedding of `_ml_load_playlist (source, plpath)`. -/
def _ml_load_playlist (host : Host) (sh : ScanHost) (source : medialib_source_t) (plpath : CStr) :
    medialib_source_t × List Step :=
  let s1 := { source with _ml_state := ddb_mediasource_state_t.LOADING }
  let t1 := Step.state ddb_mediasource_state_t.LOADING ::
    ml_notify_listeners s1 ddb_mediasource_event_t.STATE_DID_CHANGE
  let plt := if source.disable_file_operations then [] else sh.plt_load2 plpath
  let s2 := { s1 with _ml_state := ddb_mediasource_state_t.INDEXING }
  let t2 := Step.state ddb_mediasource_state_t.INDEXING ::
    ml_notify_listeners s2 ddb_mediasource_event_t.STATE_DID_CHANGE
  let s3 := ml_index_source host s2 plt
  let s4 := { s3 with _ml_state := ddb_mediasource_state_t.IDLE }
  (s4, t1 ++ t2 ++ Step.state ddb_mediasource_state_t.IDLE ::
    (ml_notify_listeners s4 ddb_mediasource_event_t.CONTENT_DID_CHANGE ++
     ml_notify_listeners s4 ddb_mediasource_event_t.STATE_DID_CHANGE))

/-- Embedding of `get_medialib_paths (source, &count)`: a NULL array is read
from the configuration first; an empty array gives NULL (`none`), otherwise
the copy has one element per array element, NULL for one that is not a
string. -/
def get_medialib_paths (conf : Conf) (source : medialib_source_t) :
    medialib_source_t × Option (List (Option CStr)) :=
  let json := match source.musicpaths_json with
    | none => _ml_get_music_paths conf source
    | some array => some array
  let source1 := { source with musicpaths_json := json }
  if (json.getD []).length = 0 then (source1, none)
  else (source1, some ((json.getD []).map (fun data =>
    match data with
    | .string value => some value
    | .other => none)))

/-- Embedding of `scanner_thread (source, conf)`, run without another block
of the sync queue coming in between. -/
def scanner_thread (host : Host) (sh : ScanHost) (source : medialib_source_t)
    (medialib_paths : List (Option CStr)) : medialib_source_t × List Step :=
  let plpath := (sh.get_system_dir ++ "/medialib.dbpl".toList).take (Artwork.PATH_MAX - 1)
  let l := _ml_load_playlist host sh source plpath
  let s1 := { l.1 with _ml_state := ddb_mediasource_state_t.SCANNING }
  let t1 := Step.state ddb_mediasource_state_t.SCANNING ::
    ml_notify_listeners s1 ddb_mediasource_event_t.STATE_DID_CHANGE
  let scanned := medialib_paths.foldl
    (fun st musicdir => sh.plt_insert_dir3 s1.scanner_terminate musicdir st)
    (s1.ml_playlist.getD [], [])
  let s2 := { s1 with ml_playlist := some scanned.1
                      _ml_state := ddb_mediasource_state_t.INDEXING }
  let t2 := Step.state ddb_mediasource_state_t.INDEXING ::
    ml_notify_listeners s2 ddb_mediasource_event_t.STATE_DID_CHANGE
  let stimestamp : CStr := (toString sh.time).toList
  let plt := scanned.2.map (fun it => pl_replace_meta it ":MEDIALIB_SCAN_TIME" stimestamp)
  let t3 := (if s2.disable_file_operations then [] else [Step.plt_save plpath plt]) ++
    ml_notify_listeners s2 ddb_mediasource_event_t.CONTENT_DID_CHANGE
  let s3 := { s2 with _ml_state := ddb_mediasource_state_t.SAVING }
  let t4 := Step.state ddb_mediasource_state_t.SAVING ::
    ml_notify_listeners s3 ddb_mediasource_event_t.STATE_DID_CHANGE
  let s4 := ml_index_source host s3 plt
  let s5 := { s4 with _ml_state := ddb_mediasource_state_t.IDLE }
  (s5, l.2 ++ t1 ++ t2 ++ t3 ++ t4 ++ Step.state ddb_mediasource_state_t.IDLE ::
    ml_notify_listeners s5 ddb_mediasource_event_t.STATE_DID_CHANGE)

/-- The job that `ml_refresh` puts on the scanner queue, for the scan index
drawn in its first block: a cancelled job does nothing; without folders, or
with the source disabled, playlist and index are emptied; otherwise the
scanner runs. -/
def ml_refresh_job (host : Host) (conf : Conf) (sh : ScanHost) (source : medialib_source_t)
    (scanner_current_index : Int) : medialib_source_t × List Step :=
  if source.scanner_cancel_index ≥ scanner_current_index then (source, [])
  else
    let s1 := { source with scanner_terminate := false }
    let p := get_medialib_paths conf s1
    match p.2 with
    | some medialib_paths =>
      if p.1.enabled ≠ 0 then scanner_thread host sh p.1 medialib_paths
      else
        let s2 := ml_index_source host p.1 []
        (s2, ml_notify_listeners s2 ddb_mediasource_event_t.CONTENT_DID_CHANGE)
    | none =>
      let s2 := ml_index_source host p.1 []
      (s2, ml_notify_listeners s2 ddb_mediasource_event_t.CONTENT_DID_CHANGE)

/-- Embedding of `ml_refresh (source)` with its job run at once. -/
def ml_refresh (host : Host) (conf : Conf) (sh : ScanHost) (source : medialib_source_t) :
    medialib_source_t × List Step :=
  let b := ml_refresh_block source
  ml_refresh_job host conf sh b.1 b.2

/-- The values that `_ml_state` takes, in order. -/
def states_of (trace : List Step) : List ddb_mediasource_state_t :=
  trace.filterMap (fun s =>
    match s with
    | .state v => some v
    | _ => none)

/-- A scanner host for the examples: the stored playlist holds `trackA`, and
scanning a directory moves what is left of the old playlist to the new one. -/
def scanHost0 : ScanHost :=
  { get_system_dir := "/cfg".toList
    plt_load2 := fun _ => [trackA]
    time := 200
    plt_insert_dir3 := fun _ _ st => ([], st.2 ++ st.1) }

/-- The source of the listener example with the folder `/music`. -/
def sourceY : medialib_source_t :=
  { sourceX with musicpaths_json := some [json_t.string "/music".toList], enabled := 1 }


/-- The relative URI obtained by stripping a monitored path: the URI without
its first `dir.length` characters and without one `/` that follows. -/
def strip_monitored (dir uri : CStr) : CStr :=
  if (uri.drop dir.length).head? = some '/' then (uri.drop dir.length).drop 1
  else uri.drop dir.length

/-- The longest of the monitored paths that the URI starts with, if any (the
first one among several of the same length). -/
def longest_monitored (musicpaths_json : List json_t) (uri : CStr) : Option CStr :=
  ((monitored_paths musicpaths_json).filter (fun d => d.isPrefixOf uri)).foldl
    (fun best d =>
      match best with
      | none => some d
      | some b => if b.length < d.length then some d else some b) none

mutual
/-- The tracks of a folder-tree node and of the nodes below it, each with the
node texts on the way from this node to the node that holds it. -/
def tree_paths : ml_tree_node_t → List (List CStr × DB_playItem_t)
  | .mk text items children =>
    items.map (fun it => ([text], it)) ++
      (forest_paths children).map (fun p => (text :: p.1, p.2))
/-- The tracks below a list of folder-tree nodes with their paths. -/
def forest_paths : List ml_tree_node_t → List (List CStr × DB_playItem_t)
  | [] => []
  | c :: rest => tree_paths c ++ forest_paths rest
end

/-- The folder of a kept track as `ml_index` computes it: the relative URI up
to its last `/`, or `/` when it has none. -/
def track_folder (musicpaths_json : List json_t) (uri : CStr) : Option CStr :=
  (find_reluri musicpaths_json uri).map (fun reluri =>
    match strrchr_idx '/' reluri with
    | some fn => reluri.take fn
    | none => ['/'])

/-- The `/`-separated segments of a folder; the folder `/` is the single
segment `/`. -/
def folder_segments (folder : CStr) : List CStr :=
  if folder = ['/'] then [['/']] else folder.splitOn '/'


/-! ### The item tree (`_create_item_tree_from_collection`) -/

/-- One `ddb_medialib_item_t` as the tree builder fills it: `children` is the
list from `children` along `next`, `num_children` the field of that name. -/
inductive ddb_medialib_item_t where
  | mk (text : Option CStr) (track : Option DB_playItem_t)
      (children : List ddb_medialib_item_t) (num_children : Int)

/-- The text of an item. -/
def ddb_medialib_item_t.text : ddb_medialib_item_t → Option CStr
  | .mk t _ _ _ => t

/-- The track of an item. -/
def ddb_medialib_item_t.track : ddb_medialib_item_t → Option DB_playItem_t
  | .mk _ t _ _ => t

/-- The children of an item. -/
def ddb_medialib_item_t.children : ddb_medialib_item_t → List ddb_medialib_item_t
  | .mk _ _ c _ => c

/-- The field `num_children` of an item. -/
def ddb_medialib_item_t.num_children : ddb_medialib_item_t → Int
  | .mk _ _ _ n => n

/-- An item as `calloc` gives it. -/
def ddb_medialib_item_t.zeroed : ddb_medialib_item_t := .mk none none [] 0

/-- The script compiled into `title_bc`. -/
def title_script : String := "[%tracknumber%. ]%title%"

/-- The script compiled into `artist_album_bc`. -/
def artist_album_script : String := "[%album artist% - ]%album%"

/-- The values of `medialibSelector_t`; `SEL_FILLER` stands for every value
other than the four selectors. -/
inductive medialibSelector_t where
  | SEL_ALBUMS
  | SEL_ARTISTS
  | SEL_GENRES
  | SEL_FOLDERS
  | SEL_FILLER
deriving DecidableEq, Repr

/-- Embedding of `_is_blank_text (track_field)`: NULL, or no character above
`0x20`. -/
def _is_blank_text (track_field : Option CStr) : Bool :=
  match track_field with
  | none => true
  | some s => s.all (fun c => decide (c.toNat ≤ 32))

/-- The statements that put a new item at the end of the children of a
parent and count it: `if (tail) { tail->next = x; tail = x; } else
{ tail = parent->children = x; }` followed by `parent->num_children++`.  The
state is the parent and whether `tail` is set. -/
def link_child (st : ddb_medialib_item_t × Bool) (x : ddb_medialib_item_t) :
    ddb_medialib_item_t × Bool :=
  (.mk st.1.text st.1.track (if st.2 then st.1.children ++ [x] else [x])
    (st.1.num_children + 1), true)

/-- The item made for a track: its text is the title given by the formatter. -/
def track_item (host : Host) (it : DB_playItem_t) : ddb_medialib_item_t :=
  .mk (some (host.tf_eval title_script it)) (some it) [] 0

/-- One turn of the loop of `get_list_of_tracks_for_album`; the state is
`libitem` and whether `album_item` (and with it `album_tail`) is set. -/
def get_list_of_tracks_step (host : Host) (is_selected : DB_playItem_t → Bool) (selected : Bool)
    (st : ddb_medialib_item_t × Bool) (it : DB_playItem_t) : ddb_medialib_item_t × Bool :=
  if selected && !is_selected it then st
  else
    let text := host.tf_eval artist_album_script it
    let libitem : ddb_medialib_item_t :=
      if st.2 then st.1
      else .mk (some (if !_is_blank_text (some text) then text else unknown)) st.1.track
        st.1.children st.1.num_children
    link_child (libitem, st.2) (track_item host it)

/-- Embedding of `get_list_of_tracks_for_album (libitem, album, selected)`:
the first `items_count` tracks of the album string are visited. -/
def get_list_of_tracks_for_album (host : Host) (is_selected : DB_playItem_t → Bool)
    (libitem : ddb_medialib_item_t) (album : ml_string_t) (selected : Bool) :
    ddb_medialib_item_t :=
  ((album.items.take album.items_count.toNat).foldl
    (get_list_of_tracks_step host is_selected selected) (libitem, false)).1

/-- The second loop of `get_subfolders_for_folder`, over the tracks of the
folder; `tail` is carried over from the first loop. -/
def get_subfolders_tracks (host : Host) (is_selected : DB_playItem_t → Bool) (selected : Bool)
    (st : ddb_medialib_item_t × Bool) (items : List DB_playItem_t) : ddb_medialib_item_t × Bool :=
  items.foldl (fun st it =>
    if selected && !is_selected it then st else link_child st (track_item host it)) st

mutual
/-- Embedding of `get_subfolders_for_folder (folderitem, folder, selected)`. -/
def get_subfolders_for_folder (host : Host) (is_selected : DB_playItem_t → Bool)
    (selected : Bool) (folderitem : ddb_medialib_item_t) : ml_tree_node_t → ddb_medialib_item_t
  | .mk text items children =>
    let folderitem1 : ddb_medialib_item_t :=
      if folderitem.text = none then
        .mk (some text) folderitem.track folderitem.children folderitem.num_children
      else folderitem
    (get_subfolders_tracks host is_selected selected
      (get_subfolders_children host is_selected selected (folderitem1, false) children) items).1
/-- The first loop of `get_subfolders_for_folder`, over the child nodes: a
subfolder item is built for each and linked when its `num_children` is
positive, freed otherwise. -/
def get_subfolders_children (host : Host) (is_selected : DB_playItem_t → Bool)
    (selected : Bool) (st : ddb_medialib_item_t × Bool) :
    List ml_tree_node_t → ddb_medialib_item_t × Bool
  | [] => st
  | c :: rest =>
    let subfolder := get_subfolders_for_folder host is_selected selected
      ddb_medialib_item_t.zeroed c
    if subfolder.num_children > 0 then
      get_subfolders_children host is_selected selected (link_child st subfolder) rest
    else get_subfolders_children host is_selected selected st rest
end


/-- The variables of `get_albums_for_collection_group_by_field` that live
across its loops.  `coll_item k` and `coll_item_tail k` are the fields of
those names of the `k`-th string of the collection (`coll_item_tail` is given
as whether it is set: it points to the last child of `coll_item`).  The items
linked under `root` are these very `coll_item`s, which keep changing while
they hang there, so the list keeps their bucket numbers. -/
structure ml_group_state where
  coll_item : Nat → Option ddb_medialib_item_t
  coll_item_tail : Nat → Bool
  root_links : List Nat
  root_tail : Bool
  root_num_children : Int

/-- The group state together with the two locals of the loop over one album:
whether `album_item` and `album_tail` are set.  `album_item` is the node that
was linked last under the `coll_item` of the bucket of the album. -/
structure ml_album_loop where
  g : ml_group_state
  album_item : Bool
  album_tail : Bool

/-- The last element of a list replaced by its image. -/
def update_last {α : Type} (f : α → α) : List α → List α
  | [] => []
  | [a] => [f a]
  | a :: b :: rest => a :: update_last f (b :: rest)

/-- The first statements of one turn of the loop over the tracks of an album
whose bucket is the `k`-th string of the collection, with text `s_text`:
`s->coll_item` is created if it is NULL, and when `album_item` is not set yet
a new album item is linked under it and counted.  The result is `libitem`
and whether `s->coll_item_tail` is set. -/
def group_linked (host : Host) (k : Nat) (s_text : CStr) (st : ml_album_loop)
    (it : DB_playItem_t) : ddb_medialib_item_t × Bool :=
  let lib0 : ddb_medialib_item_t :=
    match st.g.coll_item k with
    | none => .mk (some s_text) none [] 0
    | some libitem => libitem
  if !st.album_item then
    link_child (lib0, st.g.coll_item_tail k)
      (.mk (some (host.tf_eval artist_album_script it)) none [] 0)
  else (lib0, st.g.coll_item_tail k)

/-- The next statements of that turn: the track item is linked under
`album_item`, which is the last child of `libitem`, and counted there. -/
def group_libitem (host : Host) (k : Nat) (s_text : CStr) (st : ml_album_loop)
    (it : DB_playItem_t) : ddb_medialib_item_t :=
  let linked := group_linked host k s_text st it
  .mk linked.1.text linked.1.track
    (update_last (fun album_item => (link_child (album_item, st.album_tail)
      (track_item host it)).1) linked.1.children)
    linked.1.num_children

/-- One turn of the loop of `get_albums_for_collection_group_by_field` over
the tracks of an album whose bucket is the `k`-th string of the collection,
with text `s_text`: a track that is not selected is passed over; otherwise
the items are made by `group_linked` and `group_libitem`, a `libitem` left
without children is freed, and a `libitem` created in this turn is linked
under the root and counted. -/
def group_track_step (host : Host) (is_selected : DB_playItem_t → Bool) (selected : Bool)
    (k : Nat) (s_text : CStr) (st : ml_album_loop) (it : DB_playItem_t) : ml_album_loop :=
  if selected && !is_selected it then st
  else if (group_libitem host k s_text st it).children.isEmpty then
    { g := { st.g with coll_item := fun j => if j = k then none else st.g.coll_item j
                       coll_item_tail := fun j => if j = k then false
                                                  else st.g.coll_item_tail j }
      album_item := true, album_tail := true }
  else if (st.g.coll_item k).isNone then
    { g := { coll_item := fun j => if j = k then some (group_libitem host k s_text st it)
                                   else st.g.coll_item j
             coll_item_tail := fun j => if j = k then (group_linked host k s_text st it).2
                                        else st.g.coll_item_tail j
             root_links := if st.g.root_tail then st.g.root_links ++ [k] else [k]
             root_tail := true
             root_num_children := st.g.root_num_children + 1 }
      album_item := true, album_tail := true }
  else
    { g := { st.g with coll_item := fun j => if j = k then some (group_libitem host k s_text st it)
                                             else st.g.coll_item j
                       coll_item_tail := fun j => if j = k then (group_linked host k s_text st it).2
                                                  else st.g.coll_item_tail j }
      album_item := true, album_tail := true }

/-- One turn of the outer loop of `get_albums_for_collection_group_by_field`,
for one string of the albums collection: the bucket is the first string of
`coll` whose text is the field of the first track of the album (the default
value when that is blank).  An album whose `items_count` is not zero has a
first track. -/
def group_album_step (host : Host) (is_selected : DB_playItem_t → Bool) (coll : ml_collection_t)
    (field : String) (field_tf : Bool) (default_field_value : CStr) (selected : Bool)
    (g : ml_group_state) (album : ml_string_t) : ml_group_state :=
  if album.items_count = 0 then g
  else
    match album.items.head? with
    | none => g
    | some first =>
      let track_field : Option CStr :=
        if field_tf then some (host.tf_eval field first) else pl_find_meta first field
      let value : CStr :=
        if _is_blank_text track_field then default_field_value else track_field.getD []
      match coll.strings.findIdx? (fun s => decide (s.text = value)) with
      | none => g
      | some k =>
        ((album.items.take album.items_count.toNat).foldl
          (group_track_step host is_selected selected k value)
          { g := g, album_item := false, album_tail := false }).g

/-- Embedding of `get_albums_for_collection_group_by_field (source, root,
coll, field, field_tf, default_field_value, selected)`, entered with the
`coll_item` fields of the collection cleared: the root on return, with the
items linked under it read off. -/
def get_albums_for_collection_group_by_field (host : Host) (is_selected : DB_playItem_t → Bool)
    (albums : ml_collection_t) (root : ddb_medialib_item_t) (coll : ml_collection_t)
    (field : String) (field_tf : Bool) (default_field_value : CStr) (selected : Bool) :
    ddb_medialib_item_t :=
  let g := (albums.strings.take albums.count.toNat).foldl
    (group_album_step host is_selected coll field field_tf default_field_value selected)
    { coll_item := fun _ => none, coll_item_tail := fun _ => false, root_links := [],
      root_tail := false, root_num_children := root.num_children }
  .mk root.text root.track
    (if g.root_tail then g.root_links.filterMap g.coll_item else root.children)
    g.root_num_children

/-- Embedding of `_create_item_tree_from_collection (coll, filter, index,
source)`.  `is_selected` is the selection that `plt_search_process2` leaves
behind for the filter.  The result is `none` where the code dereferences a
NULL pointer: the folder tree of a source that was never indexed, or a NULL
collection with a selector that needs one. -/
def _create_item_tree_from_collection (host : Host) (is_selected : DB_playItem_t → Bool)
    (coll : Option ml_collection_t) (filter : Option CStr) (index : medialibSelector_t)
    (source : medialib_source_t) : Option ddb_medialib_item_t :=
  let selected : Bool := filter.isSome && source.ml_playlist.isSome
  let root : ddb_medialib_item_t := .mk (some "All Music".toList) none [] 0
  let albums : ml_collection_t := (source.db.map (fun db => db.albums)).getD ml_collection_t.empty
  match index with
  | .SEL_FOLDERS =>
    source.db.map (fun db =>
      get_subfolders_for_folder host is_selected selected root db.folders_tree)
  | .SEL_ARTISTS =>
    coll.map (fun c => get_albums_for_collection_group_by_field host is_selected albums root c
      "artist" false unknown selected)
  | .SEL_GENRES =>
    coll.map (fun c => get_albums_for_collection_group_by_field host is_selected albums root c
      "genre" false unknown selected)
  | .SEL_ALBUMS =>
    coll.map (fun c => (c.strings.foldl (fun st s =>
      let item := get_list_of_tracks_for_album host is_selected ddb_medialib_item_t.zeroed s
        selected
      if item.children.isEmpty then st else link_child st item) (root, false)).1)
  | .SEL_FILLER => some root

/-- Embedding of `ml_create_item_tree (source, selector, filter)`: NULL for
a disabled source and for a selector that is none of the four.  The
collection handed on is a member of `source->db`, never NULL; it is empty in
a source that was never indexed. -/
def ml_create_item_tree (host : Host) (is_selected : DB_playItem_t → Bool)
    (source : medialib_source_t) (selector : medialibSelector_t) (filter : Option CStr) :
    Option ddb_medialib_item_t :=
  if source.enabled = 0 then none
  else
    match selector with
    | .SEL_ALBUMS =>
      _create_item_tree_from_collection host is_selected
        (some ((source.db.map (fun db => db.albums)).getD ml_collection_t.empty))
        filter selector source
    | .SEL_ARTISTS =>
      _create_item_tree_from_collection host is_selected
        (some ((source.db.map (fun db => db.artists)).getD ml_collection_t.empty))
        filter selector source
    | .SEL_GENRES =>
      _create_item_tree_from_collection host is_selected
        (some ((source.db.map (fun db => db.genres)).getD ml_collection_t.empty))
        filter selector source
    | .SEL_FOLDERS => _create_item_tree_from_collection host is_selected none filter selector source
    | .SEL_FILLER => none

mutual
/-- In an item and in every item below it, `num_children` is the length of
the list of children. -/
def counts_ok : ddb_medialib_item_t → Bool
  | .mk _ _ children num_children =>
    decide (num_children = (children.length : Int)) && all_counts_ok children
/-- The same for every item of a list. -/
def all_counts_ok : List ddb_medialib_item_t → Bool
  | [] => true
  | c :: rest => counts_ok c && all_counts_ok rest
end

mutual
/-- An item, and every item below it, that has no track has a child. -/
def has_track_or_child : ddb_medialib_item_t → Bool
  | .mk _ track children _ =>
    (track.isSome || !children.isEmpty) && all_have_track_or_child children
/-- The same for every item of a list. -/
def all_have_track_or_child : List ddb_medialib_item_t → Bool
  | [] => true
  | c :: rest => has_track_or_child c && all_have_track_or_child rest
end

/-- The parent of a list under construction is in order: the count is the
length of the list, the children are in order, and without a tail there are
no children. -/
def GoodParent (st : ddb_medialib_item_t × Bool) : Prop :=
  st.1.num_children = (st.1.children.length : Int) ∧ all_counts_ok st.1.children = true ∧
    all_have_track_or_child st.1.children = true ∧ (st.2 = false → st.1.children = [])

/-- The state of the grouping loops is in order: every `coll_item` that is
set has a tail, a non-empty list of children in order and the right count;
the root count is the number of items linked under it, and these are
`coll_item`s that are set, each linked once. -/
def GroupInv (g : ml_group_state) : Prop :=
  (∀ k L, g.coll_item k = some L →
    GoodParent (L, true) ∧ L.children ≠ [] ∧ L.track = none ∧ g.coll_item_tail k = true) ∧
  (∀ k, g.coll_item k = none → g.coll_item_tail k = false) ∧
  g.root_num_children = (g.root_links.length : Int) ∧
  (g.root_tail = false → g.root_links = []) ∧
  (∀ k ∈ g.root_links, g.coll_item k ≠ none) ∧
  g.root_links.Nodup

/-- A source that holds the index `dbA` of the playlist with `trackA` alone. -/
def sourceTree : medialib_source_t :=
  { sourceY with db := some dbA, ml_playlist := some [trackA] }

/-- The item list of the first string with text `t` in the list of a
collection; empty when there is no such string. -/
def ml_collection_t.items_of (coll : ml_collection_t) (t : CStr) : List DB_playItem_t :=
  match coll.strings.find? (fun s => decide (s.text = t)) with
  | none => []
  | some s => s.items

/-- A second track of the file `fileA` (a cuesheet gives several tracks to
one file), scanned at time 200. -/
def trackA2 : DB_playItem_t := mkTrack 2 "/music/a.mp3" [(":MEDIALIB_SCAN_TIME", "200")]

/-- A track of another file, scanned at time 10. -/
def trackC : DB_playItem_t := mkTrack 3 "/music/c.mp3" [(":MEDIALIB_SCAN_TIME", "10")]

end Medialib

namespace MedialibWidget

open Artwork (CStr)
open Medialib (DB_playItem_t pl_find_meta scan_lld mkTrack)

/-! ### The tree widget (`medialibwidget.c`) -/

/-- The value of an `int` after an operation whose result is `v`, overflow
taken to wrap around. -/
def wrap32 (v : Int) : Int := (v + 2 ^ 31) % 2 ^ 32 - 2 ^ 31

/-- Embedding of `atoi (s)`, that is `(int) strtol (s, NULL, 10)`: 0 when
nothing converts. -/
def atoi (s : CStr) : Int := wrap32 ((scan_lld s).getD 0)

/-- The fields of `ddb_medialib_item_t` that `_item_comparator` reads. -/
structure ddb_medialib_item_t where
  text : CStr
  track : Option DB_playItem_t
deriving DecidableEq, Repr

/-- Embedding of `_item_comparator (a, b)`, the order given to `qsort` by
`_sorted_children_from_item`; `strcasecmp` is that of the C library. -/
def _item_comparator (strcasecmp : CStr → CStr → Int) (item1 item2 : ddb_medialib_item_t) : Int :=
  match item1.track, item2.track with
  | some track1, some track2 =>
    let n1 := atoi ((pl_find_meta track1 "track").getD "0".toList)
    let n2 := atoi ((pl_find_meta track2 "track").getD "0".toList)
    let d1 := wrap32 (atoi ((pl_find_meta track1 "disc").getD "0".toList) + 1)
    let d2 := wrap32 (atoi ((pl_find_meta track2 "disc").getD "0".toList) + 1)
    let n1 := wrap32 (wrap32 (d1 * 10000) + n1)
    let n2 := wrap32 (wrap32 (d2 * 10000) + n2)
    wrap32 (n1 - n2)
  | _, _ => strcasecmp item1.text item2.text

/-- The track number as `_item_comparator` reads it. -/
def track_number (track : DB_playItem_t) : Int :=
  atoi ((pl_find_meta track "track").getD "0".toList)

/-- The disc number as `_item_comparator` reads it. -/
def disc_number (track : DB_playItem_t) : Int :=
  atoi ((pl_find_meta track "disc").getD "0".toList)

/-- The sort key `(disc + 1) * 10000 + track` of a track, as a number. -/
def sort_key (track : DB_playItem_t) : Int :=
  (disc_number track + 1) * 10000 + track_number track

/-- Lower case of an ASCII letter, as a number. -/
def tolower (c : Char) : Int :=
  if 'A' ≤ c ∧ c ≤ 'Z' then (c.toNat : Int) + 32 else (c.toNat : Int)

/-- A `strcasecmp` for the examples: the difference of the first two
characters that differ after conversion to lower case. -/
def strcasecmp0 : CStr → CStr → Int
  | [], [] => 0
  | [], b :: _ => -(tolower b)
  | a :: _, [] => tolower a
  | a :: s1, b :: s2 => if tolower a = tolower b then strcasecmp0 s1 s2 else tolower a - tolower b

/-- Track 1 of an album, titled `Beta`. -/
def itemBeta : ddb_medialib_item_t :=
  { text := "1. Beta".toList, track := some (mkTrack 1 "/m/b.mp3" [("track", "1"), ("title", "Beta")]) }

/-- Another track 1 of the same album, titled `alpha`. -/
def itemAlpha : ddb_medialib_item_t :=
  { text := "1. alpha".toList, track := some (mkTrack 2 "/m/a.mp3" [("track", "1"), ("title", "alpha")]) }

end MedialibWidget

/-! ## Theorems -/

namespace Artwork

theorem cover_update_cache_loop_full (cache : CoverCache) :
    ∀ (n i : Nat) (v : ScanVars), v.emptyIdx = -1 →
      (∀ j, i ≤ j → j < i + n → ∃ c, cache.getD j none = some c) → 0 < n →
      (cover_update_cache_loop cache n i v).emptyIdx = -1 ∧
      (cover_update_cache_loop cache n i v).minTimestampIdx = ((i + n - 1 : Nat) : Int) := by
  intro n
  induction n with
  | zero => intro i v _ _ h; exact absurd h (by decide)
  | succ n ih =>
    intro i v hv hfull _
    obtain ⟨c, hc⟩ := hfull i (le_refl i) (by omega)
    simp only [cover_update_cache_loop, hc, hv, or_true, if_true]
    rcases Nat.eq_zero_or_pos n with hn | hn
    · subst hn
      simp [cover_update_cache_loop]
    · have := ih (i + 1) { minTimestamp := c.timestamp, minTimestampIdx := (i : Int), emptyIdx := -1 }
        rfl (fun j h1 h2 => hfull j (by omega) (by omega)) hn
      rw [show i + (n + 1) - 1 = i + 1 + n - 1 by omega]
      exact this

/-- In a full cache the scan always ends on the last slot: the guard
`|| emptyIdx == -1` is true at every iteration. -/
theorem cover_update_cache_full_slot (now : Int) (cache : CoverCache) (cover : ddb_cover_info_t)
    (hfull : ∀ j, j < MAX_COVERS_IN_CACHE → ∃ c, cache.getD j none = some c) :
    (cover_update_cache now cache cover).slot = 19 ∧
    (cover_update_cache now cache cover).released = cache.getD 19 none ∧
    (cover_update_cache now cache cover).cache =
      (cache.set 19 none).set 19 (some { cover with timestamp := now }) := by
  have h := cover_update_cache_loop_full cache MAX_COVERS_IN_CACHE 0
    { minTimestamp := INT64_MAX, minTimestampIdx := -1, emptyIdx := -1 } rfl
    (fun j _ h2 => hfull j (by omega)) (by decide)
  obtain ⟨h1, h2⟩ := h
  have h3 : ((0 + MAX_COVERS_IN_CACHE - 1 : Nat) : Int) = 19 := by decide
  rw [h3] at h2
  simp only [cover_update_cache, h1, h2]
  simp

theorem agedCache_full : ∀ j, j < MAX_COVERS_IN_CACHE → ∃ c, agedCache.getD j none = some c := by
  intro j hj
  have h : j < 20 := hj
  interval_cases j <;> exact ⟨_, rfl⟩

/-- C1: evaluation of `cover_update_cache` on a full cache whose slot `i` was
cached at time `100 + i`.  The new cover lands in slot 19, the cover released
is the most recently cached one (timestamp 119), the least recently used
cover (slot 0, timestamp 100) stays, and so the insertion does not evict a
slot of minimal timestamp. -/
theorem cover_update_cache_aged_evicts_newest :
    (cover_update_cache 500 agedCache (mkCover ['n'] 0)).slot = 19 ∧
    (cover_update_cache 500 agedCache (mkCover ['n'] 0)).released =
      some (mkCover (List.replicate 20 'a') 119) ∧
    (cover_update_cache 500 agedCache (mkCover ['n'] 0)).cache.getD 0 none =
      some (mkCover ['a'] 100) ∧
    ¬ EvictsMinimal 500 agedCache (mkCover ['n'] 0) := by
  obtain ⟨h1, h2, h3⟩ := cover_update_cache_full_slot 500 agedCache (mkCover ['n'] 0) agedCache_full
  refine ⟨h1, ?_, ?_, ?_⟩
  · rw [h2]; rfl
  · rw [h3]; rfl
  · rintro ⟨k, c, hk, hc, hmin, hres⟩
    rw [h3] at hres
    have hk20 : k < 20 := hk
    have h0 := hmin 0 (mkCover ['a'] 100) (by decide) rfl
    have h19 : k = 19 := by
      by_contra hne
      have h := congrArg (fun l => l[19]?) hres
      have hlen : agedCache.length = 20 := rfl
      have ha : agedCache[19]? = some (some (mkCover (List.replicate 20 'a') 119)) := rfl
      simp only [List.getElem?_set, List.length_set, hlen, if_true, hne, if_false, ha,
        show (19 : Nat) < 20 by decide] at h
      simp [mkCover] at h
    subst h19
    have hc19 : c = mkCover (List.replicate 20 'a') 119 := by
      have : agedCache.getD 19 none = some (mkCover (List.replicate 20 'a') 119) := rfl
      rw [this] at hc
      exact (Option.some.inj hc).symm
    subst hc19
    simp [mkCover] at h0

theorem link_after_last (q : artwork_query_t) (t : Nat) :
    ∀ nodes : List artwork_query_t, (nodes.map (·.addr)).Nodup →
      nodes.getLast?.map (·.addr) = some t → link_after nodes t q = nodes ++ [q] := by
  intro nodes
  induction nodes with
  | nil => intro _ h; simp at h
  | cons x rest ih =>
    intro hnd hlast
    cases rest with
    | nil =>
      simp at hlast
      simp [link_after, hlast]
    | cons y rest2 =>
      have hlast2 : (y :: rest2).getLast?.map (·.addr) = some t := by
        simpa [List.getLast?_cons_cons] using hlast
      have hnd2 : ((y :: rest2).map (·.addr)).Nodup := (List.nodup_cons.mp hnd).2
      have hmem : t ∈ (y :: rest2).map (·.addr) := by
        cases hl : (y :: rest2).getLast? with
        | none => simp [hl] at hlast2
        | some z =>
          simp [hl] at hlast2
          exact List.mem_map.mpr ⟨z, List.mem_of_getLast?_eq_some hl, hlast2⟩
      have hx : x.addr ≠ t := by
        intro h
        apply (List.nodup_cons.mp hnd).1
        show x.addr ∈ _
        rw [h]
        exact hmem
      have := ih hnd2 hlast2
      simp only [link_after, hx, if_false, List.cons_append] at this ⊢
      rw [this]

theorem squash_into_split (db : DB_functions_t) (query : ddb_cover_query_t) (callback : Nat)
    (g : artwork_query_t) (post : List artwork_query_t) :
    ∀ pre : List artwork_query_t, (∀ x ∈ pre, squash_guard db query x = false) →
      squash_guard db query g = true →
      squash_into db query callback (pre ++ g :: post) =
        pre ++ { g with members := g.members ++ [(query, callback)] } :: post := by
  intro pre
  induction pre with
  | nil => intro _ hg; simp [squash_into, hg]
  | cons x rest ih =>
    intro hpre hg
    have hx : squash_guard db query x = false := hpre x (List.mem_cons_self _ _)
    simp [squash_into, hx, ih (fun y hy => hpre y (List.mem_cons_of_mem _ hy)) hg]

theorem squash_into_addrs (db : DB_functions_t) (query : ddb_cover_query_t) (callback : Nat) :
    ∀ nodes : List artwork_query_t,
      (squash_into db query callback nodes).map (·.addr) = nodes.map (·.addr) := by
  intro nodes
  induction nodes with
  | nil => rfl
  | cons x rest ih =>
    by_cases hx : squash_guard db query x = true
    · simp [squash_into, hx]
    · simp [squash_into, hx, ih]

theorem getLast?_map_addr (nodes : List artwork_query_t) :
    nodes.getLast?.map (·.addr) = (nodes.map (·.addr)).getLast? := by
  simp [List.getLast?_eq_getElem?]

theorem squash_into_consistent (db : DB_functions_t) (query : ddb_cover_query_t) (callback : Nat)
    (s : State) (hs : s.Consistent) :
    State.Consistent { s with query_nodes := squash_into db query callback s.query_nodes } := by
  obtain ⟨h1, h2⟩ := hs
  refine ⟨?_, ?_⟩
  · simpa [squash_into_addrs] using h1
  · show s.query_tail = _
    rw [getLast?_map_addr, squash_into_addrs, ← getLast?_map_addr]
    exact h2

theorem squash_guard_iff (db : DB_functions_t) (query : ddb_cover_query_t) (g : artwork_query_t) :
    squash_guard db query g = true ↔ Joinable db query g := by
  unfold squash_guard Joinable artwork_query_t.query_count MAX_SQUASHED_QUERIES
  cases h : g.members.head? with
  | none => simp
  | some m => simp

theorem squash_query_absorbed (db : DB_functions_t) (fresh : Nat) (s : State) (callback : Nat)
    (query : ddb_cover_query_t) (pre : List artwork_query_t) (g : artwork_query_t)
    (post : List artwork_query_t) (hsplit : s.query_nodes = pre ++ g :: post)
    (hpre : ∀ x ∈ pre, ¬ Joinable db query x) (hg : Joinable db query g) :
    squash_query db fresh s callback query =
      ({ s with query_nodes :=
          pre ++ { g with members := g.members ++ [(query, callback)] } :: post }, 1) := by
  have hg2 : squash_guard db query g = true := (squash_guard_iff db query g).mpr hg
  have hpre2 : ∀ x ∈ pre, squash_guard db query x = false := by
    intro x hx
    cases hgx : squash_guard db query x with
    | false => rfl
    | true => exact absurd ((squash_guard_iff db query x).mp hgx) (hpre x hx)
  have hany : s.query_nodes.any (squash_guard db query) = true := by
    rw [hsplit]
    simp [hg2]
  simp only [squash_query, hany, if_true]
  rw [hsplit, squash_into_split db query callback g post pre hpre2 hg2]

theorem squash_query_new_group (db : DB_functions_t) (fresh : Nat) (s : State) (hs : s.Consistent)
    (callback : Nat) (query : ddb_cover_query_t)
    (hnone : ∀ x ∈ s.query_nodes, ¬ Joinable db query x) :
    squash_query db fresh s callback query =
      ({ s with query_nodes := s.query_nodes ++ [{ addr := fresh, members := [(query, callback)] }],
                query_tail := some fresh }, 0) := by
  have hany : s.query_nodes.any (squash_guard db query) = false := by
    rw [List.any_eq_false]
    intro x hx hgx
    exact hnone x hx ((squash_guard_iff db query x).mp hgx)
  obtain ⟨hnd, htail⟩ := hs
  simp only [squash_query, hany]
  cases ht : s.query_tail with
  | none =>
    have hnil : s.query_nodes = [] := by
      rw [ht] at htail
      cases hn : s.query_nodes with
      | nil => rfl
      | cons x rest =>
        rw [hn] at htail
        cases hl : (x :: rest).getLast? with
        | none => simp at hl
        | some z => rw [hl] at htail; simp at htail
    simp [hnil]
  | some t =>
    have := link_after_last { addr := fresh, members := [(query, callback)] } t s.query_nodes hnd
      (by rw [← htail, ht])
    simp [this]

theorem squash_query_consistent (db : DB_functions_t) (fresh : Nat) (s : State) (hs : s.Consistent)
    (callback : Nat) (query : ddb_cover_query_t)
    (hfresh : fresh ∉ s.query_nodes.map (·.addr)) :
    (squash_query db fresh s callback query).1.Consistent := by
  by_cases hany : s.query_nodes.any (squash_guard db query) = true
  · have hstep : squash_query db fresh s callback query =
        ({ s with query_nodes := squash_into db query callback s.query_nodes }, 1) := by
      simp only [squash_query, hany, if_true]
    rw [hstep]
    exact squash_into_consistent db query callback s hs
  · have hnone : ∀ x ∈ s.query_nodes, ¬ Joinable db query x := by
      intro x hx hj
      exact hany (List.any_eq_true.mpr ⟨x, hx, (squash_guard_iff db query x).mpr hj⟩)
    rw [squash_query_new_group db fresh s hs callback query hnone]
    constructor
    · show ((s.query_nodes ++ [({ addr := fresh, members := [(query, callback)] } :
        artwork_query_t)]).map (fun q => q.addr)).Nodup
      rw [List.map_append, List.nodup_append]
      refine ⟨hs.1, by simp, ?_⟩
      intro a ha hb
      simp only [List.map_cons, List.map_nil, List.mem_singleton] at hb
      exact hfresh (hb ▸ ha)
    · show some fresh = (s.query_nodes ++ [({ addr := fresh, members := [(query, callback)] } :
        artwork_query_t)]).getLast?.map (fun q => q.addr)
      simp

theorem squash_into_mem (db : DB_functions_t) (query : ddb_cover_query_t) (callback : Nat)
    (g : artwork_query_t) (hne : g.members ≠ []) :
    ∀ nodes : List artwork_query_t, g ∈ nodes →
      ∃ g2 ∈ squash_into db query callback nodes,
        g2.members.head? = g.members.head? ∧ g2.members.length ≤ g.members.length + 1 := by
  intro nodes
  induction nodes with
  | nil => intro h; simp at h
  | cons x rest ih =>
    intro hmem
    by_cases hx : squash_guard db query x = true
    · simp only [squash_into, hx, if_true]
      rcases List.mem_cons.mp hmem with h | h
      · subst h
        refine ⟨_, List.mem_cons_self _ _, ?_, ?_⟩
        · cases hm : g.members with
          | nil => exact absurd hm hne
          | cons a l => simp
        · simp
      · exact ⟨g, List.mem_cons_of_mem _ h, rfl, Nat.le_succ _⟩
    · simp only [squash_into, hx]
      rcases List.mem_cons.mp hmem with h | h
      · subst h
        exact ⟨g, List.mem_cons_self _ _, rfl, Nat.le_succ _⟩
      · obtain ⟨g2, hg2, h1, h2⟩ := ih h
        exact ⟨g2, List.mem_cons_of_mem _ hg2, h1, h2⟩

theorem squash_all_absorbed (db : DB_functions_t) (h : ddb_cover_query_t) :
    ∀ (subs : List (ddb_cover_query_t × Nat × Nat)) (s : State),
      (∃ g ∈ s.query_nodes, (∃ m, g.members.head? = some m ∧ m.1 = h) ∧
        g.members.length + subs.length ≤ 49) →
      (∀ e ∈ subs, queries_squashable db e.1 h = true) →
      ∀ r ∈ (squash_all db s subs).2, r = 1 := by
  intro subs
  induction subs with
  | nil => intro s _ _ r hr; simp [squash_all] at hr
  | cons e rest ih =>
    intro s hg heq r hr
    obtain ⟨query, callback, fresh⟩ := e
    obtain ⟨g, hgmem, ⟨m, hm, hmh⟩, hlen⟩ := hg
    have hsq : queries_squashable db query h = true := heq _ (List.mem_cons_self _ _)
    have hguard : squash_guard db query g = true := by
      rw [squash_guard_iff]
      refine ⟨m, hm, by rw [hmh]; exact hsq, ?_⟩
      simp only [List.length_cons] at hlen
      omega
    have hany : s.query_nodes.any (squash_guard db query) = true :=
      List.any_eq_true.mpr ⟨g, hgmem, hguard⟩
    have hstep : squash_query db fresh s callback query =
        ({ s with query_nodes := squash_into db query callback s.query_nodes }, 1) := by
      simp only [squash_query, hany, if_true]
    have hne : g.members ≠ [] := by
      intro h0
      rw [h0] at hm
      simp at hm
    obtain ⟨g2, hg2mem, hhead, hlen2⟩ := squash_into_mem db query callback g hne s.query_nodes hgmem
    simp only [squash_all, hstep, List.mem_cons] at hr
    rcases hr with hr | hr
    · exact hr
    · refine ih _ ⟨g2, hg2mem, ⟨m, by rw [hhead, hm], hmh⟩, ?_⟩
        (fun e he => heq e (List.mem_cons_of_mem _ he)) r hr
      simp only [List.length_cons] at hlen
      omega

theorem squash_all_at_most_one_new (db : DB_functions_t) :
    ∀ (subs : List (ddb_cover_query_t × Nat × Nat)) (s : State), s.Consistent →
      subs.length ≤ 49 →
      subs.Pairwise (fun a b => queries_squashable db b.1 a.1 = true) →
      (squash_all db s subs).2.count 0 ≤ 1 := by
  intro subs
  induction subs with
  | nil => intro s _ _ _; simp [squash_all]
  | cons e rest ih =>
    intro s hs hlen hpw
    obtain ⟨query, callback, fresh⟩ := e
    have hrest : rest.Pairwise (fun a b => queries_squashable db b.1 a.1 = true) :=
      (List.pairwise_cons.mp hpw).2
    have hhead : ∀ e ∈ rest, queries_squashable db e.1 query = true :=
      (List.pairwise_cons.mp hpw).1
    simp only [List.length_cons] at hlen
    by_cases hany : s.query_nodes.any (squash_guard db query) = true
    · have hstep : squash_query db fresh s callback query =
          ({ s with query_nodes := squash_into db query callback s.query_nodes }, 1) := by
        simp only [squash_query, hany, if_true]
      simp only [squash_all, hstep]
      rw [List.count_cons_of_ne (by decide)]
      exact ih _ (squash_into_consistent db query callback s hs) (by omega) hrest
    · have hnone : ∀ x ∈ s.query_nodes, ¬ Joinable db query x := by
        intro x hx hj
        exact hany (List.any_eq_true.mpr ⟨x, hx, (squash_guard_iff db query x).mpr hj⟩)
      have hstep := squash_query_new_group db fresh s hs callback query hnone
      have hall := squash_all_absorbed db query rest
        { s with query_nodes := s.query_nodes ++ [{ addr := fresh, members := [(query, callback)] }],
                 query_tail := some fresh }
        ⟨{ addr := fresh, members := [(query, callback)] }, by simp, ⟨(query, callback), rfl, rfl⟩,
          by simp; omega⟩ hhead
      simp only [squash_all, hstep]
      rw [List.count_cons_self]
      have hz : List.count 0 (squash_all db
          { s with query_nodes := s.query_nodes ++ [{ addr := fresh, members := [(query, callback)] }],
                   query_tail := some fresh } rest).2 = 0 := by
        rw [List.count_eq_zero]
        intro h0
        have := hall 0 h0
        exact absurd this (by decide)
      omega

theorem State.init_consistent : State.init.Consistent := by
  constructor
  · simp [State.init]
  · rfl

/-- C2 (as amended): `squash_query` joins the first pending group whose head
query is equivalent to the new one and that has fewer than 49 members,
appending the pair at its end and returning 1; when no pending group is of
that kind it links a new single-member group after the tail and returns 0.
Hence a burst of at most 49 pairwise equivalent queries creates at most one
group, that is, starts the probe chain at most once. -/
theorem squash_query_contract (db : DB_functions_t) (s : State) (hs : s.Consistent) :
    (∀ fresh callback query pre g post, s.query_nodes = pre ++ g :: post →
      (∀ x ∈ pre, ¬ Joinable db query x) → Joinable db query g →
      squash_query db fresh s callback query =
        ({ s with query_nodes :=
            pre ++ { g with members := g.members ++ [(query, callback)] } :: post }, 1)) ∧
    (∀ fresh callback query, (∀ x ∈ s.query_nodes, ¬ Joinable db query x) →
      squash_query db fresh s callback query =
        ({ s with query_nodes :=
            s.query_nodes ++ [{ addr := fresh, members := [(query, callback)] }],
                  query_tail := some fresh }, 0)) ∧
    (∀ subs : List (ddb_cover_query_t × Nat × Nat), subs.length ≤ 49 →
      subs.Pairwise (fun a b => queries_squashable db b.1 a.1 = true) →
      (squash_all db s subs).2.count 0 ≤ 1) :=
  ⟨fun fresh callback query pre g post h1 h2 h3 =>
      squash_query_absorbed db fresh s callback query pre g post h1 h2 h3,
    fun fresh callback query h => squash_query_new_group db fresh s hs callback query h,
    fun subs h1 h2 => squash_all_at_most_one_new db subs s hs h1 h2⟩

set_option maxRecDepth 100000 in
/-- Witness for `squash_query_contract`: on the empty list the first query
for track 1 creates the group at address 5 and the function returns 0, and a
burst of three queries for that track creates one group only. -/
theorem squash_query_contract_witness :
    State.init.Consistent ∧
    squash_query db0 5 State.init 7 (burstQuery 0) =
      ({ State.init with
          query_nodes := [{ addr := 5, members := [(burstQuery 0, 7)] }],
          query_tail := some 5 }, 0) ∧
    (squash_all db0 State.init (burst 3)).2.count 0 ≤ 1 :=
  ⟨State.init_consistent,
    (squash_query_contract db0 State.init State.init_consistent).2.1 5 7 (burstQuery 0)
      (fun x hx => by simp [State.init] at hx),
    (squash_query_contract db0 State.init State.init_consistent).2.2 (burst 3) (by decide)
      (by decide)⟩

set_option maxRecDepth 1000000 in
/-- C2 (counterexample): 50 queries for the same track submitted in a row.
After 49 of them the only pending group has 49 members, fewer than 50, and
its head is equivalent to the 50th query; yet `squash_query` returns 0 for
the 50th and creates a second group, so the burst starts the probe chain
twice. -/
theorem squash_burst_of_50_starts_two_chains :
    queries_squashable db0 (burstQuery 49) (burstQuery 0) = true ∧
    (squash_all db0 State.init (burst 49)).1.query_nodes.map
      (fun g => (g.members.head?.map (·.1), g.members.length)) = [(some (burstQuery 0), 49)] ∧
    (squash_query db0 50 (squash_all db0 State.init (burst 49)).1 49 (burstQuery 49)).2 = 0 ∧
    (squash_query db0 50 (squash_all db0 State.init (burst 49)).1 49 (burstQuery 49)).1.query_nodes.map
      (fun g => g.members.length) = [49, 1] ∧
    (squash_all db0 State.init (burst 50)).2.count 0 = 2 := by
  refine ⟨by decide, ?_, ?_, ?_, ?_⟩ <;> decide

theorem unlink_group_split (query : ddb_cover_query_t) (tail : Option Nat) (g : artwork_query_t)
    (post : List artwork_query_t) (hg : headed_by query g = true) :
    ∀ (pre : List artwork_query_t) (prev : Option Nat),
      (∀ x ∈ pre, headed_by query x = false) →
      unlink_group query tail prev (pre ++ g :: post) =
        (pre ++ post,
          if some g.addr = tail then (pre.getLast?.map (·.addr)).or prev else tail,
          some g) := by
  intro pre
  induction pre with
  | nil => intro prev _; simp [unlink_group, hg]
  | cons x rest ih =>
    intro prev hpre
    have hx : headed_by query x = false := hpre x (List.mem_cons_self _ _)
    have h := ih (some x.addr) (fun y hy => hpre y (List.mem_cons_of_mem _ hy))
    have hlast : ((x :: rest).getLast?.map (·.addr)).or prev =
        (rest.getLast?.map (·.addr)).or (some x.addr) := by
      cases hr : rest.getLast? with
      | none =>
        have : rest = [] := List.getLast?_eq_none_iff.mp hr
        subst this
        simp
      | some l => simp [List.getLast?_cons, hr]
    rw [List.cons_append]
    simp only [unlink_group, hx]
    rw [h, hlast]
    rfl

theorem cover_update_cache_cover (now : Int) (cache : CoverCache) (cover : ddb_cover_info_t) :
    (cover_update_cache now cache cover).cover = { cover with timestamp := now } := by
  unfold cover_update_cache
  simp only
  split <;> rfl

theorem headed_by_iff (query : ddb_cover_query_t) (q : artwork_query_t) :
    headed_by query q = true ↔ q.members.head?.map (·.1.addr) = some query.addr := by
  unfold headed_by
  cases q.members.head? with
  | none => simp
  | some m => simp

/-- C3: when the pending list is `pre ++ g :: post`, `g` is headed by `query`
and no group of `pre` is, `callback_and_free_squashed (cover, query)` leaves
`pre ++ post` (the other groups, in their order), keeps `query_head` and
`query_tail` consistent with the chain, and makes one call per member of `g`,
in array (insertion) order: the callback of the member is called with the
query of the member and, when the cover was found, with error 0 and the
cover (the same for all, stamped by the cache update), otherwise with error
-1 and NULL. -/
theorem callback_and_free_squashed_contract (now : Int) (s : State) (cover : ddb_cover_info_t)
    (query : ddb_cover_query_t) (pre : List artwork_query_t) (g : artwork_query_t)
    (post : List artwork_query_t) (hs : s.Consistent)
    (hsplit : s.query_nodes = pre ++ g :: post)
    (hpre : ∀ x ∈ pre, x.members.head?.map (·.1.addr) ≠ some query.addr)
    (hg : g.members.head?.map (·.1.addr) = some query.addr) :
    (callback_and_free_squashed now s cover query).1.query_nodes = pre ++ post ∧
    (callback_and_free_squashed now s cover query).1.Consistent ∧
    (callback_and_free_squashed now s cover query).2 =
      g.members.map (fun m =>
        if cover.cover_found ≠ 0 then
          CallbackCall.mk m.2 0 m.1 (some { cover with timestamp := now })
        else CallbackCall.mk m.2 (-1) m.1 none) := by
  have hg2 : headed_by query g = true := (headed_by_iff query g).mpr hg
  have hpre2 : ∀ x ∈ pre, headed_by query x = false := by
    intro x hx
    cases h : headed_by query x with
    | false => rfl
    | true => exact absurd ((headed_by_iff query x).mp h) (hpre x hx)
  have hu := unlink_group_split query s.query_tail g post hg2 pre none hpre2
  obtain ⟨hnd, htail⟩ := hs
  rw [hsplit] at hnd htail
  refine ⟨?_, ⟨?_, ?_⟩, ?_⟩
  · simp only [callback_and_free_squashed, hsplit, hu]
  · simp only [callback_and_free_squashed, hsplit, hu]
    have hsub : (pre ++ post).Sublist (pre ++ g :: post) :=
      List.Sublist.append (List.Sublist.refl _) (List.sublist_cons_self _ _)
    exact List.Nodup.sublist (List.Sublist.map _ hsub) hnd
  · simp only [callback_and_free_squashed, hsplit, hu]
    cases post with
    | nil =>
      have ht : s.query_tail = some g.addr := by
        rw [htail]; simp
      simp [ht]
    | cons y ys =>
      have hlast : (pre ++ g :: y :: ys).getLast? = (y :: ys).getLast? := by
        simp [List.getLast?_append]
        cases h : (y :: ys).getLast? with
        | none => simp at h
        | some z => simp [List.getLast?_cons_cons] at h ⊢
      cases hz : (y :: ys).getLast? with
      | none => simp at hz
      | some z =>
        have hzmem : z ∈ y :: ys := List.mem_of_getLast?_eq_some hz
        have hne : some g.addr ≠ s.query_tail := by
          rw [htail, hlast, hz]
          intro h
          have h2 : g.addr = z.addr := by simpa using h
          have hnd2 : ((g :: y :: ys).map (·.addr)).Nodup := by
            rw [List.map_append] at hnd
            exact (List.nodup_append.mp hnd).2.1
          have := (List.nodup_cons.mp hnd2).1
          apply this
          show g.addr ∈ _
          rw [h2]
          exact List.mem_map.mpr ⟨z, hzmem, rfl⟩
        simp only [hne, if_false]
        rw [htail, hlast]
        simp [List.getLast?_append, hz]
  · simp only [callback_and_free_squashed, hsplit, hu, cover_update_cache_cover]
    apply List.map_congr_left
    intro m _
    unfold execute_callback
    rfl

theorem pendingTwo_consistent : pendingTwo.Consistent := by
  constructor
  · simp [pendingTwo]
  · rfl

/-- Witness for `callback_and_free_squashed_contract`: completing the job of
burst query 1 on `pendingTwo` leaves node 1 alone in the list, with
`query_tail` moved back to it, and calls callback 20 with burst query 1 and
then callback 21 with burst query 2, both with error 0 and the found cover. -/
theorem callback_and_free_squashed_contract_witness :
    pendingTwo.Consistent ∧
    (callback_and_free_squashed 500 pendingTwo (mkCover ['x'] 0) (burstQuery 1)).1.query_nodes =
      [{ addr := 1, members := [(burstQuery 0, 10)] }] ∧
    (callback_and_free_squashed 500 pendingTwo (mkCover ['x'] 0) (burstQuery 1)).1.Consistent ∧
    (callback_and_free_squashed 500 pendingTwo (mkCover ['x'] 0) (burstQuery 1)).2 =
      [CallbackCall.mk 20 0 (burstQuery 1) (some (mkCover ['x'] 500)),
       CallbackCall.mk 21 0 (burstQuery 2) (some (mkCover ['x'] 500))] :=
  ⟨pendingTwo_consistent,
    callback_and_free_squashed_contract 500 pendingTwo (mkCover ['x'] 0) (burstQuery 1)
      [{ addr := 1, members := [(burstQuery 0, 10)] }]
      { addr := 2, members := [(burstQuery 1, 20), (burstQuery 2, 21)] } []
      pendingTwo_consistent rfl (by decide) (by decide)⟩

set_option maxRecDepth 100000 in
/-- C4: evaluation of the run `cancelRun`.  The job of query 0 heads its group
and is found cancelled at the checkpoint taken after the wait for a fetch
slot: its own callback (10) is invoked with -1, but the group is still in the
pending list afterwards.  Query 1, submitted after the reset, is absorbed into
that group (`done []`: no callback invoked), although no job is left that
would complete the group. -/
theorem cover_get_cancelled_head_leaves_group :
    (cover_get_process db1 4096 true 100 1 (cover_get_submit State.init).1 0 (burstQuery 0) 10).2 =
      ProcessOutcome.waiting
        { cover_info_alloc with filepath := "/m/t.mp3".toList } ∧
    cancelRun.1.2 = some { callback := 10, error := -1, query := burstQuery 0, cover := none } ∧
    cancelRun.1.1.query_nodes = [{ addr := 1, members := [(burstQuery 0, 10)] }] ∧
    cancelRun.2.2 = ProcessOutcome.done [] ∧
    cancelRun.2.1.query_nodes =
      [{ addr := 1, members := [(burstQuery 0, 10), (burstQuery 1, 11)] }] := by
  refine ⟨?_, ?_, ?_, ?_, ?_⟩ <;> decide

theorem run_ops_last_job_idx (ops : List Op) :
    ∀ s : State, (run_ops s ops).last_job_idx = s.last_job_idx + ops.length := by
  induction ops with
  | nil => intro s; simp [run_ops]
  | cons o rest ih =>
    intro s
    have h := ih (Op.run s o)
    simp only [run_ops, List.foldl_cons] at h ⊢
    rw [h]
    cases o <;> simp [Op.run, cover_get_submit, queue_clear] <;> omega

theorem run_ops_no_reset (ops : List Op) :
    ∀ s : State, Op.reset ∉ ops → (run_ops s ops).cancellation_idx = s.cancellation_idx := by
  induction ops with
  | nil => intro s _; rfl
  | cons o rest ih =>
    intro s hno
    have h := ih (Op.run s o) (fun h => hno (List.mem_cons_of_mem _ h))
    simp only [run_ops, List.foldl_cons] at h ⊢
    rw [h]
    cases o with
    | get => rfl
    | reset => exact absurd (List.mem_cons_self _ _) hno

theorem run_ops_reset (ops : List Op) :
    ∀ s : State, Op.reset ∈ ops →
      s.last_job_idx ≤ (run_ops s ops).cancellation_idx ∧
      (run_ops s ops).cancellation_idx < s.last_job_idx + ops.length := by
  induction ops with
  | nil => intro s h; simp at h
  | cons o rest ih =>
    intro s hmem
    by_cases hr : Op.reset ∈ rest
    · have h := ih (Op.run s o) hr
      simp only [run_ops, List.foldl_cons, List.length_cons] at h ⊢
      have hl : (Op.run s o).last_job_idx = s.last_job_idx + 1 := by
        cases o <;> rfl
      rw [hl] at h
      push_cast
      omega
    · have ho : o = Op.reset := by
        rcases List.mem_cons.mp hmem with h | h
        · exact h.symm
        · exact absurd h hr
      subst ho
      have h := run_ops_no_reset rest (Op.run s Op.reset) hr
      simp only [run_ops, List.foldl_cons, List.length_cons] at h ⊢
      rw [h]
      simp only [Op.run, queue_clear]
      push_cast
      omega

/-- C5 (counterexample): the first job submitted from the initial counters,
with no reset at all.  Its index is 0 and `cancellation_idx` is 0: the
checkpoint test of the code (`job_idx < cancellation_idx`) is false, while
the test `generation ≤ cancel_at` is true. -/
theorem first_job_tests_disagree :
    (cover_get_submit (run_ops State.init [])).2 = 0 ∧
    (run_ops (cover_get_submit (run_ops State.init [])).1 []).cancellation_idx = 0 ∧
    job_cancelled (run_ops (cover_get_submit (run_ops State.init [])).1 [])
      (cover_get_submit (run_ops State.init [])).2 = false ∧
    (cover_get_submit (run_ops State.init [])).2 ≤
      (run_ops (cover_get_submit (run_ops State.init [])).1 []).cancellation_idx := by
  decide

/-- C5 (as amended): `queue_clear` stores the current `last_job_idx` in
`cancellation_idx` and then increments `last_job_idx`.  For a job submitted
after the operations `pre` and observed after the further operations `post`,
the checkpoint test `job_idx < cancellation_idx` holds exactly when `post`
contains a reset; and it agrees with the test `job_idx ≤ cancellation_idx`
except for the job submitted as the very first operation while no reset has
been executed. -/
theorem cancellation_checkpoint (pre post : List Op) :
    (∀ s : State, (queue_clear s).cancellation_idx = s.last_job_idx ∧
      (queue_clear s).last_job_idx = s.last_job_idx + 1) ∧
    (job_cancelled (run_ops (cover_get_submit (run_ops State.init pre)).1 post)
        (cover_get_submit (run_ops State.init pre)).2 = true ↔ Op.reset ∈ post) ∧
    (((cover_get_submit (run_ops State.init pre)).2 ≤
          (run_ops (cover_get_submit (run_ops State.init pre)).1 post).cancellation_idx ↔
        job_cancelled (run_ops (cover_get_submit (run_ops State.init pre)).1 post)
          (cover_get_submit (run_ops State.init pre)).2 = true) ↔
      ¬ (pre = [] ∧ Op.reset ∉ post)) := by
  have hj : (cover_get_submit (run_ops State.init pre)).2 = (pre.length : Int) := by
    simp [cover_get_submit, run_ops_last_job_idx, State.init]
  have hl : (cover_get_submit (run_ops State.init pre)).1.last_job_idx = (pre.length : Int) + 1 := by
    simp [cover_get_submit, run_ops_last_job_idx, State.init]
  have hc : (cover_get_submit (run_ops State.init pre)).1.cancellation_idx =
      (run_ops State.init pre).cancellation_idx := rfl
  have hpre : (run_ops State.init pre).cancellation_idx < (pre.length : Int) ∨
      (pre = [] ∧ (run_ops State.init pre).cancellation_idx = 0) ∨
      (pre ≠ [] ∧ (run_ops State.init pre).cancellation_idx = 0) := by
    by_cases hr : Op.reset ∈ pre
    · have := (run_ops_reset pre State.init hr).2
      simp only [State.init, zero_add] at this
      exact Or.inl this
    · have := run_ops_no_reset pre State.init hr
      by_cases hp : pre = []
      · exact Or.inr (Or.inl ⟨hp, this⟩)
      · exact Or.inr (Or.inr ⟨hp, this⟩)
  refine ⟨fun s => ⟨rfl, rfl⟩, ?_, ?_⟩
  · simp only [job_cancelled, decide_eq_true_eq, hj]
    by_cases hr : Op.reset ∈ post
    · have := (run_ops_reset post (cover_get_submit (run_ops State.init pre)).1 hr).1
      rw [hl] at this
      simp only [hr, iff_true]
      omega
    · have := run_ops_no_reset post (cover_get_submit (run_ops State.init pre)).1 hr
      rw [this, hc]
      simp only [hr, iff_false, not_lt]
      rcases hpre with h | ⟨_, h⟩ | ⟨_, h⟩ <;> omega
  · simp only [job_cancelled, decide_eq_true_eq, hj]
    by_cases hr : Op.reset ∈ post
    · have := (run_ops_reset post (cover_get_submit (run_ops State.init pre)).1 hr).1
      rw [hl] at this
      simp only [hr, not_true_eq_false, and_false, not_false_eq_true, iff_true]
      constructor <;> intro <;> omega
    · have := run_ops_no_reset post (cover_get_submit (run_ops State.init pre)).1 hr
      rw [this, hc]
      simp only [hr, not_false_eq_true, and_true]
      rcases hpre with h | ⟨hp, h⟩ | ⟨hp, h⟩
      · have hne : pre ≠ [] := by
          intro h0
          subst h0
          have h2 : (run_ops State.init []).cancellation_idx = 0 := rfl
          rw [h2] at h
          simp at h
        simp only [hne, not_false_eq_true, iff_true]
        constructor <;> intro <;> omega
      · subst hp
        simp [h]
      · have hlen : 0 < pre.length := List.length_pos.mpr hp
        simp only [hp, not_false_eq_true, iff_true, h]
        constructor <;> intro <;> omega

theorem esc_char_ne_slash (c : Char) : esc_char false c ≠ '/' := by
  unfold esc_char
  by_cases h : c = '/'
  · simp [h]
  · simp [h]

theorem esc_no_slash (l : CStr) : '/' ∉ l.map (esc_char false) := by
  intro h
  obtain ⟨c, _, hc⟩ := List.mem_map.mp h
  exact esc_char_ne_slash c hc

theorem esc_char_eq_dot (c : Char) (h : esc_char false c = '.') : c = '.' := by
  unfold esc_char at h
  by_cases hc : c = '/'
  · simp [hc] at h
  · simpa [hc] using h

theorem make_cache_dir_path_ok (root : Int → Int × CStr) (a : CStr) (n : Int)
    (h : (make_cache_dir_path false root (some a) n).1 = 0) :
    (make_cache_dir_path false root (some a) n).2 =
      (root n).2 ++ "covers2/".toList ++ (a.take NAME_MAX).map (esc_char false) ++ ['/'] := by
  unfold make_cache_dir_path at h ⊢
  simp only at h ⊢
  split at h
  · simp at h
  · split at h
    · simp at h
    · rename_i h1 h2
      simp only [h1, h2, if_false]
      simp [List.append_assoc]

theorem make_cache_path_artist_cases (artist : Option CStr) :
    make_cache_path_artist artist = "Unknown artist".toList ∨
      (artist = some (make_cache_path_artist artist) ∧ make_cache_path_artist artist ≠ []) := by
  unfold make_cache_path_artist
  cases artist with
  | none => exact Or.inl rfl
  | some x =>
    by_cases hx : x = []
    · simp [hx]
    · simp [hx]

theorem make_cache_path_name_ok (album outpath : CStr) (outsize : Int)
    (h : (make_cache_path_name false album outpath outsize).1 = 0) :
    ∃ b : CStr, (make_cache_path_name false album outpath outsize).2 =
      outpath ++ b.map (esc_char false) ++ ".jpg".toList := by
  unfold make_cache_path_name at h ⊢
  simp only at h ⊢
  split at h
  · exact absurd (show (-1 : Int) = 0 from h) (by decide)
  · rename_i hm
    simp only [hm, if_false]
    exact ⟨_, rfl⟩

theorem make_cache_path_ok (root : Int → Int × CStr) (filepath album artist : Option CStr)
    (outsize : Int) (h : (make_cache_path false root filepath album artist outsize).1 = 0) :
    ∃ b : CStr,
      (make_cache_path false root filepath album artist outsize).2 =
        (root (outsize - NAME_MAX)).2 ++ "covers2/".toList ++
          ((make_cache_path_artist artist).take NAME_MAX).map (esc_char false)
          ++ ['/'] ++ b.map (esc_char false) ++ ".jpg".toList := by
  unfold make_cache_path at h ⊢
  cases halb : make_cache_path_album filepath album artist with
  | none =>
    rw [halb] at h
    exact absurd (show (-1 : Int) = 0 from h) (by decide)
  | some alb =>
    rw [halb] at h
    simp only at h ⊢
    by_cases hd : (make_cache_dir_path false root (some (make_cache_path_artist artist))
        (outsize - NAME_MAX)).1 = 0
    · have hp := make_cache_dir_path_ok root (make_cache_path_artist artist) _ hd
      simp only [hd, ne_eq, not_true_eq_false, if_false] at h ⊢
      obtain ⟨b, hb⟩ := make_cache_path_name_ok alb _ outsize h
      rw [hb, hp]
      exact ⟨b, rfl⟩
    · simp only [ne_eq, hd, not_false_eq_true, if_true] at h
      exact absurd (show (-1 : Int) = 0 from h) (by decide)

theorem esc_map_eq_dots (l : CStr) (d : CStr) (hd : ∀ c ∈ d, c = '.')
    (h : l.map (esc_char false) = d) : l = d := by
  induction l generalizing d with
  | nil => simpa using h
  | cons c rest ih =>
    cases d with
    | nil => simp at h
    | cons e d2 =>
      simp only [List.map_cons, List.cons.injEq] at h
      have he : e = '.' := hd e (List.mem_cons_self _ _)
      have hc : c = '.' := esc_char_eq_dot c (by rw [h.1, he])
      rw [hc, he, ih d2 (fun x hx => hd x (List.mem_cons_of_mem _ hx)) h.2]

theorem take_length_small (l : CStr) (n : Nat) (hn : n < NAME_MAX)
    (h : (l.take NAME_MAX).length = n) : l.take NAME_MAX = l := by
  rw [List.length_take] at h
  apply List.take_of_length_le
  omega

theorem jpg_name_facts (B : CStr) (hB : '/' ∉ B) :
    B ++ ".jpg".toList ≠ [] ∧ B ++ ".jpg".toList ≠ ['.'] ∧ B ++ ".jpg".toList ≠ ['.', '.'] ∧
    '/' ∉ B ++ ".jpg".toList := by
  have hlen : (B ++ ".jpg".toList).length = B.length + 4 := by simp
  refine ⟨?_, ?_, ?_, ?_⟩
  · intro h; rw [h] at hlen; simp at hlen
  · intro h; rw [h] at hlen; simp at hlen
  · intro h; rw [h] at hlen; simp at hlen
  · intro h
    rcases List.mem_append.mp h with h | h
    · exact hB h
    · revert h; decide

/-- C6 (as amended): on POSIX, whenever `make_cache_path` succeeds the path is
the cache root followed by exactly `covers2/<A>/<B>.jpg`, where neither `A`
nor `B` contains `/`, so that the part after the root has exactly the three
components `covers2`, `A` and `<B>.jpg`.  The file component is never `.` or
`..`; the directory component `A` is `.` or `..` only when the artist string
itself is that string; and in every case the path resolves to a place under
the cache root. -/
theorem make_cache_path_shape (root : Int → Int × CStr) (filepath album artist : Option CStr)
    (outsize : Int) (h : (make_cache_path false root filepath album artist outsize).1 = 0) :
    ∃ A B : CStr,
      (make_cache_path false root filepath album artist outsize).2 =
        (root (outsize - NAME_MAX)).2 ++ "covers2/".toList ++ A ++ ['/'] ++ B ++ ".jpg".toList ∧
      '/' ∉ A ∧ '/' ∉ B ∧
      ((make_cache_path false root filepath album artist outsize).2.drop
          (root (outsize - NAME_MAX)).2.length).splitOn '/' =
        ["covers2".toList, A, B ++ ".jpg".toList] ∧
      B ++ ".jpg".toList ≠ ['.'] ∧ B ++ ".jpg".toList ≠ ['.', '.'] ∧
      ((A = ['.'] ∨ A = ['.', '.']) → artist = some A) ∧
      (resolve_depth 0 ["covers2".toList, A, B ++ ".jpg".toList]).isSome = true := by
  obtain ⟨b, hb⟩ := make_cache_path_ok root filepath album artist outsize h
  have hA := esc_no_slash ((make_cache_path_artist artist).take NAME_MAX)
  have hB := esc_no_slash b
  obtain ⟨f1, f2, f3, f4⟩ := jpg_name_facts _ hB
  refine ⟨_, _, hb, hA, hB, ?_, f2, f3, ?_, ?_⟩
  · rw [hb]
    have hsplit : (['/'].intercalate ["covers2".toList,
        ((make_cache_path_artist artist).take NAME_MAX).map (esc_char false),
        b.map (esc_char false) ++ ".jpg".toList]).splitOn '/' =
        ["covers2".toList,
          ((make_cache_path_artist artist).take NAME_MAX).map (esc_char false),
          b.map (esc_char false) ++ ".jpg".toList] := List.splitOn_intercalate _ '/'
      (by
        intro l hl
        simp only [List.mem_cons, List.mem_singleton, List.not_mem_nil, or_false] at hl
        rcases hl with hl | hl | hl
        · rw [hl]; decide
        · rw [hl]; exact hA
        · rw [hl]; exact f4)
      (by simp)
    rw [← hsplit]
    congr 1
    simp [List.intercalate, List.intersperse, List.append_assoc]
  · intro hdots
    have hd : ∀ d : CStr, (d = ['.'] ∨ d = ['.', '.']) → (∀ c ∈ d, c = '.') ∧ d.length < NAME_MAX ∧
        d ≠ "Unknown artist".toList := by
      intro d hd
      rcases hd with hd | hd <;> subst hd <;> exact ⟨by simp, by decide, by decide⟩
    generalize hA2 : ((make_cache_path_artist artist).take NAME_MAX).map (esc_char false) = A at hdots ⊢
    obtain ⟨hall, hlen, hne⟩ := hd A hdots
    have h1 := esc_map_eq_dots _ A hall hA2
    have h2 := take_length_small (make_cache_path_artist artist) A.length hlen (by rw [h1])
    rw [h2] at h1
    rcases make_cache_path_artist_cases artist with hu | ⟨hs, _⟩
    · rw [h1] at hu
      exact absurd hu hne
    · rw [hs, h1]
  · generalize ((make_cache_path_artist artist).take NAME_MAX).map (esc_char false) = A
    generalize hF : b.map (esc_char false) ++ ".jpg".toList = F at f1 f2 f3
    have hc : ¬ ("covers2".toList = [] ∨ "covers2".toList = ['.']) := by decide
    have hc2 : "covers2".toList ≠ ['.', '.'] := by decide
    have hF1 : ¬ (F = [] ∨ F = ['.']) := fun h => h.elim f1 f2
    simp only [resolve_depth, hc, hc2, if_false]
    by_cases ha : A = [] ∨ A = ['.']
    · simp [ha, hF1, f3]
    · by_cases ha2 : A = ['.', '.']
      · simp [ha, ha2, hF1, f3]
      · simp [ha, ha2, hF1, f3]

/-- Witness for `make_cache_path_shape`: artist `AC/DC`, album `Back/Black`. -/
theorem make_cache_path_shape_witness :
    (make_cache_path false rootC none (some "Back/Black".toList) (some "AC/DC".toList) 4096).1 = 0 ∧
    ∃ A B : CStr,
      (make_cache_path false rootC none (some "Back/Black".toList) (some "AC/DC".toList) 4096).2 =
        (rootC (4096 - NAME_MAX)).2 ++ "covers2/".toList ++ A ++ ['/'] ++ B ++ ".jpg".toList ∧
      '/' ∉ A ∧ '/' ∉ B ∧
      ((make_cache_path false rootC none (some "Back/Black".toList) (some "AC/DC".toList) 4096).2.drop
          (rootC (4096 - NAME_MAX)).2.length).splitOn '/' =
        ["covers2".toList, A, B ++ ".jpg".toList] ∧
      B ++ ".jpg".toList ≠ ['.'] ∧ B ++ ".jpg".toList ≠ ['.', '.'] ∧
      ((A = ['.'] ∨ A = ['.', '.']) → some "AC/DC".toList = some A) ∧
      (resolve_depth 0 ["covers2".toList, A, B ++ ".jpg".toList]).isSome = true :=
  ⟨by decide,
    make_cache_path_shape rootC none (some "Back/Black".toList) (some "AC/DC".toList) 4096
      (by decide)⟩

/-- C6 (counterexample): album `a/b` contains the separator and the artist is
`..`.  `make_cache_path` succeeds with `/c/covers2/../a\b.jpg`: the second
component after the cache root `/c/` is `..`. -/
theorem make_cache_path_dotdot_artist :
    '/' ∈ "a/b".toList ∧
    make_cache_path false rootC none (some "a/b".toList) (some "..".toList) 4096 =
      (0, "/c/covers2/../a\\b.jpg".toList) ∧
    ((make_cache_path false rootC none (some "a/b".toList) (some "..".toList) 4096).2.drop
        (rootC (4096 - NAME_MAX)).2.length).splitOn '/' =
      ["covers2".toList, "..".toList, "a\\b.jpg".toList] := by
  refine ⟨by decide, by decide, by decide⟩

theorem process_query_local_scans (cfg : Settings) (w : World) (cover : ddb_cover_info_t)
    (h1 : cfg.artwork_enable_local = true) (h2 : w.is_local_file cover.filepath = true) :
    ∃ p u rest, (process_query_local cfg w cover).2.2 = Action.local_scan p u :: rest := by
  unfold process_query_local
  simp only [h1, h2, and_self, if_true]
  cases hv : (vfs_path cover.filepath).1 with
  | none =>
    simp only [List.nil_append]
    cases w.local_image_file (w.dirname ((none : Option CStr).getD (vfs_path cover.filepath).2))
        none false with
    | none => exact ⟨_, _, _, rfl⟩
    | some img => exact ⟨_, _, _, rfl⟩
  | some v =>
    simp only
    by_cases hp : w.scandir_plug v = true
    · simp only [hp, if_true]
      cases w.local_image_file v (some (vfs_path cover.filepath).2) true with
      | some img => exact ⟨_, _, _, rfl⟩
      | none =>
        simp only [List.singleton_append]
        cases w.local_image_file (w.dirname ((some v).getD (vfs_path cover.filepath).2)) none false with
        | none => exact ⟨_, _, _, rfl⟩
        | some img => exact ⟨_, _, _, rfl⟩
    · simp only [hp, List.nil_append]
      cases w.local_image_file (w.dirname ((some v).getD (vfs_path cover.filepath).2)) none false with
      | none => exact ⟨_, _, _, rfl⟩
      | some img => exact ⟨_, _, _, rfl⟩

theorem process_query_actions_start (cfg : Settings) (w : World) (cover : ddb_cover_info_t) :
    ∃ rest, (process_query cfg w cover).2 = (process_query_local cfg w cover).2.2 ++ rest := by
  unfold process_query process_query_chain
  generalize process_query_cache_path cfg w cover = cp
  simp only
  cases hl : (process_query_local cfg w cover).1 with
  | true =>
    simp only [if_true]
    exact ⟨[], by simp⟩
  | false =>
    simp only [Bool.false_eq_true, if_false]
    cases he : (process_query_embedded cfg w cp (process_query_local cfg w cover).2.1).1 with
    | true =>
      simp only [if_true]
      exact ⟨_, rfl⟩
    | false =>
      simp only [Bool.false_eq_true, if_false]
      cases cp with
      | none => exact ⟨_, rfl⟩
      | some path =>
        simp only
        cases hw : (if cfg.USE_VFS_CURL = true then
            process_query_web cfg w path
              (process_query_embedded cfg w (some path) (process_query_local cfg w cover).2.1).2.1
          else (false,
            (process_query_embedded cfg w (some path) (process_query_local cfg w cover).2.1).2.1,
            [])).1 with
        | true =>
          simp only [if_true]
          exact ⟨_, by rw [List.append_assoc]⟩
        | false =>
          simp only [Bool.false_eq_true, if_false]
          exact ⟨_, by rw [List.append_assoc, List.append_assoc]⟩

theorem store_embedded_reuse (w : World) (path : CStr) (sz : Nat) (cover : ddb_cover_info_t)
    (h : nonempty_regular_file w path = true) :
    store_embedded w path sz cover = (true, { cover with image_filename := some path }, []) := by
  simp [store_embedded, h]

theorem id3_loop_reuse (cfg : Settings) (w : World) (path : CStr) (minor : Int)
    (cover : ddb_cover_info_t) (hc : cfg.artwork_disable_cache = false)
    (h : nonempty_regular_file w path = true) :
    ∀ frames : List DB_id3v2_frame_t,
      id3_extract_art_loop cfg w (some path) minor frames cover = (-1, cover, []) ∨
      id3_extract_art_loop cfg w (some path) minor frames cover =
        (0, { cover with image_filename := some path }, []) := by
  intro frames
  induction frames with
  | nil => exact Or.inl rfl
  | cons f rest ih =>
    unfold id3_extract_art_loop
    simp only
    split
    · exact ih
    · split
      · exact ih
      · simp [hc, store_embedded_reuse w path _ cover h]

theorem apev2_loop_reuse (cfg : Settings) (w : World) (path : CStr)
    (cover : ddb_cover_info_t) (hc : cfg.artwork_disable_cache = false)
    (h : nonempty_regular_file w path = true) :
    ∀ frames : List DB_apev2_frame_t,
      apev2_extract_art_loop cfg w (some path) frames cover = (-1, cover, []) ∨
      apev2_extract_art_loop cfg w (some path) frames cover =
        (0, { cover with image_filename := some path }, []) := by
  intro frames
  induction frames with
  | nil => exact Or.inl rfl
  | cons f rest ih =>
    unfold apev2_extract_art_loop
    split
    · exact ih
    · simp only
      split
      · exact ih
      · simp [hc, store_embedded_reuse w path _ cover h]

theorem id3_reuse (cfg : Settings) (w : World) (path : CStr)
    (cover : ddb_cover_info_t) (hc : cfg.artwork_disable_cache = false)
    (h : nonempty_regular_file w path = true) :
    id3_extract_art cfg w (some path) cover = (-1, cover, []) ∨
    id3_extract_art cfg w (some path) cover = (0, { cover with image_filename := some path }, []) := by
  unfold id3_extract_art
  split
  · exact Or.inl rfl
  · exact id3_loop_reuse cfg w path _ cover hc h _

theorem apev2_reuse (cfg : Settings) (w : World) (path : CStr)
    (cover : ddb_cover_info_t) (hc : cfg.artwork_disable_cache = false)
    (h : nonempty_regular_file w path = true) :
    apev2_extract_art cfg w (some path) cover = (-1, cover, []) ∨
    apev2_extract_art cfg w (some path) cover = (0, { cover with image_filename := some path }, []) := by
  unfold apev2_extract_art
  split
  · exact Or.inl rfl
  · exact apev2_loop_reuse cfg w path cover hc h _

theorem mp4_reuse (cfg : Settings) (w : World) (path : CStr)
    (cover : ddb_cover_info_t) (hc : cfg.artwork_disable_cache = false)
    (h : nonempty_regular_file w path = true) :
    mp4_extract_art cfg w (some path) cover = (-1, cover, []) ∨
    mp4_extract_art cfg w (some path) cover = (0, { cover with image_filename := some path }, []) := by
  unfold mp4_extract_art
  split
  · exact Or.inl rfl
  · split
    · exact Or.inl rfl
    · simp only
      split
      · exact Or.inl rfl
      · simp [hc, store_embedded_reuse w path _ cover h]

theorem process_query_embedded_reuse (cfg : Settings) (w : World) (path : CStr)
    (cover : ddb_cover_info_t) (hc : cfg.artwork_disable_cache = false)
    (hf : cfg.USE_METAFLAC = false) (h : nonempty_regular_file w path = true)
    (hfound : (process_query_embedded cfg w (some path) cover).1 = true) :
    (process_query_embedded cfg w (some path) cover).2.1 =
      { cover with image_filename := some path, cover_found := 1 } ∧
    ∀ a ∈ (process_query_embedded cfg w (some path) cover).2.2, a.is_probe = true := by
  unfold process_query_embedded at hfound ⊢
  by_cases hen : cfg.artwork_enable_embedded = true ∧ w.is_local_file cover.filepath = true
  · simp only [hen, and_self, if_true, hf, Bool.false_eq_true, if_false, List.nil_append] at hfound ⊢
    rcases id3_reuse cfg w path cover hc h with h1 | h1
    · rcases apev2_reuse cfg w path cover hc h with h2 | h2
      · rcases mp4_reuse cfg w path cover hc h with h3 | h3
        · simp [h1, h2, h3] at hfound
        · simp [h1, h2, h3, Action.is_probe]
      · simp [h1, h2, Action.is_probe]
    · simp [h1, Action.is_probe]
  · simp only [hen, if_false] at hfound
    exact absurd hfound (by decide)

theorem web_lookups_off (cfg : Settings) (w : World) (path : CStr) (cover : ddb_cover_info_t)
    (h : cfg.USE_VFS_CURL = false ∨ cfg.artwork_enable_lfm = false) :
    web_lookups cfg w (some path) cover = (-1, cover, []) := by
  unfold web_lookups
  rcases h with h | h <;> simp [h]

theorem process_query_web_off (cfg : Settings) (w : World) (path : CStr) (cover : ddb_cover_info_t)
    (h1 : cfg.artwork_enable_lfm = false) (h2 : cfg.artwork_enable_wos = false) :
    (process_query_web cfg w path cover).1 = false ∧ (process_query_web cfg w path cover).2.2 = [] := by
  unfold process_query_web
  simp only [h2, Bool.false_eq_true, false_and, if_false, web_lookups_off cfg w path _ (Or.inr h1)]
  cases cover.album.findIdx? (fun c => decide (c = '(' ∨ c = '[')) with
  | none => simp
  | some p => simp

theorem process_query_no_probe (cfg : Settings) (w : World) (cover : ddb_cover_info_t)
    (hc : cfg.artwork_disable_cache = false) (hl : cfg.artwork_enable_local = false)
    (he : cfg.artwork_enable_embedded = false)
    (hw : cfg.USE_VFS_CURL = false ∨ (cfg.artwork_enable_lfm = false ∧ cfg.artwork_enable_wos = false)) :
    (process_query cfg w cover).2 =
      [Action.write_file (make_cache_path cfg.WIN32 w.make_cache_root_path (some cover.filepath)
        (some cover.album) (some cover.artist) PATH_MAX).2 0] ∧
    (process_query cfg w cover).1.cover_found = 0 := by
  unfold process_query process_query_chain process_query_cache_path process_query_local
    process_query_embedded
  simp only [hc, hl, he, Bool.not_false, if_true, Bool.false_eq_true, false_and, if_false,
    List.nil_append]
  rcases hw with hw | ⟨h1, h2⟩
  · simp [hw]
  · obtain ⟨w1, w2⟩ := process_query_web_off cfg w (make_cache_path cfg.WIN32 w.make_cache_root_path
      (some cover.filepath) (some cover.album) (some cover.artist) PATH_MAX).2 cover h1 h2
    by_cases hcurl : cfg.USE_VFS_CURL = true
    · simp [hcurl, w1, w2]
    · simp [hcurl]

theorem process_query_local_miss (cfg : Settings) (w : World) (cover : ddb_cover_info_t)
    (h : (process_query_local cfg w cover).1 = false) :
    (process_query_local cfg w cover).2.1 = cover ∧
    ∀ a ∈ (process_query_local cfg w cover).2.2, a.is_probe = true := by
  unfold process_query_local at h ⊢
  by_cases hen : cfg.artwork_enable_local = true ∧ w.is_local_file cover.filepath = true
  · simp only [hen, and_self, if_true] at h ⊢
    cases hv : (vfs_path cover.filepath).1 with
    | none =>
      rw [hv] at h
      simp only [List.nil_append] at h ⊢
      cases hd : w.local_image_file (w.dirname ((none : Option CStr).getD (vfs_path cover.filepath).2))
          none false with
      | none => simp [Action.is_probe]
      | some img => rw [hd] at h; exact absurd h (by simp)
    | some v =>
      rw [hv] at h
      simp only at h ⊢
      by_cases hp : w.scandir_plug v = true
      · simp only [hp, if_true] at h ⊢
        cases hi : w.local_image_file v (some (vfs_path cover.filepath).2) true with
        | some img => rw [hi] at h; exact absurd h (by simp)
        | none =>
          rw [hi] at h
          simp only [List.singleton_append] at h ⊢
          cases hd : w.local_image_file (w.dirname ((some v).getD (vfs_path cover.filepath).2))
              none false with
          | none => simp [Action.is_probe]
          | some img => rw [hd] at h; exact absurd h (by simp)
      · simp only [hp, List.nil_append] at h ⊢
        cases hd : w.local_image_file (w.dirname ((some v).getD (vfs_path cover.filepath).2))
            none false with
        | none => simp [Action.is_probe]
        | some img =>
          rw [hd] at h
          exact absurd h (by simp)
  · simp [hen]

/-- What `process_query` does with disk caching enabled, where it does not look
at the cache path before probing.  (1) When the sibling scan is enabled and
the track is local, the scan is the first thing done, whatever file exists at
the cache path.  (2) When every probe is switched off, the only thing done is
writing the zero-byte placeholder at the cache path, and not-found is
reported, whatever file exists there.  (3) A non-empty regular file at the
cache path is reused when, the sibling scan having found nothing, an embedded
ID3v2, APEv2 or MP4 probe locates an image: the result is then the cache path
and nothing is written. -/
theorem process_query_cache_file (cfg : Settings) (w : World) (cover : ddb_cover_info_t)
    (hc : cfg.artwork_disable_cache = false) :
    (cfg.artwork_enable_local = true → w.is_local_file cover.filepath = true →
      ∃ p u, (process_query cfg w cover).2.head? = some (Action.local_scan p u)) ∧
    (cfg.artwork_enable_local = false → cfg.artwork_enable_embedded = false →
      (cfg.USE_VFS_CURL = false ∨
        (cfg.artwork_enable_lfm = false ∧ cfg.artwork_enable_wos = false)) →
      (process_query cfg w cover).2 =
        [Action.write_file (make_cache_path cfg.WIN32 w.make_cache_root_path (some cover.filepath)
          (some cover.album) (some cover.artist) PATH_MAX).2 0] ∧
      (process_query cfg w cover).1.cover_found = 0) ∧
    (∀ path, process_query_cache_path cfg w cover = some path →
      cfg.USE_METAFLAC = false → nonempty_regular_file w path = true →
      (process_query_local cfg w cover).1 = false →
      (process_query_embedded cfg w (some path) cover).1 = true →
      (process_query cfg w cover).1 = { cover with image_filename := some path, cover_found := 1 } ∧
      ∀ a ∈ (process_query cfg w cover).2, a.is_probe = true) := by
  refine ⟨?_, ?_, ?_⟩
  · intro h1 h2
    obtain ⟨p, u, rest, hr⟩ := process_query_local_scans cfg w cover h1 h2
    obtain ⟨rest2, hr2⟩ := process_query_actions_start cfg w cover
    exact ⟨p, u, by rw [hr2, hr]; rfl⟩
  · intro h1 h2 h3
    exact process_query_no_probe cfg w cover hc h1 h2 h3
  · intro path hp hf hfile hl he
    obtain ⟨l1, l2⟩ := process_query_local_miss cfg w cover hl
    have hemb := process_query_embedded_reuse cfg w path cover hc hf hfile he
    unfold process_query process_query_chain
    rw [hp]
    simp only [hl, Bool.false_eq_true, if_false, l1, he, if_true]
    refine ⟨hemb.1, ?_⟩
    intro a ha
    rcases List.mem_append.mp ha with ha | ha
    · exact l2 a ha
    · exact hemb.2 a ha

set_option maxRecDepth 100000 in
/-- An instance of `process_query_cache_file`: the track carries an `APIC` frame
and a file of 1000 bytes sits at its cache path; the sibling scan finds
nothing, the ID3v2 probe locates the image, and the result is the cache path
with nothing written. -/
theorem process_query_cache_file_example :
    cfgAll.artwork_disable_cache = false ∧
    (process_query cfgAll (worldTagged 1000) trackCover).1 =
      { trackCover with image_filename := some "/c/covers2/Artist/Album.jpg".toList,
                        cover_found := 1 } ∧
    ∀ a ∈ (process_query cfgAll (worldTagged 1000) trackCover).2, a.is_probe = true :=
  ⟨rfl, (process_query_cache_file cfgAll (worldTagged 1000) trackCover rfl).2.2
    "/c/covers2/Artist/Album.jpg".toList (by decide) rfl (by decide) (by decide) (by decide)⟩

set_option maxRecDepth 100000 in
/-- C7: evaluation of `process_query` with caching enabled and a regular file
at the cache path `/c/covers2/Artist/Album.jpg` of the track.  With a file of
1000 bytes and the sibling scan enabled, `process_query` runs the scan and
returns the sibling `/m/cover.jpg`, not the cached file.  With a zero-byte
file it does the same and reports the cover found.  With a file of 1000 bytes
and every probe switched off it reports not-found and writes the zero-byte
placeholder over the file.  With every probe enabled and nothing to be found
by them, it runs the sibling scan, the three tag readers and the remote
lookup, reports not-found and writes the zero-byte placeholder, both over the
file of 1000 bytes and over the zero-byte file. -/
theorem process_query_probes_despite_cache_file :
    process_query_cache_path cfgAll (worldC 1000 true) trackCover =
      some "/c/covers2/Artist/Album.jpg".toList ∧
    nonempty_regular_file (worldC 1000 true) "/c/covers2/Artist/Album.jpg".toList = true ∧
    process_query cfgAll (worldC 1000 true) trackCover =
      ({ trackCover with image_filename := some "/m/cover.jpg".toList, cover_found := 1 },
        [Action.local_scan "/m".toList none]) ∧
    (worldC 0 true).stat "/c/covers2/Artist/Album.jpg".toList = some (true, 0) ∧
    process_query cfgAll (worldC 0 true) trackCover =
      ({ trackCover with image_filename := some "/m/cover.jpg".toList, cover_found := 1 },
        [Action.local_scan "/m".toList none]) ∧
    process_query cfgNone (worldC 1000 false) trackCover =
      ({ trackCover with cover_found := 0 },
        [Action.write_file "/c/covers2/Artist/Album.jpg".toList 0]) ∧
    process_query cfgAll (worldC 1000 false) trackCover =
      ({ trackCover with cover_found := 0 },
        [Action.local_scan "/m".toList none, Action.id3 "/m/t.mp3".toList,
         Action.apev2 "/m/t.mp3".toList, Action.mp4 "/m/t.mp3".toList,
         Action.lastfm "Artist".toList "Album".toList "/c/covers2/Artist/Album.jpg".toList,
         Action.write_file "/c/covers2/Artist/Album.jpg".toList 0]) ∧
    process_query cfgAll (worldC 0 false) trackCover =
      ({ trackCover with cover_found := 0 },
        [Action.local_scan "/m".toList none, Action.id3 "/m/t.mp3".toList,
         Action.apev2 "/m/t.mp3".toList, Action.mp4 "/m/t.mp3".toList,
         Action.lastfm "Artist".toList "Album".toList "/c/covers2/Artist/Album.jpg".toList,
         Action.write_file "/c/covers2/Artist/Album.jpg".toList 0]) := by
  refine ⟨?_, ?_, ?_, ?_, ?_, ?_, ?_, ?_⟩ <;> decide

end Artwork

namespace Medialib

open Artwork (CStr)

theorem find_reluri_isSome (paths : List json_t) (uri : CStr) :
    (find_reluri paths uri).isSome = starts_with_monitored paths uri := by
  induction paths with
  | nil => rfl
  | cons p rest ih =>
    cases p with
    | other => rfl
    | string d =>
      unfold starts_with_monitored at ih ⊢
      by_cases h : d.isPrefixOf uri = true
      · simp [find_reluri, monitored_paths, h]
      · simp only [Bool.not_eq_true] at h
        simp [find_reluri, monitored_paths, h, ih]

theorem ml_index_track_tracks (host : Host) (it : DB_playItem_t) (artist reluri : CStr)
    (v : IndexVars) :
    ∃ en : ml_entry_t, en.file = it.uri ∧ en.title = pl_find_meta it "title" ∧
      (ml_index_track host it artist reluri v).db.tracks = v.db.tracks ++ [en] ∧
      (ml_index_track host it artist reluri v).db.filename_hash =
        (fun k => if k = hash_for_ptr (host.metacache_addr it.uri) then
            en :: v.db.filename_hash (hash_for_ptr (host.metacache_addr it.uri))
          else v.db.filename_hash k) :=
  ⟨_, rfl, rfl, rfl, rfl⟩

theorem ml_index_loop_kept (host : Host) (paths : List json_t) :
    ∀ (plt : List DB_playItem_t) (v : IndexVars),
      (ml_index_loop host paths plt v).1 = plt.filter (fun it => starts_with_monitored paths it.uri) ∧
      (ml_index_loop host paths plt v).2.db.tracks.map (·.file) =
        v.db.tracks.map (·.file) ++
          (plt.filter (fun it => starts_with_monitored paths it.uri)).map (·.uri) := by
  intro plt
  induction plt with
  | nil => intro v; simp [ml_index_loop]
  | cons it rest ih =>
    intro v
    have hs := find_reluri_isSome paths it.uri
    cases hr : find_reluri paths it.uri with
    | none =>
      rw [hr] at hs
      have hs2 : starts_with_monitored paths it.uri = false := by simpa using hs.symm
      simp only [ml_index_loop, hr, List.filter_cons, hs2, Bool.false_eq_true, if_false]
      exact ih _
    | some reluri =>
      rw [hr] at hs
      have hs2 : starts_with_monitored paths it.uri = true := by simpa using hs.symm
      simp only [ml_index_loop, hr, List.filter_cons, hs2, if_true, List.map_cons]
      obtain ⟨en, h1, _, h3, _⟩ := ml_index_track_tracks host it
        ((pl_find_meta it "artist").getD unknown) reluri
        { v with has_unknown_artist := v.has_unknown_artist ||
            decide ((pl_find_meta it "artist").getD unknown = unknown) }
      have := ih (ml_index_track host it ((pl_find_meta it "artist").getD unknown) reluri
        { v with has_unknown_artist := v.has_unknown_artist ||
            decide ((pl_find_meta it "artist").getD unknown = unknown) })
      refine ⟨by rw [this.1], ?_⟩
      rw [this.2, h3]
      simp [h1]

theorem ml_index_finish_tracks (host : Host) (v : IndexVars) :
    (ml_index_finish host v).tracks = v.db.tracks ∧
    (ml_index_finish host v).filename_hash = v.db.filename_hash := ⟨rfl, rfl⟩

set_option maxRecDepth 100000 in
/-- C9: evaluation of `ml_index` for the monitored directory `/music`.  A
playlist whose only track has no artist and lies outside `/music`: the track
is removed, but it has set `has_unknown_artist`, so `<?>` is not added and
the artists collection is empty.  A playlist whose only track lies inside
`/music` and has no album: the track is registered under its composite key,
`has_unknown_album` is set, and the albums collection has no `<?>` entry. -/
theorem ml_index_sentinel_missing :
    (ml_index host0 false [json_t.string "/music".toList] [mkTrack 2 "/other/b.mp3" []]).1 = [] ∧
    (ml_index host0 false [json_t.string "/music".toList]
      [mkTrack 2 "/other/b.mp3" []]).2.artists.texts = [] ∧
    (ml_index host0 false [json_t.string "/music".toList] [mkTrack 3 "/music/c.mp3" []]).1 =
      [mkTrack 3 "/music/c.mp3" []] ∧
    (ml_index host0 false [json_t.string "/music".toList]
      [mkTrack 3 "/music/c.mp3" []]).2.albums.texts =
        ["artist=Unknown Artist;album=Unknown Album".toList] ∧
    unknown ∉ (ml_index host0 false [json_t.string "/music".toList]
      [mkTrack 3 "/music/c.mp3" []]).2.albums.texts := by
  refine ⟨?_, ?_, ?_, ?_, ?_⟩ <;> decide

theorem flatMap_update_perm {α : Type} (f : Nat → List α) (h : Nat) (e : α) :
    ∀ n, h < n →
      ((List.range n).flatMap (fun k => if k = h then e :: f h else f k)).Perm
        (e :: (List.range n).flatMap f) := by
  intro n
  induction n with
  | zero => intro hn; exact absurd hn (Nat.not_lt_zero _)
  | succ n ih =>
    intro hn
    rw [List.range_succ, List.flatMap_append, List.flatMap_append, List.flatMap_singleton,
      List.flatMap_singleton]
    by_cases hh : h = n
    · subst hh
      have hsame : (List.range h).flatMap (fun k => if k = h then e :: f h else f k) =
          (List.range h).flatMap f := by
        apply List.flatMap_congr
        intro k hk
        have : k ≠ h := Nat.ne_of_lt (List.mem_range.mp hk)
        simp [this]
      rw [hsame]
      simp only [if_true]
      exact List.perm_middle
    · have hlt : h < n := by omega
      have hne : n ≠ h := fun h2 => hh h2.symm
      simp only [hne, if_false]
      exact (ih hlt).append_right (f n)

theorem hash_for_ptr_lt (ptr : Nat) : hash_for_ptr ptr < ML_HASH_SIZE := by
  unfold hash_for_ptr
  exact Nat.mod_lt _ (by decide)

theorem ml_index_track_perm (host : Host) (it : DB_playItem_t) (artist reluri : CStr)
    (v : IndexVars) (hp : v.db.hashed_entries.Perm v.db.tracks) :
    (ml_index_track host it artist reluri v).db.hashed_entries.Perm
      (ml_index_track host it artist reluri v).db.tracks := by
  obtain ⟨en, _, _, h3, h4⟩ := ml_index_track_tracks host it artist reluri v
  unfold ml_db_t.hashed_entries
  rw [h3, h4]
  refine (flatMap_update_perm v.db.filename_hash _ en ML_HASH_SIZE (hash_for_ptr_lt _)).trans ?_
  refine List.Perm.trans ?_ (List.perm_append_singleton en v.db.tracks).symm
  exact List.Perm.cons en hp

theorem ml_index_loop_entries (host : Host) (paths : List json_t) :
    ∀ (plt : List DB_playItem_t) (v : IndexVars),
      (∀ it ∈ plt, starts_with_monitored paths it.uri = true) →
      v.db.hashed_entries.Perm v.db.tracks →
      (ml_index_loop host paths plt v).1 = plt ∧
      (ml_index_loop host paths plt v).2.db.tracks.map (fun e => (e.file, e.title)) =
        v.db.tracks.map (fun e => (e.file, e.title)) ++
          plt.map (fun it => (it.uri, pl_find_meta it "title")) ∧
      (ml_index_loop host paths plt v).2.db.hashed_entries.Perm
        (ml_index_loop host paths plt v).2.db.tracks := by
  intro plt
  induction plt with
  | nil => intro v _ hp; exact ⟨rfl, by simp [ml_index_loop], hp⟩
  | cons it rest ih =>
    intro v hall hp
    have hit : starts_with_monitored paths it.uri = true := hall it (List.mem_cons_self _ _)
    have hs := find_reluri_isSome paths it.uri
    rw [hit] at hs
    cases hr : find_reluri paths it.uri with
    | none => rw [hr] at hs; exact absurd hs (by decide)
    | some reluri =>
      simp only [ml_index_loop, hr]
      obtain ⟨en, h1, h2, h3, _⟩ := ml_index_track_tracks host it
        ((pl_find_meta it "artist").getD unknown) reluri
        (IndexVars.mk v.db (v.has_unknown_artist ||
          decide ((pl_find_meta it "artist").getD unknown = unknown))
          v.has_unknown_album v.has_unknown_genre)
      have := ih _ (fun x hx => hall x (List.mem_cons_of_mem _ hx))
        (ml_index_track_perm host it ((pl_find_meta it "artist").getD unknown) reluri
          (IndexVars.mk v.db (v.has_unknown_artist ||
            decide ((pl_find_meta it "artist").getD unknown = unknown))
            v.has_unknown_album v.has_unknown_genre) hp)
      refine ⟨by rw [this.1], ?_, this.2.2⟩
      rw [this.2.1, h3]
      simp [h1, h2]

/-- C10: with `scanner_terminate` clear, when the URI of every track of the
playlist starts with a monitored path, `ml_index` keeps the whole playlist,
the entry list `db.tracks` has one entry per track, in playlist order (same
URI and title), hence exactly as many entries as tracks, and the buckets of
the filename hash hold, all together, exactly the entries of `db.tracks`,
each as often as it occurs there. -/
theorem ml_index_entries (host : Host) (paths : List json_t) (plt : List DB_playItem_t)
    (hall : ∀ it ∈ plt, starts_with_monitored paths it.uri = true) :
    (ml_index host false paths plt).1 = plt ∧
    (ml_index host false paths plt).2.tracks.map (fun e => (e.file, e.title)) =
      plt.map (fun it => (it.uri, pl_find_meta it "title")) ∧
    (ml_index host false paths plt).2.tracks.length = plt.length ∧
    (ml_index host false paths plt).2.hashed_entries.Perm (ml_index host false paths plt).2.tracks ∧
    (ml_index host false paths plt).2.hashed_entries.length = plt.length := by
  have h := ml_index_loop_entries host paths plt IndexVars.init hall
    (by simp [ml_db_t.hashed_entries, IndexVars.init])
  have h2 : (ml_index host false paths plt).2.tracks.map (fun e => (e.file, e.title)) =
      plt.map (fun it => (it.uri, pl_find_meta it "title")) := by
    simp only [ml_index, Bool.false_eq_true, if_false, (ml_index_finish_tracks host _).1]
    rw [h.2.1]
    simp [IndexVars.init]
  have h3 : (ml_index host false paths plt).2.tracks.length = plt.length := by
    have := congrArg List.length h2
    simpa using this
  have h4 : (ml_index host false paths plt).2.hashed_entries.Perm
      (ml_index host false paths plt).2.tracks := by
    simp only [ml_index, Bool.false_eq_true, if_false]
    exact h.2.2
  refine ⟨?_, h2, h3, h4, ?_⟩
  · simp only [ml_index, Bool.false_eq_true, if_false]
    exact h.1
  · rw [h4.length_eq, h3]

theorem lies_inside_starts_with (paths : List json_t) (dir uri : CStr)
    (hd : dir ∈ monitored_paths paths) (h : lies_inside dir uri = true) :
    starts_with_monitored paths uri = true := by
  unfold lies_inside at h
  unfold starts_with_monitored
  rw [List.any_eq_true]
  exact ⟨dir, hd, by simp only [Bool.and_eq_true] at h; exact h.1⟩

set_option maxRecDepth 100000 in
/-- Witness for `ml_index_entries`: two tracks under `/music`. -/
theorem ml_index_entries_witness :
    (∀ it ∈ [mkTrack 1 "/music/a.mp3" [("title", "A")], mkTrack 2 "/music/x/b.mp3" []],
      starts_with_monitored [json_t.string "/music".toList] it.uri = true) ∧
    (ml_index host0 false [json_t.string "/music".toList]
      [mkTrack 1 "/music/a.mp3" [("title", "A")], mkTrack 2 "/music/x/b.mp3" []]).2.tracks.map
        (fun e => (e.file, e.title)) =
      [("/music/a.mp3".toList, some "A".toList), ("/music/x/b.mp3".toList, none)] ∧
    (ml_index host0 false [json_t.string "/music".toList]
      [mkTrack 1 "/music/a.mp3" [("title", "A")], mkTrack 2 "/music/x/b.mp3" []]).2.hashed_entries.length
        = 2 :=
  ⟨by decide,
    (ml_index_entries host0 [json_t.string "/music".toList]
      [mkTrack 1 "/music/a.mp3" [("title", "A")], mkTrack 2 "/music/x/b.mp3" []] (by decide)).2.1,
    (ml_index_entries host0 [json_t.string "/music".toList]
      [mkTrack 1 "/music/a.mp3" [("title", "A")], mkTrack 2 "/music/x/b.mp3" []] (by decide)).2.2.2.2⟩

end Medialib

namespace Artwork

theorem longRoot_length : longRoot.length = 3830 := by
  unfold longRoot
  rw [List.length_append, List.length_cons, List.length_replicate]
  rfl

theorem make_cache_dir_path_longRoot :
    make_cache_dir_path false (worldLong false).make_cache_root_path
      (some "Artist".toList) ((PATH_MAX : Int) - NAME_MAX) = (-1, longRoot ++ "covers2/Ar".toList) := by
  have hf : ("covers2/".toList ++ ("Artist".toList.take NAME_MAX).map (esc_char false) ++ ['/'])
      = "covers2/Artist/".toList := by decide
  have hr : (worldLong false).make_cache_root_path ((PATH_MAX : Int) - NAME_MAX) = (0, longRoot) := rfl
  unfold make_cache_dir_path
  simp only [hf, hr, longRoot_length]
  have h1 : ¬ ((0 : Int) < 0) := by decide
  have h2 : ((PATH_MAX : Int) - NAME_MAX - ((3830 : Nat) : Int)) % 2 ^ 64 = 11 := by decide
  have h3 : (("covers2/Artist/".toList.length : Nat) : Int) ≥ 11 := by decide
  have h4 : "covers2/Artist/".toList.take ((11 : Int) - 1).toNat = "covers2/Ar".toList := by decide
  simp only [h1, h2, h3, h4, if_true, if_false]

theorem make_cache_path_longRoot :
    make_cache_path false (worldLong false).make_cache_root_path (some trackCover.filepath)
      (some trackCover.album) (some trackCover.artist) PATH_MAX =
      (-1, longRoot ++ "covers2/Ar".toList) := by
  have h1 : make_cache_path_album (some trackCover.filepath) (some trackCover.album)
      (some trackCover.artist) = some "Album".toList := by decide
  have h2 : make_cache_path_artist (some trackCover.artist) = "Artist".toList := by decide
  unfold make_cache_path
  rw [h1]
  simp only [h2, make_cache_dir_path_longRoot]
  rfl

/-- C20: evaluation of `process_query` when `make_cache_path` fails.  The cache
root has 3830 characters, so the directory part is truncated and
`make_cache_path` returns -1, leaving the truncated path in the buffer.  With
every probe switched off `process_query` still writes the zero-byte
placeholder, at that truncated path; with the sibling scan enabled and a
sibling image present it ends with `cover_found = 1`. -/
theorem process_query_ignores_cache_path_failure :
    (make_cache_path cfgNone.WIN32 (worldLong false).make_cache_root_path
      (some trackCover.filepath) (some trackCover.album) (some trackCover.artist) PATH_MAX).1 = -1 ∧
    (process_query cfgNone (worldLong false) trackCover).2 =
      [Action.write_file (longRoot ++ "covers2/Ar".toList) 0] ∧
    (process_query cfgNone (worldLong false) trackCover).1.cover_found = 0 ∧
    (process_query cfgAll (worldLong true) trackCover).1.cover_found = 1 ∧
    (process_query cfgAll (worldLong true) trackCover).2 = [Action.local_scan "/m".toList none] := by
  have hw : cfgNone.WIN32 = false := rfl
  have h := process_query_no_probe cfgNone (worldLong false) trackCover rfl rfl rfl
    (Or.inr ⟨rfl, rfl⟩)
  rw [hw] at h ⊢
  rw [make_cache_path_longRoot] at h ⊢
  refine ⟨rfl, h.1, h.2, ?_, ?_⟩
  · decide
  · decide

theorem make_cache_path_album_eq (filepath album artist : Option CStr) :
    make_cache_path_album filepath album artist = album_component filepath album artist := by
  unfold make_cache_path_album album_component
  cases album with
  | none =>
    cases filepath with
    | some f => simp
    | none =>
      cases artist with
      | none => simp
      | some r => cases r <;> simp
  | some a =>
    cases a with
    | cons x l => simp
    | nil =>
      cases filepath with
      | some f => simp
      | none =>
        cases artist with
        | none => simp
        | some r => cases r <;> simp

theorem make_cache_path_artist_eq (artist : Option CStr) :
    make_cache_path_artist artist = artist_component artist := by
  unfold make_cache_path_artist artist_component
  cases artist with
  | none => rfl
  | some a => cases a <;> simp

theorem album_component_none_iff (filepath album artist : Option CStr) :
    album_component filepath album artist = none ↔
      (album = none ∨ album = some []) ∧ filepath = none ∧ (artist = none ∨ artist = some []) := by
  unfold album_component
  cases album with
  | none =>
    cases filepath with
    | some f => simp
    | none =>
      cases artist with
      | none => simp
      | some r => cases r <;> simp
  | some a =>
    cases a with
    | cons x l => simp
    | nil =>
      cases filepath with
      | some f => simp
      | none =>
        cases artist with
        | none => simp
        | some r => cases r <;> simp

theorem make_cache_dir_path_content (win32 : Bool) (root : Int → Int × CStr) (a : CStr) (n : Int)
    (h : (make_cache_dir_path win32 root (some a) n).1 = 0) :
    (make_cache_dir_path win32 root (some a) n).2 =
      (root n).2 ++ "covers2/".toList ++ (a.take NAME_MAX).map (esc_char win32) ++ ['/'] := by
  unfold make_cache_dir_path at h ⊢
  simp only at h ⊢
  split at h
  · simp at h
  · split at h
    · simp at h
    · rename_i h1 h2
      simp only [h1, h2, if_false]
      simp [List.append_assoc]

theorem make_cache_path_name_content (win32 : Bool) (album outpath : CStr) (outsize : Int)
    (h : (make_cache_path_name win32 album outpath outsize).1 = 0) :
    ∃ b : CStr, b <:+ album ∧ (make_cache_path_name win32 album outpath outsize).2 =
      outpath ++ b.map (esc_char win32) ++ ".jpg".toList := by
  unfold make_cache_path_name at h ⊢
  simp only at h ⊢
  split at h
  · exact absurd (show (-1 : Int) = 0 from h) (by decide)
  · rename_i hm
    simp only [hm, if_false]
    refine ⟨_, ?_, rfl⟩
    split
    · exact List.drop_suffix _ _
    · exact List.suffix_refl _

/-- C19: `make_cache_path` names the file after the album when that is
non-empty, otherwise after the track URI when there is one, otherwise after
the artist when that is non-empty, and names the directory after the artist,
or after `Unknown artist` when the artist is missing or empty.  It returns -1
from the name choice, with an empty path, exactly when album and artist are
missing or empty and there is no track URI; otherwise the chosen names are
the ones handed to the directory and file name steps, and on success the path
is the cache root, `covers2/`, the escaped artist name cut to `NAME_MAX`
characters, `/`, an escaped tail of the album name and `.jpg`. -/
theorem make_cache_path_fallback (win32 : Bool) (root : Int → Int × CStr)
    (filepath album artist : Option CStr) (outsize : Int) :
    make_cache_path_album filepath album artist = album_component filepath album artist ∧
    make_cache_path_artist artist = artist_component artist ∧
    (make_cache_path_album filepath album artist = none ↔
      (album = none ∨ album = some []) ∧ filepath = none ∧ (artist = none ∨ artist = some [])) ∧
    (album_component filepath album artist = none →
      make_cache_path win32 root filepath album artist outsize = (-1, [])) ∧
    (∀ alb, album_component filepath album artist = some alb →
      make_cache_path win32 root filepath album artist outsize =
        if (make_cache_dir_path win32 root (some (artist_component artist))
            (outsize - NAME_MAX)).1 ≠ 0 then
          (-1, (make_cache_dir_path win32 root (some (artist_component artist))
            (outsize - NAME_MAX)).2)
        else make_cache_path_name win32 alb
          (make_cache_dir_path win32 root (some (artist_component artist)) (outsize - NAME_MAX)).2
          outsize) ∧
    ((make_cache_path win32 root filepath album artist outsize).1 = 0 →
      ∃ alb b, album_component filepath album artist = some alb ∧ b <:+ alb ∧
        (make_cache_path win32 root filepath album artist outsize).2 =
          (root (outsize - NAME_MAX)).2 ++ "covers2/".toList ++
            ((artist_component artist).take NAME_MAX).map (esc_char win32) ++ ['/'] ++
            b.map (esc_char win32) ++ ".jpg".toList) := by
  have ha := make_cache_path_album_eq filepath album artist
  have hr := make_cache_path_artist_eq artist
  refine ⟨ha, hr, ?_, ?_, ?_, ?_⟩
  · rw [ha]
    exact album_component_none_iff filepath album artist
  · intro h
    unfold make_cache_path
    rw [ha, h]
  · intro alb h
    unfold make_cache_path
    rw [ha, h, hr]
  · intro h
    unfold make_cache_path at h ⊢
    rw [ha, hr] at h ⊢
    cases halb : album_component filepath album artist with
    | none =>
      rw [halb] at h
      exact absurd (show (-1 : Int) = 0 from h) (by decide)
    | some alb =>
      rw [halb] at h
      simp only at h ⊢
      by_cases hd : (make_cache_dir_path win32 root (some (artist_component artist))
          (outsize - NAME_MAX)).1 = 0
      · have hp := make_cache_dir_path_content win32 root (artist_component artist) _ hd
        simp only [hd, ne_eq, not_true_eq_false, if_false] at h ⊢
        obtain ⟨b, hb1, hb2⟩ := make_cache_path_name_content win32 alb _ outsize h
        rw [hb2, hp]
        exact ⟨alb, b, rfl, hb1, rfl⟩
      · simp only [ne_eq, hd, not_false_eq_true, if_true] at h
        exact absurd (show (-1 : Int) = 0 from h) (by decide)

end Artwork
namespace Medialib

open Artwork (CStr strrchr_idx)

theorem forest_items_append (a b : List ml_tree_node_t) :
    forest_items (a ++ b) = forest_items a ++ forest_items b := by
  induction a with
  | nil => simp [forest_items]
  | cons c rest ih => simp [forest_items, ih]

theorem update_first_child_items (found : ml_tree_node_t → Bool)
    (descend : ml_tree_node_t → ml_tree_node_t) (it : DB_playItem_t)
    (hd : ∀ c, (tree_items (descend c)).Perm (it :: tree_items c)) :
    ∀ (cs cs2 : List ml_tree_node_t), update_first_child found descend cs = some cs2 →
      (forest_items cs2).Perm (it :: forest_items cs) := by
  intro cs
  induction cs with
  | nil => intro cs2 h; simp [update_first_child] at h
  | cons c rest ih =>
    intro cs2 h
    simp only [update_first_child] at h
    by_cases hf : found c = true
    · simp only [hf, if_true, Option.some.injEq] at h
      subst h
      simp only [forest_items]
      exact (List.Perm.append_right _ (hd c))
    · simp only [hf] at h
      cases hr : update_first_child found descend rest with
      | none => rw [hr] at h; simp at h
      | some r =>
      rw [hr] at h
      simp only [Bool.false_eq_true, if_false, Option.map_some', Option.some.injEq] at h
      subst h
      simp only [forest_items]
      have := ih r hr
      exact (List.Perm.append_left (tree_items c) this).trans
        (List.perm_middle)

theorem ml_reg_item_in_folder_items (it : DB_playItem_t) :
    ∀ (n : Nat) (node : ml_tree_node_t) (path : CStr), path.length < n →
      (tree_items (ml_reg_item_in_folder n node path it)).Perm (it :: tree_items node) := by
  intro n
  induction n with
  | zero => intro node path h; exact absurd h (by omega)
  | succ n ih =>
    intro node path h
    obtain ⟨text, items, children⟩ := node
    by_cases hp : path = []
    · simp only [ml_reg_item_in_folder, hp, if_true, tree_items]
      rw [List.append_assoc]
      exact (List.perm_middle)
    · have hlen : 0 < path.length := List.length_pos.mpr hp
      simp only [ml_reg_item_in_folder, hp, if_false]
      have hnext : ∀ len : Nat, (path.drop (len + 1)).length < n := by
        intro len
        rw [List.length_drop]; omega
      split
      · rename_i cs2 hcs
        simp only [tree_items]
        have := update_first_child_items _ _ it (fun c => ih c _ (hnext _)) children cs2 hcs
        exact (List.Perm.append_left items this).trans List.perm_middle
      · simp only [tree_items, forest_items_append, forest_items, List.append_nil]
        have := ih (.mk (path.take (if (path.indexOf? '/').getD path.length = 0 ∧ path = ['/'] then 1
            else (path.indexOf? '/').getD path.length)) [] [])
          (path.drop ((if (path.indexOf? '/').getD path.length = 0 ∧ path = ['/'] then 1
            else (path.indexOf? '/').getD path.length) + 1)) (hnext _)
        simp only [tree_items, forest_items, List.append_nil, List.nil_append] at this
        refine (List.Perm.append_left items (List.Perm.append_left _ this)).trans ?_
        rw [← List.append_assoc]
        exact List.perm_middle.trans (List.Perm.cons _ (by simp))

theorem add_item_text (s : ml_string_t) (it : Option DB_playItem_t) :
    (s.add_item it).text = s.text := by
  cases it <;> rfl

theorem add_item_count (s : ml_string_t) (it : Option DB_playItem_t) (x : DB_playItem_t) :
    (s.add_item it).items.count x = s.items.count x + (if it = some x then 1 else 0) := by
  cases it with
  | none => simp [ml_string_t.add_item]
  | some y =>
    simp only [ml_string_t.add_item, List.count_append, Option.some.injEq]
    by_cases h : y = x
    · subst h; simp
    · simp [h, List.count_cons]

theorem ml_reg_col_texts_found (host : Host) (coll : ml_collection_t) (c : CStr)
    (it : Option DB_playItem_t) (h : c ∈ coll.hash (hash_for_ptr (host.metacache_addr c))) :
    (ml_reg_col host coll c it).1.texts = coll.texts ∧
    (ml_reg_col host coll c it).1.hash = coll.hash := by
  simp only [ml_reg_col, h, if_true, ml_collection_t.texts, List.map_map, and_true]
  refine List.map_congr_left ?_
  intro s _
  simp only [Function.comp]
  split
  · exact add_item_text s it
  · rfl

theorem ml_reg_col_texts_new (host : Host) (coll : ml_collection_t) (c : CStr)
    (it : Option DB_playItem_t) (h : c ∉ coll.hash (hash_for_ptr (host.metacache_addr c))) :
    (ml_reg_col host coll c it).1.texts = coll.texts ++ [c] := by
  simp only [ml_reg_col, h, if_false, ml_collection_t.texts, List.map_append, List.map_cons,
    List.map_nil, add_item_text]

theorem ml_reg_col_inv (host : Host) (coll : ml_collection_t) (c : CStr)
    (it : Option DB_playItem_t) (hi : CollInv host coll) :
    CollInv host (ml_reg_col host coll c it).1 ∧ c ∈ (ml_reg_col host coll c it).1.texts ∧
    ∀ t ∈ coll.texts, t ∈ (ml_reg_col host coll c it).1.texts := by
  by_cases h : c ∈ coll.hash (hash_for_ptr (host.metacache_addr c))
  · obtain ⟨h1, h2⟩ := ml_reg_col_texts_found host coll c it h
    refine ⟨⟨by rw [h1]; exact hi.1, fun d => by rw [h1, h2]; exact hi.2 d⟩, ?_, ?_⟩
    · rw [h1]; exact (hi.2 c).mp h
    · intro t ht; rw [h1]; exact ht
  · have h1 := ml_reg_col_texts_new host coll c it h
    have hc : c ∉ coll.texts := fun hc => h ((hi.2 c).mpr hc)
    refine ⟨⟨?_, ?_⟩, ?_, ?_⟩
    · rw [h1]
      exact List.Nodup.append hi.1 (List.nodup_singleton c) (by simpa using hc)
    · intro d
      rw [h1]
      simp only [ml_reg_col, h, if_false, List.mem_append, List.mem_singleton]
      by_cases hk : hash_for_ptr (host.metacache_addr d) = hash_for_ptr (host.metacache_addr c)
      · simp only [hk, if_true, List.mem_cons]
        rw [← hk, hi.2 d]
        tauto
      · simp only [hk, if_false]
        rw [hi.2 d]
        constructor
        · exact Or.inl
        · rintro (h3 | h3)
          · exact h3
          · subst h3; exact absurd rfl hk
    · rw [h1]; simp
    · intro t ht; rw [h1]; simp [ht]

theorem count_of_map_absent (c t : CStr) (it : Option DB_playItem_t) (x : DB_playItem_t) :
    ∀ l : List ml_string_t, c ∉ l.map (·.text) →
      (((l.map (fun s => if s.text = c then s.add_item it else s)).filter
        (fun s => decide (s.text = t))).map (fun s => s.items.count x)).sum =
      ((l.filter (fun s => decide (s.text = t))).map (fun s => s.items.count x)).sum := by
  intro l h
  have : l.map (fun s => if s.text = c then s.add_item it else s) = l := by
    conv_rhs => rw [← List.map_id l]
    apply List.map_congr_left
    intro s hs
    have : s.text ≠ c := fun e => h (by simp only [List.mem_map]; exact ⟨s, hs, e⟩)
    simp [this]
  rw [this]

theorem count_of_map_present (c t : CStr) (it : Option DB_playItem_t) (x : DB_playItem_t) :
    ∀ l : List ml_string_t, (l.map (·.text)).Nodup → c ∈ l.map (·.text) →
      (((l.map (fun s => if s.text = c then s.add_item it else s)).filter
        (fun s => decide (s.text = t))).map (fun s => s.items.count x)).sum =
      ((l.filter (fun s => decide (s.text = t))).map (fun s => s.items.count x)).sum +
        (if t = c ∧ it = some x then 1 else 0) := by
  intro l
  induction l with
  | nil => intro _ h; simp at h
  | cons s rest ih =>
    intro hn hc
    rw [List.map_cons, List.nodup_cons] at hn
    by_cases hs : s.text = c
    · have hrest : c ∉ rest.map (·.text) := hs ▸ hn.1
      have h0 := count_of_map_absent c t it x rest hrest
      simp only [List.map_cons, hs, if_true, List.filter_cons, add_item_text]
      by_cases ht : c = t
      · subst ht
        simp only [decide_True, if_true, List.map_cons, List.sum_cons, h0, add_item_count,
          true_and]
        omega
      · have ht2 : ¬ t = c := fun e => ht e.symm
        simp only [ht, decide_False, Bool.false_eq_true, if_false, h0, ht2, false_and,
          Nat.add_zero]
    · have hc2 : c ∈ rest.map (·.text) := by
        rw [List.map_cons, List.mem_cons] at hc
        rcases hc with hc | hc
        · exact absurd hc.symm hs
        · exact hc
      have h0 := ih hn.2 hc2
      simp only [List.map_cons, hs, if_false, List.filter_cons]
      by_cases ht : s.text = t
      · simp only [ht, decide_True, if_true, List.map_cons, List.sum_cons, h0]
        omega
      · simp only [ht, decide_False, Bool.false_eq_true, if_false, h0]

theorem ml_reg_col_count (host : Host) (coll : ml_collection_t) (c : CStr)
    (it : Option DB_playItem_t) (hi : CollInv host coll) (t : CStr) (x : DB_playItem_t) :
    (ml_reg_col host coll c it).1.count_of t x =
      coll.count_of t x + (if t = c ∧ it = some x then 1 else 0) := by
  by_cases h : c ∈ coll.hash (hash_for_ptr (host.metacache_addr c))
  · simp only [ml_reg_col, h, if_true, ml_collection_t.count_of]
    exact count_of_map_present c t it x coll.strings hi.1 ((hi.2 c).mp h)
  · simp only [ml_reg_col, h, if_false, ml_collection_t.count_of, List.filter_append,
      List.map_append, List.sum_append, List.filter_cons, List.filter_nil, add_item_text]
    by_cases ht : c = t
    · subst ht
      simp [add_item_count]
    · have ht2 : ¬ t = c := fun e => ht e.symm
      simp [ht, ht2]

theorem count_of_member (x : DB_playItem_t) (s : ml_string_t) :
    ∀ l : List ml_string_t, (l.map (·.text)).Nodup → s ∈ l →
      ((l.filter (fun a => decide (a.text = s.text))).map (fun a => a.items.count x)).sum =
        s.items.count x := by
  intro l
  induction l with
  | nil => intro _ h; simp at h
  | cons a rest ih =>
    intro hn hs
    rw [List.map_cons, List.nodup_cons] at hn
    rw [List.mem_cons] at hs
    rcases hs with hs | hs
    · subst hs
      have : rest.filter (fun a => decide (a.text = s.text)) = [] := by
        rw [List.filter_eq_nil_iff]
        intro a ha hd
        have hd2 : a.text = s.text := of_decide_eq_true hd
        exact hn.1 (by simp only [List.mem_map]; exact ⟨a, ha, hd2⟩)
      simp [List.filter_cons, this]
    · have hne : ¬ a.text = s.text := by
        intro e
        exact hn.1 (by simp only [List.mem_map]; exact ⟨s, hs, e.symm⟩)
      simp only [List.filter_cons, hne, decide_False, Bool.false_eq_true, if_false]
      exact ih hn.2 hs

theorem collInv_empty (host : Host) : CollInv host ml_collection_t.empty := by
  refine ⟨?_, ?_⟩
  · simp [ml_collection_t.texts, ml_collection_t.empty]
  · intro c; simp [ml_collection_t.texts, ml_collection_t.empty]

theorem reg_all_spec (host : Host) (key : DB_playItem_t → CStr) :
    ∀ (tracks : List DB_playItem_t) (coll : ml_collection_t), CollInv host coll → tracks.Nodup →
      CollInv host (reg_all host key coll tracks) ∧
      (∀ x ∈ tracks, key x ∈ (reg_all host key coll tracks).texts) ∧
      (∀ t ∈ coll.texts, t ∈ (reg_all host key coll tracks).texts) ∧
      ∀ t x, (reg_all host key coll tracks).count_of t x =
        coll.count_of t x + (if x ∈ tracks ∧ t = key x then 1 else 0) := by
  intro tracks
  induction tracks with
  | nil =>
    intro coll hi _
    refine ⟨hi, ?_, fun t h => h, ?_⟩
    · intro x hx; simp at hx
    · intro t x; simp [reg_all]
  | cons it rest ih =>
    intro coll hi hn
    rw [List.nodup_cons] at hn
    obtain ⟨h1, h2, h3⟩ := ml_reg_col_inv host coll (key it) (some it) hi
    obtain ⟨k1, k2, k3, k4⟩ := ih (ml_reg_col host coll (key it) (some it)).1 h1 hn.2
    have e : reg_all host key coll (it :: rest) =
        reg_all host key (ml_reg_col host coll (key it) (some it)).1 rest := rfl
    rw [e]
    refine ⟨k1, ?_, fun t ht => k3 t (h3 t ht), ?_⟩
    · intro x hx
      rw [List.mem_cons] at hx
      rcases hx with hx | hx
      · subst hx; exact k3 _ h2
      · exact k2 x hx
    · intro t x
      rw [k4 t x, ml_reg_col_count host coll (key it) (some it) hi t x]
      by_cases hx : x = it
      · subst hx
        have : x ∉ rest := hn.1
        by_cases ht : t = key x
        · simp [ht, this]
        · simp [ht]
      · have hx2 : ¬ it = x := fun e => hx e.symm
        simp [hx, hx2]

theorem once_under_of_count (host : Host) (coll : ml_collection_t) (key : CStr)
    (it : DB_playItem_t) (hi : CollInv host coll) (hk : key ∈ coll.texts)
    (hc : ∀ t, coll.count_of t it = if t = key then 1 else 0) :
    once_under coll key it := by
  refine ⟨hi.1, hk, ?_⟩
  intro s hs
  rw [← hc s.text]
  exact (count_of_member it s coll.strings hi.1 hs).symm

theorem ml_index_loop_proj (host : Host) (paths : List json_t) :
    ∀ (plt : List DB_playItem_t) (v : IndexVars),
      (ml_index_loop host paths plt v).1.Sublist plt ∧
      (ml_index_loop host paths plt v).2.db.artists =
        reg_all host artist_key v.db.artists (ml_index_loop host paths plt v).1 ∧
      (ml_index_loop host paths plt v).2.db.albums =
        reg_all host (album_key host) v.db.albums (ml_index_loop host paths plt v).1 ∧
      (ml_index_loop host paths plt v).2.db.genres =
        reg_all host genre_key v.db.genres (ml_index_loop host paths plt v).1 ∧
      (ml_index_loop host paths plt v).2.db.track_uris =
        reg_all host (fun it => it.uri) v.db.track_uris (ml_index_loop host paths plt v).1 ∧
      (tree_items (ml_index_loop host paths plt v).2.db.folders_tree).Perm
        ((ml_index_loop host paths plt v).1 ++ tree_items v.db.folders_tree) := by
  intro plt
  induction plt with
  | nil => intro v; simp [ml_index_loop, reg_all]
  | cons it rest ih =>
    intro v
    cases hr : find_reluri paths it.uri with
    | none =>
      simp only [ml_index_loop, hr]
      obtain ⟨a, b, c, d, e, f⟩ := ih
        { v with has_unknown_artist := v.has_unknown_artist ||
            decide ((pl_find_meta it "artist").getD unknown = unknown) }
      exact ⟨a.cons _, b, c, d, e, f⟩
    | some reluri =>
      simp only [ml_index_loop, hr]
      obtain ⟨a, b, c, d, e, f⟩ := ih (ml_index_track host it
        ((pl_find_meta it "artist").getD unknown) reluri
        { v with has_unknown_artist := v.has_unknown_artist ||
            decide ((pl_find_meta it "artist").getD unknown = unknown) })
      refine ⟨a.cons₂ _, ?_, ?_, ?_, ?_, ?_⟩
      · rw [b]; rfl
      · rw [c]; rfl
      · rw [d]; rfl
      · rw [e]; rfl
      · refine f.trans ?_
        simp only [ml_index_track]
        refine (List.Perm.append_left _ (ml_reg_item_in_folder_items it _ _ _ (Nat.lt_succ_self _))).trans ?_
        simp only [List.cons_append]
        exact List.perm_middle

theorem finish_once (host : Host) (coll : ml_collection_t) (key : CStr) (it : DB_playItem_t)
    (flag : Bool) (hi : CollInv host coll) (hk : key ∈ coll.texts)
    (hc : ∀ t, coll.count_of t it = if t = key then 1 else 0) :
    once_under (if (!flag) = true then (ml_reg_col host coll unknown none).1 else coll) key it := by
  cases flag with
  | true =>
    show once_under coll key it
    exact once_under_of_count host coll key it hi hk hc
  | false =>
    obtain ⟨h1, _, h3⟩ := ml_reg_col_inv host coll unknown none hi
    show once_under (ml_reg_col host coll unknown none).1 key it
    refine once_under_of_count host _ key it h1 (h3 key hk) ?_
    intro t
    rw [ml_reg_col_count host coll unknown none hi t it, hc t]
    simp

theorem reg_all_once (host : Host) (key : DB_playItem_t → CStr) (tracks : List DB_playItem_t)
    (hn : tracks.Nodup) (it : DB_playItem_t) (hk : it ∈ tracks) (flag : Bool) :
    once_under (if (!flag) = true then
        (ml_reg_col host (reg_all host key ml_collection_t.empty tracks) unknown none).1
      else reg_all host key ml_collection_t.empty tracks) (key it) it := by
  obtain ⟨k1, k2, _, k4⟩ := reg_all_spec host key tracks _ (collInv_empty host) hn
  refine finish_once host _ _ it flag k1 (k2 it hk) ?_
  intro t
  rw [k4 t it]
  simp [ml_collection_t.count_of, ml_collection_t.empty, hk]

/-- C11 (amended): when `ml_index` runs with `scanner_terminate` clear over a
playlist of distinct items, every track kept in the playlist occurs exactly
once in the item lists of each of the four collections, in the list of the
one string for its artist or `<?>`, for its composite album key, for its
genre or `<?>` and for its URI, and exactly once in the item lists of the
folder tree. -/
theorem ml_index_registers_once (host : Host) (musicpaths_json : List json_t)
    (plt : List DB_playItem_t) (hplt : plt.Nodup) (it : DB_playItem_t)
    (hk : it ∈ (ml_index host false musicpaths_json plt).1) :
    once_under (ml_index host false musicpaths_json plt).2.artists (artist_key it) it ∧
    once_under (ml_index host false musicpaths_json plt).2.albums (album_key host it) it ∧
    once_under (ml_index host false musicpaths_json plt).2.genres (genre_key it) it ∧
    once_under (ml_index host false musicpaths_json plt).2.track_uris it.uri it ∧
    (tree_items (ml_index host false musicpaths_json plt).2.folders_tree).count it = 1 := by
  obtain ⟨a, b, c, d, e, f⟩ := ml_index_loop_proj host musicpaths_json plt IndexVars.init
  have hn : (ml_index_loop host musicpaths_json plt IndexVars.init).1.Nodup := hplt.sublist a
  have hk2 : it ∈ (ml_index_loop host musicpaths_json plt IndexVars.init).1 := hk
  simp only [ml_index, Bool.false_eq_true, if_false, ml_index_finish]
  rw [b, c, d, e]
  refine ⟨reg_all_once host artist_key _ hn it hk2 _, reg_all_once host (album_key host) _ hn it hk2 _,
    reg_all_once host genre_key _ hn it hk2 _, ?_, ?_⟩
  · have := reg_all_once host (fun it => it.uri) _ hn it hk2 true
    exact this
  · rw [f.count_eq]
    simp only [IndexVars.init, tree_items, forest_items, List.append_nil]
    exact List.count_eq_one_of_mem hn hk2

set_option maxRecDepth 100000 in
theorem ml_index_registers_once_witness :
    once_under (ml_index host0 false [json_t.string "/music".toList]
        [mkTrack 1 "/music/a/x.mp3" [("artist", "A")], mkTrack 2 "/other/y.mp3" []]).2.artists
      (artist_key (mkTrack 1 "/music/a/x.mp3" [("artist", "A")]))
      (mkTrack 1 "/music/a/x.mp3" [("artist", "A")]) ∧
    (tree_items (ml_index host0 false [json_t.string "/music".toList]
        [mkTrack 1 "/music/a/x.mp3" [("artist", "A")], mkTrack 2 "/other/y.mp3" []]).2.folders_tree).count
      (mkTrack 1 "/music/a/x.mp3" [("artist", "A")]) = 1 :=
  have h := ml_index_registers_once host0 [json_t.string "/music".toList]
    [mkTrack 1 "/music/a/x.mp3" [("artist", "A")], mkTrack 2 "/other/y.mp3" []] (by decide)
    (mkTrack 1 "/music/a/x.mp3" [("artist", "A")]) (by decide)
  ⟨h.1, h.2.2.2.2⟩

set_option maxRecDepth 100000 in
/-- C11: evaluation of `ml_index` entered with `scanner_terminate` set.  The
track stays in the playlist, but no collection holds it and the folder tree
is empty: the only strings are the three `<?>` without items. -/
theorem ml_index_terminated_registers_nothing :
    (ml_index host0 true [json_t.string "/music".toList]
      [mkTrack 1 "/music/a/x.mp3" [("artist", "A")]]).1 =
        [mkTrack 1 "/music/a/x.mp3" [("artist", "A")]] ∧
    (ml_index host0 true [json_t.string "/music".toList]
      [mkTrack 1 "/music/a/x.mp3" [("artist", "A")]]).2.artists.strings =
        [{ text := unknown, items := [], items_count := 0 }] ∧
    (ml_index host0 true [json_t.string "/music".toList]
      [mkTrack 1 "/music/a/x.mp3" [("artist", "A")]]).2.albums.strings =
        [{ text := unknown, items := [], items_count := 0 }] ∧
    (ml_index host0 true [json_t.string "/music".toList]
      [mkTrack 1 "/music/a/x.mp3" [("artist", "A")]]).2.genres.strings =
        [{ text := unknown, items := [], items_count := 0 }] ∧
    (ml_index host0 true [json_t.string "/music".toList]
      [mkTrack 1 "/music/a/x.mp3" [("artist", "A")]]).2.track_uris.strings = [] ∧
    tree_items (ml_index host0 true [json_t.string "/music".toList]
      [mkTrack 1 "/music/a/x.mp3" [("artist", "A")]]).2.folders_tree = [] ∧
    ¬ once_under (ml_index host0 true [json_t.string "/music".toList]
      [mkTrack 1 "/music/a/x.mp3" [("artist", "A")]]).2.track_uris
        "/music/a/x.mp3".toList (mkTrack 1 "/music/a/x.mp3" [("artist", "A")]) := by
  refine ⟨by decide, by decide, by decide, by decide, by decide, by decide, ?_⟩
  intro h
  have h2 := h.2.1
  have e : (ml_index host0 true [json_t.string "/music".toList]
      [mkTrack 1 "/music/a/x.mp3" [("artist", "A")]]).2.track_uris.texts = [] := by decide
  rw [e] at h2
  simp at h2
end Medialib
namespace Medialib

open Artwork (CStr)

theorem ml_filter_check_iff (mtime : Int) (items : List DB_playItem_t) :
    ml_filter_check mtime items = true ↔ ∃ it ∈ items, stale mtime it = true := by
  induction items with
  | nil => simp [ml_filter_check]
  | cons it rest ih =>
    rw [List.exists_mem_cons_iff, ← ih]
    cases h1 : pl_find_meta it ":MEDIALIB_SCAN_TIME" with
    | none => simp [ml_filter_check, stale, h1]
    | some st =>
      cases h2 : scan_lld st with
      | none => simp [ml_filter_check, stale, h1, h2]
      | some ts =>
        by_cases h3 : ts < mtime
        · simp [ml_filter_check, stale, h1, h2, h3]
        · simp [ml_filter_check, stale, h1, h2, h3]

theorem ml_filter_move_eq :
    ∀ (items mp plt : List DB_playItem_t), items.Nodup → mp.Nodup →
      ml_filter_move items (mp, plt) =
        (mp.filter (fun it => decide (it ∉ items)), plt ++ items.filter (fun it => decide (it ∈ mp))) := by
  intro items
  induction items with
  | nil => intro mp plt _ _; simp [ml_filter_move]
  | cons it rest ih =>
    intro mp plt hn hm
    rw [List.nodup_cons] at hn
    by_cases h : it ∈ mp
    · simp only [ml_filter_move, h, if_true]
      rw [ih _ _ hn.2 (hm.erase it)]
      congr 1
      · rw [hm.erase_eq_filter, List.filter_filter]
        apply List.filter_congr
        intro x _
        by_cases h1 : x = it <;> by_cases h2 : x ∈ rest <;> simp [h1, h2]
      · simp only [List.filter_cons, h, decide_True, if_true, List.append_assoc, List.singleton_append]
        congr 2
        apply List.filter_congr
        intro x hx
        have hne : x ≠ it := fun e => hn.1 (e ▸ hx)
        simp [hm.mem_erase_iff, hne]
    · simp only [ml_filter_move, h, if_false]
      rw [ih _ _ hn.2 hm]
      congr 1
      · apply List.filter_congr
        intro x hx
        have hne : x ≠ it := fun e => h (e ▸ hx)
        simp [hne]
      · simp [List.filter_cons, h]


/-- The result of `ml_filter_int` in terms of the item list that the track-URI
collection holds for the file name, whatever the index: it returns 0 exactly
when one of these items has no parseable `:MEDIALIB_SCAN_TIME` or a scan time
strictly older than `mtime`; otherwise it returns -1, the items that were in
the old playlist are gone from it and they are appended, in their order, to
the playlist being built.  The item list and the old playlist hold no track
twice. -/
theorem ml_filter_int_by_items (host : Host) (interned : CStr → Bool) (db : ml_db_t)
    (ml_playlist plt : List DB_playItem_t) (filename : CStr) (mtime : Int)
    (hint : interned filename = true)
    (hen : ∃ en ∈ db.filename_hash (hash_for_ptr (host.metacache_addr filename)),
      en.file = filename)
    (hitems : (uri_items host db filename).Nodup) (hpl : ml_playlist.Nodup) :
    ((ml_filter_int host interned db ml_playlist plt filename mtime).1 = 0 ↔
      ∃ it ∈ uri_items host db filename, stale mtime it = true) ∧
    ((ml_filter_int host interned db ml_playlist plt filename mtime).1 ≠ 0 →
      (ml_filter_int host interned db ml_playlist plt filename mtime).1 = -1 ∧
      (ml_filter_int host interned db ml_playlist plt filename mtime).2.1 =
        ml_playlist.filter (fun it => decide (it ∉ uri_items host db filename)) ∧
      (ml_filter_int host interned db ml_playlist plt filename mtime).2.2 =
        plt ++ (uri_items host db filename).filter (fun it => decide (it ∈ ml_playlist))) := by
  obtain ⟨en, hmem, hfile⟩ := hen
  have hne : db.filename_hash (hash_for_ptr (host.metacache_addr filename)) ≠ [] :=
    List.ne_nil_of_mem hmem
  have hfind : ∃ e, (db.filename_hash (hash_for_ptr (host.metacache_addr filename))).find?
      (fun en => decide (en.file = filename)) = some e := by
    cases hf : (db.filename_hash (hash_for_ptr (host.metacache_addr filename))).find?
        (fun en => decide (en.file = filename)) with
    | some e => exact ⟨e, rfl⟩
    | none =>
      rw [List.find?_eq_none] at hf
      exact absurd (by simpa using hfile) (hf en hmem)
  obtain ⟨e, he⟩ := hfind
  cases hs : hash_find host db.track_uris filename with
  | none =>
    have hv : ml_filter_int host interned db ml_playlist plt filename mtime =
        (-1, ml_playlist, plt) := by
      simp only [ml_filter_int, hint, Bool.not_true, Bool.false_eq_true, if_false, hne, he, hs]
    have hu : uri_items host db filename = [] := by simp [uri_items, hs]
    rw [hv, hu]
    refine ⟨⟨fun h => absurd (show (-1 : Int) = 0 from h) (by decide), fun h => by simp at h⟩,
      fun _ => ⟨rfl, ?_, ?_⟩⟩
    · simp
    · simp
  | some str =>
    have hu : uri_items host db filename = str.items := by simp [uri_items, hs]
    rw [hu] at hitems ⊢
    cases hc : ml_filter_check mtime str.items with
    | true =>
      have hv : ml_filter_int host interned db ml_playlist plt filename mtime =
          (0, ml_playlist, plt) := by
        simp only [ml_filter_int, hint, Bool.not_true, Bool.false_eq_true, if_false, hne, he, hs,
          hc, if_true]
      rw [hv]
      exact ⟨⟨fun _ => (ml_filter_check_iff mtime str.items).mp hc, fun _ => rfl⟩,
        fun h => absurd rfl h⟩
    | false =>
      have hv : ml_filter_int host interned db ml_playlist plt filename mtime =
          (-1, ml_playlist.filter (fun it => decide (it ∉ str.items)),
            plt ++ str.items.filter (fun it => decide (it ∈ ml_playlist))) := by
        simp only [ml_filter_int, hint, Bool.not_true, Bool.false_eq_true, if_false, hne, he, hs,
          hc, ml_filter_move_eq str.items ml_playlist plt hitems hpl]
      rw [hv]
      refine ⟨⟨fun h => absurd (show (-1 : Int) = 0 from h) (by decide), fun h => ?_⟩,
        fun _ => ⟨rfl, rfl, rfl⟩⟩
      have := (ml_filter_check_iff mtime str.items).mpr h
      rw [hc] at this
      exact absurd this (by decide)

theorem dbA_bucket :
    dbA.filename_hash (hash_for_ptr (host1.metacache_addr fileA)) =
      [{ file := fileA, title := none, subtrack := -1, artist := some unknown,
         album := some "artist=Unknown Artist;album=Unknown Album".toList,
         genre := some unknown, folder := none, track_uri := some fileA }] := by
  decide

set_option maxRecDepth 100000 in
/-- The same on the index of `trackA`. -/
theorem ml_filter_int_by_items_example :
    ((ml_filter_int host1 (fun _ => true) dbA [trackA] [] fileA 50).1 = 0 ↔
      ∃ it ∈ uri_items host1 dbA fileA, stale 50 it = true) ∧
    ((ml_filter_int host1 (fun _ => true) dbA [trackA] [] fileA 50).1 ≠ 0 →
      (ml_filter_int host1 (fun _ => true) dbA [trackA] [] fileA 50).1 = -1 ∧
      (ml_filter_int host1 (fun _ => true) dbA [trackA] [] fileA 50).2.1 =
        [trackA].filter (fun it => decide (it ∉ uri_items host1 dbA fileA)) ∧
      (ml_filter_int host1 (fun _ => true) dbA [trackA] [] fileA 50).2.2 =
        [] ++ (uri_items host1 dbA fileA).filter (fun it => decide (it ∈ [trackA]))) :=
  ml_filter_int_by_items host1 (fun _ => true) dbA [trackA] [] fileA 50 rfl
    ⟨_, by rw [dbA_bucket]; exact List.mem_singleton_self _, rfl⟩ (by decide) (by decide)

set_option maxRecDepth 100000 in
/-- C12: evaluation of `ml_filter_int` on the index of the one file `fileA`
for the file name `fileB`, which the interner knows and keeps at an address
of the same bucket.  No entry of the filename hash has that name, the bucket
walk finds nothing, and the function still ends with `return -1`: the new
file is skipped.  A name whose bucket is empty is included. -/
theorem ml_filter_int_skips_colliding_name :
    (dbA.tracks.map (fun en => en.file) = [fileA]) ∧
    (∀ en ∈ dbA.filename_hash (hash_for_ptr (host1.metacache_addr fileB)), en.file ≠ fileB) ∧
    ml_filter_int host1 (fun _ => true) dbA [trackA] [] fileB 0 = (-1, [trackA], []) ∧
    ml_filter_int host1 (fun _ => true) dbA [trackA] [] "/music/other.flac".toList 0 =
      (0, [trackA], []) := by
  refine ⟨by decide, by decide, by decide, by decide⟩

theorem ml_filter_int_trackA : stale 50 trackA = false ∧ stale 101 trackA = true ∧
    uri_items host1 dbA fileA = [trackA] ∧
    ml_filter_int host1 (fun _ => true) dbA [trackA] [] fileA 50 = (-1, [], [trackA]) ∧
    ml_filter_int host1 (fun _ => true) dbA [trackA] [] fileA 101 = (0, [trackA], []) := by
  refine ⟨by decide, by decide, by decide, by decide, by decide⟩

end Medialib
namespace Medialib

open Artwork (CStr)

theorem getD_set_nat (l : List Nat) (i j a : Nat) :
    (l.set i a).getD j 0 = if i = j ∧ i < l.length then a else l.getD j 0 := by
  simp only [List.getD_eq_getElem?_getD, List.getElem?_set]
  by_cases h : i = j
  · subst h
    by_cases h2 : i < l.length
    · simp [h2]
    · simp [h2, List.getElem?_eq_none (not_lt.mp h2)]
  · simp [h]

theorem listenerInv_create (conf : Conf) (source_path : CStr) :
    ListenerInv (ml_create_source conf source_path) [] := by
  refine ⟨by simp [ml_create_source], by simp [ml_create_source], ?_, ?_, ?_⟩
  · intro i hi
    have : (List.replicate MAX_LISTENERS 0).getD i 0 = 0 := by
      simp [List.getD_eq_getElem?_getD, List.getElem?_replicate, hi]
    simp [ml_create_source, this]
  · intro r hr; simp at hr
  · simp

theorem listenerInv_set (tbl : medialib_source_t) (reg : List Registration) (k l u : Nat)
    (hk : k < MAX_LISTENERS) (hinv : ListenerInv tbl reg)
    (hfree : reg.find? (fun r => decide (r.id = k)) = none) :
    ListenerInv { tbl with ml_listeners := tbl.ml_listeners.set k l
                           ml_listeners_userdatas := tbl.ml_listeners_userdatas.set k u }
      (if l ≠ 0 then reg ++ [⟨k, l, u⟩] else reg) := by
  obtain ⟨h1, h2, h3, h4, h5⟩ := hinv
  have hk1 : k < tbl.ml_listeners.length := by rw [h1]; exact hk
  have hk2 : k < tbl.ml_listeners_userdatas.length := by rw [h2]; exact hk
  refine ⟨by simp [h1], by simp [h2], ?_, ?_, ?_⟩
  · intro j hj
    simp only [getD_set_nat, hk1, hk2, and_true]
    by_cases hjk : k = j
    · subst hjk
      by_cases hl : l = 0
      · simp [hl, hfree]
      · simp [hl, List.find?_append, hfree]
    · have hold := h3 j hj
      by_cases hl : l = 0
      · simp only [hl, ne_eq, not_true_eq_false, if_false, hjk, hold]
      · simp only [hl, ne_eq, not_false_eq_true, if_true, hjk, if_false, List.find?_append, hold,
          List.find?_cons, List.find?_nil, decide_False]
        split <;> simp
  · intro r hr
    by_cases hl : l = 0
    · simp only [hl, ne_eq, not_true_eq_false, if_false] at hr
      exact h4 r hr
    · simp only [hl, ne_eq, not_false_eq_true, if_true, List.mem_append, List.mem_singleton] at hr
      rcases hr with hr | hr
      · exact h4 r hr
      · subst hr; exact hk
  · by_cases hl : l = 0
    · simp only [hl, ne_eq, not_true_eq_false, if_false]
      exact h5
    · simp only [hl, ne_eq, not_false_eq_true, if_true, List.map_append, List.map_cons, List.map_nil]
      refine List.Nodup.append h5 (List.nodup_singleton _) ?_
      rw [List.disjoint_singleton]
      intro hmem
      rw [List.mem_map] at hmem
      obtain ⟨r, hr, hid⟩ := hmem
      rw [List.find?_eq_none] at hfree
      exact hfree r hr (by simpa using hid)

theorem listenerInv_add (tbl : medialib_source_t) (reg : List Registration) (l u : Nat)
    (hinv : ListenerInv tbl reg) :
    ListenerInv (ml_add_listener tbl l u).1
      (if 0 ≤ (ml_add_listener tbl l u).2 ∧ l ≠ 0 then
        reg ++ [⟨(ml_add_listener tbl l u).2.toNat, l, u⟩] else reg) := by
  cases hf : (List.range MAX_LISTENERS).find? (fun i => decide (tbl.ml_listeners.getD i 0 = 0)) with
  | none =>
    simp only [ml_add_listener, hf]
    have : ¬ ((0 : Int) ≤ -1 ∧ l ≠ 0) := by omega
    rw [if_neg this]
    exact hinv
  | some k =>
    have hk : k < MAX_LISTENERS := List.mem_range.mp (List.mem_of_find?_eq_some hf)
    have hz : tbl.ml_listeners.getD k 0 = 0 := by simpa using List.find?_some hf
    have hfree : reg.find? (fun r => decide (r.id = k)) = none := by
      rw [hinv.2.2.1 k hk, hz]; simp
    have := listenerInv_set tbl reg k l u hk hinv hfree
    simp only [ml_add_listener, hf, Int.toNat_ofNat, Int.ofNat_nonneg, true_and]
    exact this

theorem listenerInv_remove (tbl tbl2 : medialib_source_t) (reg : List Registration) (id : Int)
    (hinv : ListenerInv tbl reg) (hr : ml_remove_listener tbl id = some tbl2) :
    ListenerInv tbl2 (reg.filter (fun r => decide ((r.id : Int) ≠ id))) := by
  obtain ⟨h1, h2, h3, h4, h5⟩ := hinv
  simp only [ml_remove_listener] at hr
  split at hr
  · rename_i hid
    simp only [Option.some.injEq] at hr
    subst hr
    obtain ⟨k, rfl⟩ := Int.eq_ofNat_of_zero_le hid.1
    have hk : k < MAX_LISTENERS := by exact_mod_cast hid.2
    have hk1 : k < tbl.ml_listeners.length := by rw [h1]; exact hk
    have hk2 : k < tbl.ml_listeners_userdatas.length := by rw [h2]; exact hk
    refine ⟨by simp [h1], by simp [h2], ?_, ?_, ?_⟩
    · intro j hj
      simp only [Int.toNat_ofNat, getD_set_nat, hk1, hk2, and_true, List.find?_filter]
      by_cases hjk : k = j
      · subst hjk
        simp only [if_true, ne_eq, not_true_eq_false, if_false]
        rw [List.find?_eq_none]
        intro r _
        simp
      · simp only [hjk, if_false]
        rw [← h3 j hj]
        congr 1
        funext r
        by_cases hrj : r.id = j
        · have : r.id ≠ k := fun e => hjk (e ▸ hrj)
          simp [hrj, hjk, Ne.symm hjk]
        · simp [hrj]
    · intro r hr
      exact h4 r (List.mem_of_mem_filter hr)
    · exact h5.sublist ((List.filter_sublist _).map _)
  · exact absurd hr (by simp)

theorem listenerInv_ops :
    ∀ (ops : List ListenerOp) (st st2 : medialib_source_t × List Registration),
      ListenerInv st.1 st.2 → listener_ops ops st = some st2 → ListenerInv st2.1 st2.2 := by
  intro ops
  induction ops with
  | nil =>
    intro st st2 hinv h
    simp only [listener_ops, Option.some.injEq] at h
    subst h; exact hinv
  | cons op rest ih =>
    intro st st2 hinv h
    simp only [listener_ops] at h
    cases hop : listener_op st op with
    | none => rw [hop] at h; simp at h
    | some st1 =>
      rw [hop] at h
      simp only [Option.some_bind] at h
      refine ih st1 st2 ?_ h
      cases op with
      | add l u =>
        simp only [listener_op, Option.some.injEq] at hop
        subst hop
        exact listenerInv_add st.1 st.2 l u hinv
      | remove id =>
        simp only [listener_op, Option.map_eq_some'] at hop
        obtain ⟨s, hs, rfl⟩ := hop
        exact listenerInv_remove st.1 s st.2 id hinv hs


theorem find_id_eq (reg : List Registration) (i : Nat) (r : Registration)
    (h : reg.find? (fun r => decide (r.id = i)) = some r) : r.id = i ∧ r ∈ reg :=
  ⟨by simpa using List.find?_some h, List.mem_of_find?_eq_some h⟩

theorem find_id_of_mem :
    ∀ (reg : List Registration), (reg.map (fun r => r.id)).Nodup → ∀ r ∈ reg,
      reg.find? (fun x => decide (x.id = r.id)) = some r := by
  intro reg
  induction reg with
  | nil => intro _ r hr; simp at hr
  | cons a rest ih =>
    intro hn r hr
    rw [List.map_cons, List.nodup_cons] at hn
    rw [List.mem_cons] at hr
    rcases hr with hr | hr
    · subst hr; simp
    · have hne : a.id ≠ r.id := by
        intro e
        exact hn.1 (by rw [List.mem_map]; exact ⟨r, hr, e.symm⟩)
      rw [List.find?_cons]
      simp only [hne, decide_False]
      exact ih hn.2 r hr

/-- C15 (amended): after any sequence of `ml_add_listener` and
`ml_remove_listener` calls on a new source, `ml_notify_listeners` calls every
listener registered at that time exactly once with its own userdata, in
ascending order of the listener ids (the slots of the table): the calls are
those of an arrangement of the registrations in force in which the ids
increase strictly. -/
theorem ml_notify_listeners_by_slot (conf : Conf) (source_path : CStr) (ops : List ListenerOp)
    (st : medialib_source_t × List Registration) (event : ddb_mediasource_event_t)
    (h : listener_ops ops (ml_create_source conf source_path, []) = some st) :
    ∃ rs : List Registration, rs.Perm st.2 ∧ rs.Pairwise (fun a b => a.id < b.id) ∧
      ml_notify_listeners st.1 event =
        rs.map (fun r => Step.listener r.listener event r.userdata) := by
  have hinv := listenerInv_ops ops _ st (listenerInv_create conf source_path) h
  obtain ⟨_, _, h3, h4, h5⟩ := hinv
  refine ⟨(List.range MAX_LISTENERS).filterMap
    (fun i => st.2.find? (fun r => decide (r.id = i))), ?_, ?_, ?_⟩
  · have hn1 : ((List.range MAX_LISTENERS).filterMap
        (fun i => st.2.find? (fun r => decide (r.id = i)))).Nodup := by
      refine List.Nodup.filterMap ?_ (List.nodup_range _)
      intro a a2 b hb hb2
      have e1 := (find_id_eq st.2 a b (by simpa using hb)).1
      have e2 := (find_id_eq st.2 a2 b (by simpa using hb2)).1
      omega
    have hn2 : st.2.Nodup := List.Nodup.of_map _ h5
    rw [List.perm_ext_iff_of_nodup hn1 hn2]
    intro r
    rw [List.mem_filterMap]
    constructor
    · rintro ⟨i, _, hi⟩
      exact (find_id_eq st.2 i r hi).2
    · intro hr
      exact ⟨r.id, List.mem_range.mpr (h4 r hr), find_id_of_mem st.2 h5 r hr⟩
  · refine List.Pairwise.filterMap _ ?_ (List.pairwise_lt_range _)
    intro a a2 hlt b hb b2 hb2
    have e1 := (find_id_eq st.2 a b (by simpa using hb)).1
    have e2 := (find_id_eq st.2 a2 b2 (by simpa using hb2)).1
    omega
  · rw [List.map_filterMap]
    simp only [ml_notify_listeners]
    apply List.filterMap_congr
    intro i hi
    rw [h3 i (List.mem_range.mp hi)]
    split <;> simp

theorem ml_notify_listeners_by_slot_witness :
    ∃ rs : List Registration, rs.Perm [⟨1, 102, 2⟩, ⟨0, 103, 3⟩] ∧
      rs.Pairwise (fun a b => a.id < b.id) ∧
      ml_notify_listeners sourceX ddb_mediasource_event_t.STATE_DID_CHANGE =
        rs.map (fun r => Step.listener r.listener ddb_mediasource_event_t.STATE_DID_CHANGE
          r.userdata) :=
  ml_notify_listeners_by_slot conf0 "x".toList listenerOpsX (sourceX, [⟨1, 102, 2⟩, ⟨0, 103, 3⟩])
    ddb_mediasource_event_t.STATE_DID_CHANGE rfl

/-- C15: evaluation of `ml_notify_listeners` after listeners 101 and 102 were
added, 101 was removed and 103 was added.  Listener 103 took the free slot 0
and is called before listener 102, which was registered earlier. -/
theorem ml_notify_listeners_not_in_registration_order :
    (listener_ops listenerOpsX (ml_create_source conf0 "x".toList, [])).map (fun st => st.2) =
      some [⟨1, 102, 2⟩, ⟨0, 103, 3⟩] ∧
    (listener_ops listenerOpsX (ml_create_source conf0 "x".toList, [])).map
      (fun st => ml_notify_listeners st.1 ddb_mediasource_event_t.STATE_DID_CHANGE) =
      some [Step.listener 103 ddb_mediasource_event_t.STATE_DID_CHANGE 3,
            Step.listener 102 ddb_mediasource_event_t.STATE_DID_CHANGE 2] := by
  refine ⟨by decide, by decide⟩

end Medialib
namespace Medialib

open Artwork (CStr)

/-- C16: evaluation of `ml_set_folders` on a source with two registered
listeners.  The new folder list is stored under `medialib.x.paths` and the
configuration saved, but no listener is called, and this is so for every
source and folder list; `ml_append_folder`, `ml_insert_folder_at_index` and
`ml_remove_folder_at_index` on the same source call both listeners with
`FOLDERS_DID_CHANGE` after saving. -/
theorem ml_set_folders_fires_no_event :
    (ml_set_folders conf0 sourceX ["/music".toList]).1.musicpaths_json =
      some [json_t.string "/music".toList] ∧
    (ml_set_folders conf0 sourceX ["/music".toList]).2 =
      [Step.conf_set_str "medialib.x.paths".toList "[/music,]".toList, Step.conf_save] ∧
    (∀ (conf : Conf) (source : medialib_source_t) (folders : List CStr) (fn userdata : Nat)
      (event : ddb_mediasource_event_t),
      Step.listener fn event userdata ∉ (ml_set_folders conf source folders).2) ∧
    (ml_append_folder conf0 sourceX "/music".toList).2 =
      [Step.conf_set_str "medialib.x.paths".toList "[/music,]".toList, Step.conf_save,
       Step.listener 103 ddb_mediasource_event_t.FOLDERS_DID_CHANGE 3,
       Step.listener 102 ddb_mediasource_event_t.FOLDERS_DID_CHANGE 2] ∧
    (ml_insert_folder_at_index conf0 sourceX "/music".toList 0).2 =
      [Step.conf_set_str "medialib.x.paths".toList "[/music,]".toList, Step.conf_save,
       Step.listener 103 ddb_mediasource_event_t.FOLDERS_DID_CHANGE 3,
       Step.listener 102 ddb_mediasource_event_t.FOLDERS_DID_CHANGE 2] ∧
    (ml_remove_folder_at_index conf0
        (ml_append_folder conf0 sourceX "/music".toList).1 0).2 =
      [Step.conf_set_str "medialib.x.paths".toList "[]".toList, Step.conf_save,
       Step.listener 103 ddb_mediasource_event_t.FOLDERS_DID_CHANGE 3,
       Step.listener 102 ddb_mediasource_event_t.FOLDERS_DID_CHANGE 2] := by
  refine ⟨by decide, by decide, ?_, by decide, by decide, by decide⟩
  intro conf source folders fn userdata event h
  simp only [ml_set_folders, _save_folders_config] at h
  split at h
  · simp at h
  · simp at h

theorem wrap64_succ (n : Nat) (hn : n + 1 < 2 ^ 63) : wrap64 ((n : Int) + 1) = ((n + 1 : Nat) : Int) := by
  unfold wrap64
  have h1 : (0 : Int) ≤ (n : Int) + 1 + 2 ^ 63 := by positivity
  have h2 : (n : Int) + 1 + 2 ^ 63 < 2 ^ 64 := by
    have : ((n + 1 : Nat) : Int) < 2 ^ 63 := by exact_mod_cast hn
    push_cast at this
    omega
  rw [Int.emod_eq_of_lt h1 h2]
  push_cast
  ring

theorem after_refreshes_indices (source : medialib_source_t)
    (h0 : source.scanner_current_index = 0) (hc : source.scanner_cancel_index = 0) :
    ∀ n : Nat, n < 2 ^ 63 →
      (after_refreshes n source).scanner_current_index = (n : Int) ∧
      (after_refreshes n source).scanner_cancel_index = ((n - 1 : Nat) : Int) := by
  intro n
  induction n with
  | zero => intro _; exact ⟨h0, hc⟩
  | succ n ih =>
    intro hn
    obtain ⟨h1, _⟩ := ih (by omega)
    simp only [after_refreshes, ml_refresh_block, h1]
    exact ⟨wrap64_succ n hn, by simp⟩

/-- C17 (amended): after `n` calls of `ml_refresh` on a new source, with
`n` below 2^63, `scanner_current_index` is `n` and `scanner_cancel_index` is
`n - 1` (0 when `n` is 0); so `scanner_cancel_index` never exceeds
`scanner_current_index`, and it is strictly less once `ml_refresh` has been
called. -/
theorem scanner_indices_after_refreshes (conf : Conf) (source_path : CStr) (n : Nat)
    (hn : n < 2 ^ 63) :
    (after_refreshes n (ml_create_source conf source_path)).scanner_current_index = (n : Int) ∧
    (after_refreshes n (ml_create_source conf source_path)).scanner_cancel_index =
      ((n - 1 : Nat) : Int) ∧
    (after_refreshes n (ml_create_source conf source_path)).scanner_cancel_index ≤
      (after_refreshes n (ml_create_source conf source_path)).scanner_current_index ∧
    (0 < n →
      (after_refreshes n (ml_create_source conf source_path)).scanner_cancel_index <
        (after_refreshes n (ml_create_source conf source_path)).scanner_current_index) := by
  obtain ⟨h1, h2⟩ := after_refreshes_indices (ml_create_source conf source_path) rfl rfl n hn
  rw [h1, h2]
  refine ⟨rfl, rfl, ?_, ?_⟩
  · exact_mod_cast Nat.sub_le n 1
  · intro h
    exact_mod_cast Nat.sub_lt h Nat.one_pos

theorem scanner_indices_after_refreshes_witness :
    (after_refreshes 3 (ml_create_source conf0 "x".toList)).scanner_current_index = ((3 : Nat) : Int) ∧
    (after_refreshes 3 (ml_create_source conf0 "x".toList)).scanner_cancel_index =
      ((3 - 1 : Nat) : Int) ∧
    (after_refreshes 3 (ml_create_source conf0 "x".toList)).scanner_cancel_index ≤
      (after_refreshes 3 (ml_create_source conf0 "x".toList)).scanner_current_index ∧
    (0 < 3 →
      (after_refreshes 3 (ml_create_source conf0 "x".toList)).scanner_cancel_index <
        (after_refreshes 3 (ml_create_source conf0 "x".toList)).scanner_current_index) :=
  scanner_indices_after_refreshes conf0 "x".toList 3 (by decide)

/-- C17: evaluation of `ml_create_source`.  Both scan indices of a new source
are 0, so `scanner_cancel_index` is not strictly less than
`scanner_current_index` before the first `ml_refresh`; after it they are 0
and 1. -/
theorem ml_create_source_indices_equal :
    (ml_create_source conf0 "x".toList).scanner_cancel_index = 0 ∧
    (ml_create_source conf0 "x".toList).scanner_current_index = 0 ∧
    ¬ ((ml_create_source conf0 "x".toList).scanner_cancel_index <
        (ml_create_source conf0 "x".toList).scanner_current_index) ∧
    (ml_refresh_block (ml_create_source conf0 "x".toList)).1.scanner_cancel_index = 0 ∧
    (ml_refresh_block (ml_create_source conf0 "x".toList)).1.scanner_current_index = 1 := by
  refine ⟨by decide, by decide, by decide, by decide, by decide⟩

end Medialib
namespace Medialib

open Artwork (CStr)

theorem states_of_notify (s : medialib_source_t) (e : ddb_mediasource_event_t) :
    states_of (ml_notify_listeners s e) = [] := by
  unfold states_of
  rw [List.filterMap_eq_nil_iff]
  intro a ha
  simp only [ml_notify_listeners, List.mem_filterMap] at ha
  obtain ⟨i, _, hi⟩ := ha
  split at hi
  · simp only [Option.some.injEq] at hi
    subst hi; rfl
  · simp at hi

theorem states_of_append (a b : List Step) : states_of (a ++ b) = states_of a ++ states_of b := by
  simp [states_of, List.filterMap_append]

theorem states_of_state (v : ddb_mediasource_state_t) (a : List Step) :
    states_of (Step.state v :: a) = v :: states_of a := by
  simp [states_of, List.filterMap_cons]

theorem states_of_plt_save (f : CStr) (p : List DB_playItem_t) (a : List Step) :
    states_of (Step.plt_save f p :: a) = states_of a := by
  simp [states_of, List.filterMap_cons]

theorem wrap64_succ_gt (c : Int) (h1 : -(2 ^ 63) ≤ c) (h2 : c < 2 ^ 63 - 1) :
    ¬ (c ≥ wrap64 (c + 1)) := by
  unfold wrap64
  have e : (c + 1 + 2 ^ 63) % 2 ^ 64 = c + 1 + 2 ^ 63 :=
    Int.emod_eq_of_lt (by omega) (by omega)
  rw [e]
  omega

/-- C14 (amended): one `ml_refresh` of an enabled source with at least one
folder, its job run to the end.  The values taken by `_ml_state` are Loading,
Indexing, Idle, Scanning, Indexing, Saving, Idle: loading the stored playlist
ends in Idle before the scan starts.  Every assignment is followed by one
round of `STATE_DID_CHANGE` calls before the next one; the first Idle has a
round of `CONTENT_DID_CHANGE` in front of it, and a second such round, after
the playlist is saved, precedes Saving. -/
theorem ml_refresh_states (host : Host) (conf : Conf) (sh : ScanHost) (source : medialib_source_t)
    (paths : List json_t) (henabled : source.enabled ≠ 0)
    (hpaths : source.musicpaths_json = some paths) (hne : paths ≠ [])
    (hlo : -(2 ^ 63) ≤ source.scanner_current_index)
    (hhi : source.scanner_current_index < 2 ^ 63 - 1) :
    states_of (ml_refresh host conf sh source).2 =
      [ddb_mediasource_state_t.LOADING, ddb_mediasource_state_t.INDEXING,
       ddb_mediasource_state_t.IDLE, ddb_mediasource_state_t.SCANNING,
       ddb_mediasource_state_t.INDEXING, ddb_mediasource_state_t.SAVING,
       ddb_mediasource_state_t.IDLE] ∧
    ∃ saved : List Step,
      (saved = [] ∨ ∃ fname plt, saved = [Step.plt_save fname plt]) ∧
      (ml_refresh host conf sh source).2 =
        Step.state ddb_mediasource_state_t.LOADING ::
          ml_notify_listeners source ddb_mediasource_event_t.STATE_DID_CHANGE ++
        Step.state ddb_mediasource_state_t.INDEXING ::
          ml_notify_listeners source ddb_mediasource_event_t.STATE_DID_CHANGE ++
        Step.state ddb_mediasource_state_t.IDLE ::
          (ml_notify_listeners source ddb_mediasource_event_t.CONTENT_DID_CHANGE ++
           ml_notify_listeners source ddb_mediasource_event_t.STATE_DID_CHANGE) ++
        Step.state ddb_mediasource_state_t.SCANNING ::
          ml_notify_listeners source ddb_mediasource_event_t.STATE_DID_CHANGE ++
        Step.state ddb_mediasource_state_t.INDEXING ::
          ml_notify_listeners source ddb_mediasource_event_t.STATE_DID_CHANGE ++
        (saved ++ ml_notify_listeners source ddb_mediasource_event_t.CONTENT_DID_CHANGE) ++
        Step.state ddb_mediasource_state_t.SAVING ::
          ml_notify_listeners source ddb_mediasource_event_t.STATE_DID_CHANGE ++
        Step.state ddb_mediasource_state_t.IDLE ::
          ml_notify_listeners source ddb_mediasource_event_t.STATE_DID_CHANGE := by
  have hlen : ¬ paths.length = 0 := fun h => hne (List.length_eq_zero.mp h)
  have hcancel := wrap64_succ_gt source.scanner_current_index hlo hhi
  have htrace : (ml_refresh host conf sh source).2 =
      (scanner_thread host sh
        { source with scanner_terminate := false
                      scanner_cancel_index := source.scanner_current_index
                      scanner_current_index := wrap64 (source.scanner_current_index + 1) }
        (paths.map (fun data =>
          match data with
          | .string value => some value
          | .other => none))).2 := by
    simp only [ml_refresh, ml_refresh_block, ml_refresh_job, hcancel, if_false, get_medialib_paths,
      hpaths, Option.getD_some, hlen, henabled, ne_eq, not_false_eq_true, if_true]
  rw [htrace]
  constructor
  · simp only [scanner_thread, _ml_load_playlist, states_of_append, states_of_state,
      states_of_notify, List.append_nil, List.nil_append, List.cons_append]
    split
    · simp [states_of]
    · simp [states_of_plt_save, states_of]
  · cases hd : source.disable_file_operations with
    | true =>
      refine ⟨[], Or.inl rfl, ?_⟩
      simp only [scanner_thread, _ml_load_playlist, ml_notify_listeners, ml_index_source, hd,
        List.append_assoc, List.cons_append, if_true]
    | false =>
      exact ⟨_, Or.inr ⟨_, _, rfl⟩, by
        simp only [scanner_thread, _ml_load_playlist, ml_notify_listeners, ml_index_source, hd,
          List.append_assoc, List.cons_append, Bool.false_eq_true, if_false]
        rfl⟩

set_option maxRecDepth 100000 in
theorem ml_refresh_states_witness :
    states_of (ml_refresh host1 conf0 scanHost0 sourceY).2 =
      [ddb_mediasource_state_t.LOADING, ddb_mediasource_state_t.INDEXING,
       ddb_mediasource_state_t.IDLE, ddb_mediasource_state_t.SCANNING,
       ddb_mediasource_state_t.INDEXING, ddb_mediasource_state_t.SAVING,
       ddb_mediasource_state_t.IDLE] ∧
    ∃ saved : List Step,
      (saved = [] ∨ ∃ fname plt, saved = [Step.plt_save fname plt]) ∧
      (ml_refresh host1 conf0 scanHost0 sourceY).2 =
        Step.state ddb_mediasource_state_t.LOADING ::
          ml_notify_listeners sourceY ddb_mediasource_event_t.STATE_DID_CHANGE ++
        Step.state ddb_mediasource_state_t.INDEXING ::
          ml_notify_listeners sourceY ddb_mediasource_event_t.STATE_DID_CHANGE ++
        Step.state ddb_mediasource_state_t.IDLE ::
          (ml_notify_listeners sourceY ddb_mediasource_event_t.CONTENT_DID_CHANGE ++
           ml_notify_listeners sourceY ddb_mediasource_event_t.STATE_DID_CHANGE) ++
        Step.state ddb_mediasource_state_t.SCANNING ::
          ml_notify_listeners sourceY ddb_mediasource_event_t.STATE_DID_CHANGE ++
        Step.state ddb_mediasource_state_t.INDEXING ::
          ml_notify_listeners sourceY ddb_mediasource_event_t.STATE_DID_CHANGE ++
        (saved ++ ml_notify_listeners sourceY ddb_mediasource_event_t.CONTENT_DID_CHANGE) ++
        Step.state ddb_mediasource_state_t.SAVING ::
          ml_notify_listeners sourceY ddb_mediasource_event_t.STATE_DID_CHANGE ++
        Step.state ddb_mediasource_state_t.IDLE ::
          ml_notify_listeners sourceY ddb_mediasource_event_t.STATE_DID_CHANGE :=
  ml_refresh_states host1 conf0 scanHost0 sourceY [json_t.string "/music".toList]
    (by decide) rfl (by decide) (by decide) (by decide)

set_option maxRecDepth 100000 in
/-- C14: evaluation of one `ml_refresh` of an enabled source with the folder
`/music` and two listeners.  `_ml_state` takes seven values, not six: after
the first Indexing it goes to Idle before Scanning.  The trace up to Scanning
and the playlist saved are shown. -/
theorem ml_refresh_passes_through_idle :
    states_of (ml_refresh host1 conf0 scanHost0 sourceY).2 =
      [ddb_mediasource_state_t.LOADING, ddb_mediasource_state_t.INDEXING,
       ddb_mediasource_state_t.IDLE, ddb_mediasource_state_t.SCANNING,
       ddb_mediasource_state_t.INDEXING, ddb_mediasource_state_t.SAVING,
       ddb_mediasource_state_t.IDLE] ∧
    states_of (ml_refresh host1 conf0 scanHost0 sourceY).2 ≠
      [ddb_mediasource_state_t.LOADING, ddb_mediasource_state_t.INDEXING,
       ddb_mediasource_state_t.SCANNING, ddb_mediasource_state_t.INDEXING,
       ddb_mediasource_state_t.SAVING, ddb_mediasource_state_t.IDLE] ∧
    (ml_refresh host1 conf0 scanHost0 sourceY).2.take 12 =
      [Step.state ddb_mediasource_state_t.LOADING,
       Step.listener 103 ddb_mediasource_event_t.STATE_DID_CHANGE 3,
       Step.listener 102 ddb_mediasource_event_t.STATE_DID_CHANGE 2,
       Step.state ddb_mediasource_state_t.INDEXING,
       Step.listener 103 ddb_mediasource_event_t.STATE_DID_CHANGE 3,
       Step.listener 102 ddb_mediasource_event_t.STATE_DID_CHANGE 2,
       Step.state ddb_mediasource_state_t.IDLE,
       Step.listener 103 ddb_mediasource_event_t.CONTENT_DID_CHANGE 3,
       Step.listener 102 ddb_mediasource_event_t.CONTENT_DID_CHANGE 2,
       Step.listener 103 ddb_mediasource_event_t.STATE_DID_CHANGE 3,
       Step.listener 102 ddb_mediasource_event_t.STATE_DID_CHANGE 2,
       Step.state ddb_mediasource_state_t.SCANNING] ∧
    (ml_refresh host1 conf0 scanHost0 sourceY).2.filter
        (fun s => match s with
          | .plt_save _ _ => true
          | _ => false) =
      [Step.plt_save "/cfg/medialib.dbpl".toList
        [mkTrack 1 "/music/a.mp3" [(":MEDIALIB_SCAN_TIME", "200")]]] ∧
    (ml_refresh host1 conf0 scanHost0 sourceY).1._ml_state = ddb_mediasource_state_t.IDLE := by
  refine ⟨by decide, by decide, by decide, by decide, by decide⟩

end Medialib
namespace MedialibWidget

open Artwork (CStr)
open Medialib (DB_playItem_t pl_find_meta scan_lld mkTrack)

theorem wrap32_id (v : Int) (h1 : -(2 ^ 31) ≤ v) (h2 : v < 2 ^ 31) : wrap32 v = v := by
  unfold wrap32
  rw [Int.emod_eq_of_lt (by omega) (by omega)]
  omega

theorem item_comparator_eq (strcasecmp : CStr → CStr → Int) (text1 text2 : CStr)
    (track1 track2 : DB_playItem_t)
    (hn1 : -100000 ≤ track_number track1 ∧ track_number track1 ≤ 100000)
    (hd1 : -100000 ≤ disc_number track1 ∧ disc_number track1 ≤ 100000)
    (hn2 : -100000 ≤ track_number track2 ∧ track_number track2 ≤ 100000)
    (hd2 : -100000 ≤ disc_number track2 ∧ disc_number track2 ≤ 100000) :
    _item_comparator strcasecmp { text := text1, track := some track1 }
      { text := text2, track := some track2 } = sort_key track1 - sort_key track2 := by
  simp only [_item_comparator, sort_key]
  change wrap32 (wrap32 (wrap32 (wrap32 (disc_number track1 + 1) * 10000) + track_number track1) -
    wrap32 (wrap32 (wrap32 (disc_number track2 + 1) * 10000) + track_number track2)) = _
  generalize track_number track1 = n1 at *
  generalize track_number track2 = n2 at *
  generalize disc_number track1 = d1 at *
  generalize disc_number track2 = d2 at *
  rw [wrap32_id (d1 + 1) (by omega) (by omega), wrap32_id (d2 + 1) (by omega) (by omega),
    wrap32_id ((d1 + 1) * 10000) (by omega) (by omega),
    wrap32_id ((d2 + 1) * 10000) (by omega) (by omega),
    wrap32_id ((d1 + 1) * 10000 + n1) (by omega) (by omega),
    wrap32_id ((d2 + 1) * 10000 + n2) (by omega) (by omega),
    wrap32_id _ (by omega) (by omega)]

/-- C18 (amended): for two track items whose track and disc numbers, as
`atoi` reads them, lie between -100000 and 100000, `_item_comparator` returns
the difference of the two keys `(disc + 1) * 10000 + track`: the item with
the smaller key comes first, and two items with equal keys compare equal
whatever their titles are, so that their order is left to `qsort`. -/
theorem item_comparator_by_key (strcasecmp : CStr → CStr → Int) (text1 text2 : CStr)
    (track1 track2 : DB_playItem_t)
    (hn1 : -100000 ≤ track_number track1 ∧ track_number track1 ≤ 100000)
    (hd1 : -100000 ≤ disc_number track1 ∧ disc_number track1 ≤ 100000)
    (hn2 : -100000 ≤ track_number track2 ∧ track_number track2 ≤ 100000)
    (hd2 : -100000 ≤ disc_number track2 ∧ disc_number track2 ≤ 100000) :
    (_item_comparator strcasecmp { text := text1, track := some track1 }
      { text := text2, track := some track2 } < 0 ↔ sort_key track1 < sort_key track2) ∧
    (_item_comparator strcasecmp { text := text1, track := some track1 }
      { text := text2, track := some track2 } = 0 ↔ sort_key track1 = sort_key track2) ∧
    (0 < _item_comparator strcasecmp { text := text1, track := some track1 }
      { text := text2, track := some track2 } ↔ sort_key track2 < sort_key track1) := by
  rw [item_comparator_eq strcasecmp text1 text2 track1 track2 hn1 hd1 hn2 hd2]
  refine ⟨by omega, by omega, by omega⟩

set_option maxRecDepth 100000 in
theorem item_comparator_by_key_witness :
    (_item_comparator strcasecmp0
      { text := "1. Beta".toList, track := some (mkTrack 1 "/m/b.mp3" [("track", "1"), ("disc", "2")]) }
      { text := "7. alpha".toList, track := some (mkTrack 2 "/m/a.mp3" [("track", "7")]) } < 0 ↔
      sort_key (mkTrack 1 "/m/b.mp3" [("track", "1"), ("disc", "2")]) <
        sort_key (mkTrack 2 "/m/a.mp3" [("track", "7")])) ∧
    (_item_comparator strcasecmp0
      { text := "1. Beta".toList, track := some (mkTrack 1 "/m/b.mp3" [("track", "1"), ("disc", "2")]) }
      { text := "7. alpha".toList, track := some (mkTrack 2 "/m/a.mp3" [("track", "7")]) } = 0 ↔
      sort_key (mkTrack 1 "/m/b.mp3" [("track", "1"), ("disc", "2")]) =
        sort_key (mkTrack 2 "/m/a.mp3" [("track", "7")])) ∧
    (0 < _item_comparator strcasecmp0
      { text := "1. Beta".toList, track := some (mkTrack 1 "/m/b.mp3" [("track", "1"), ("disc", "2")]) }
      { text := "7. alpha".toList, track := some (mkTrack 2 "/m/a.mp3" [("track", "7")]) } ↔
      sort_key (mkTrack 2 "/m/a.mp3" [("track", "7")]) <
        sort_key (mkTrack 1 "/m/b.mp3" [("track", "1"), ("disc", "2")])) :=
  item_comparator_by_key strcasecmp0 "1. Beta".toList "7. alpha".toList
    (mkTrack 1 "/m/b.mp3" [("track", "1"), ("disc", "2")]) (mkTrack 2 "/m/a.mp3" [("track", "7")])
    (by decide) (by decide) (by decide) (by decide)

set_option maxRecDepth 100000 in
/-- C18: evaluation of `_item_comparator` on two items of an album that are
both track 1 and are titled `Beta` and `alpha`.  Their keys are equal
(10001) and the comparator returns 0 in both directions, although the
case-insensitive comparison of the titles and of the item texts does not;
the texts are compared only when one of the two items has no track. -/
theorem item_comparator_ignores_titles :
    sort_key (mkTrack 1 "/m/b.mp3" [("track", "1"), ("title", "Beta")]) = 10001 ∧
    sort_key (mkTrack 2 "/m/a.mp3" [("track", "1"), ("title", "alpha")]) = 10001 ∧
    strcasecmp0 "Beta".toList "alpha".toList = 1 ∧
    strcasecmp0 itemBeta.text itemAlpha.text = 1 ∧
    _item_comparator strcasecmp0 itemBeta itemAlpha = 0 ∧
    _item_comparator strcasecmp0 itemAlpha itemBeta = 0 ∧
    _item_comparator strcasecmp0 { itemBeta with track := none } itemAlpha = 1 := by
  refine ⟨by decide, by decide, by decide, by decide, by decide, by decide, by decide⟩

end MedialibWidget
namespace Medialib

open Artwork (CStr)

theorem ml_filter_int_cases (host : Host) (interned : CStr → Bool) (db : ml_db_t)
    (ml_playlist plt : List DB_playItem_t) (filename : CStr) (mtime : Int) :
    ml_filter_int host interned db ml_playlist plt filename mtime = (0, ml_playlist, plt) ∨
    ml_filter_int host interned db ml_playlist plt filename mtime = (-1, ml_playlist, plt) ∨
    (ml_filter_check mtime (uri_items host db filename) = false ∧
      ml_filter_int host interned db ml_playlist plt filename mtime =
        (-1, ml_filter_move (uri_items host db filename) (ml_playlist, plt))) := by
  by_cases h1 : interned filename = true
  · by_cases h2 : db.filename_hash (hash_for_ptr (host.metacache_addr filename)) = []
    · exact Or.inl (by simp [ml_filter_int, h1, h2])
    · cases h3 : (db.filename_hash (hash_for_ptr (host.metacache_addr filename))).find?
          (fun en => decide (en.file = filename)) with
      | none => exact Or.inr (Or.inl (by simp [ml_filter_int, h1, h2, h3]))
      | some e =>
        cases h4 : hash_find host db.track_uris filename with
        | none => exact Or.inr (Or.inl (by simp [ml_filter_int, h1, h2, h3, h4]))
        | some str =>
          cases hc : ml_filter_check mtime str.items with
          | true => exact Or.inl (by simp [ml_filter_int, h1, h2, h3, h4, hc])
          | false =>
            exact Or.inr (Or.inr ⟨by simp [uri_items, h4, hc],
              by simp [ml_filter_int, uri_items, h1, h2, h3, h4, hc]⟩)
  · exact Or.inl (by simp [ml_filter_int, h1])

/-- The playlists differ after `ml_filter_int` only if it returned -1 and no
track indexed under the URI is stale. -/
theorem ml_filter_int_moves_after_check (host : Host) (interned : CStr → Bool) (db : ml_db_t)
    (ml_playlist plt : List DB_playItem_t) (filename : CStr) (mtime : Int)
    (h : (ml_filter_int host interned db ml_playlist plt filename mtime).2 ≠ (ml_playlist, plt)) :
    (ml_filter_int host interned db ml_playlist plt filename mtime).1 = -1 ∧
    ∀ it ∈ uri_items host db filename, stale mtime it = false := by
  rcases ml_filter_int_cases host interned db ml_playlist plt filename mtime with hc | hc | hc
  · rw [hc] at h; exact absurd rfl h
  · rw [hc] at h; exact absurd rfl h
  · rw [hc.2]
    refine ⟨rfl, fun it hit => ?_⟩
    cases hs : stale mtime it with
    | false => rfl
    | true =>
      have := (ml_filter_check_iff mtime _).mpr ⟨it, hit, hs⟩
      rw [hc.1] at this
      exact absurd this (by decide)

/-- C28: whenever `ml_filter_int` returns 0, the old playlist and the
playlist being built are what they were before the call. -/
theorem ml_filter_int_include_moves_nothing (host : Host) (interned : CStr → Bool) (db : ml_db_t)
    (ml_playlist plt : List DB_playItem_t) (filename : CStr) (mtime : Int)
    (h : (ml_filter_int host interned db ml_playlist plt filename mtime).1 = 0) :
    (ml_filter_int host interned db ml_playlist plt filename mtime).2.1 = ml_playlist ∧
    (ml_filter_int host interned db ml_playlist plt filename mtime).2.2 = plt := by
  rcases ml_filter_int_cases host interned db ml_playlist plt filename mtime with hc | hc | hc
  · rw [hc]; exact ⟨rfl, rfl⟩
  · rw [hc]; exact ⟨rfl, rfl⟩
  · rw [hc.2] at h
    exact absurd (show (-1 : Int) = 0 from h) (by decide)

set_option maxRecDepth 100000 in
theorem ml_filter_int_include_moves_nothing_witness :
    (ml_filter_int host1 (fun _ => true) dbA [trackA] [] fileA 101).2.1 = [trackA] ∧
    (ml_filter_int host1 (fun _ => true) dbA [trackA] [] fileA 101).2.2 = [] :=
  ml_filter_int_include_moves_nothing host1 (fun _ => true) dbA [trackA] [] fileA 101 (by decide)

end Medialib
namespace Artwork

set_option maxRecDepth 100000 in
/-- C30: evaluation of `process_query` for a track whose album is
`Album [Live]`, with the remote lookup switched on and failing.  The lookup
is made for `Album [Live]` and again for `Album `, and afterwards the album
string of the cover is `Album (Live]`: the character put back is always `(`.
With the album `Album (Live)` the same run leaves the string as it was. -/
theorem process_query_rewrites_bracket :
    (process_query cfgAll (worldC 0 false)
      { trackCover with album := "Album [Live]".toList }).1.album = "Album (Live]".toList ∧
    (process_query cfgAll (worldC 0 false)
      { trackCover with album := "Album [Live]".toList }).2.filter
        (fun a => match a with
          | .lastfm _ _ _ => true
          | _ => false) =
      [Action.lastfm "Artist".toList "Album [Live]".toList
        "/c/covers2/Artist/Album [Live].jpg".toList,
       Action.lastfm "Artist".toList "Album ".toList
        "/c/covers2/Artist/Album [Live].jpg".toList] ∧
    (process_query cfgAll (worldC 0 false)
      { trackCover with album := "Album [Live]".toList }).1.artist = "Artist".toList ∧
    (process_query cfgAll (worldC 0 false)
      { trackCover with album := "Album [Live]".toList }).1.title = "Title".toList ∧
    (process_query cfgAll (worldC 0 false)
      { trackCover with album := "Album [Live]".toList }).1.filepath = "/m/t.mp3".toList ∧
    (process_query cfgAll (worldC 0 false)
      { trackCover with album := "Album (Live)".toList }).1.album = "Album (Live)".toList := by
  refine ⟨by decide, by decide, by decide, by decide, by decide, by decide⟩

end Artwork
namespace Artwork

theorem getD_append_at (A r : List Nat) (x : Nat) : (A ++ x :: r).getD A.length 0 = x := by
  rw [List.getD_eq_getElem?_getD, List.getElem?_append_right (le_refl _)]
  simp

theorem getD_append_at_succ (A r : List Nat) (x y : Nat) :
    (A ++ x :: y :: r).getD (A.length + 1) 0 = y := by
  have : A ++ x :: y :: r = (A ++ [x]) ++ y :: r := by simp
  rw [this]
  have h2 : A.length + 1 = (A ++ [x]).length := by simp
  rw [h2]
  exact getD_append_at _ _ _

theorem skip_bytes_spec (rest : List Nat) :
    ∀ (B A : List Nat) (n : Nat), 0 ∉ B → B.length ≤ n →
      skip_bytes (A ++ B ++ 0 :: rest) (A ++ B ++ 0 :: rest).length n A.length =
        A.length + B.length := by
  intro B
  induction B with
  | nil =>
    intro A n _ _
    cases n with
    | zero => simp [skip_bytes]
    | succ m =>
      simp only [skip_bytes, List.append_nil, getD_append_at]
      simp
  | cons b B ih =>
    intro A n h0 hn
    cases n with
    | zero => simp at hn
    | succ m =>
      have hb : b ≠ 0 := fun e => h0 (by simp [e])
      have hB : 0 ∉ B := fun e => h0 (List.mem_cons_of_mem _ e)
      have e1 : A ++ b :: B ++ 0 :: rest = (A ++ [b]) ++ B ++ 0 :: rest := by simp
      have e2 : (A ++ b :: B ++ 0 :: rest).getD A.length 0 = b := by
        have : A ++ b :: B ++ 0 :: rest = A ++ b :: (B ++ 0 :: rest) := by simp
        rw [this]; exact getD_append_at _ _ _
      have hlt : A.length < (A ++ b :: B ++ 0 :: rest).length := by simp
      simp only [skip_bytes, e2, hlt, hb, ne_eq, not_false_eq_true, and_self, if_true]
      have := ih (A ++ [b]) m hB (by simpa using hn)
      rw [e1]
      simp only [List.length_append, List.length_singleton] at this ⊢
      rw [this]
      simp only [List.length_cons]
      omega

theorem skip_pairs_spec (rest : List Nat) :
    ∀ (ps : List (Nat × Nat)) (A : List Nat) (n : Nat), (0, 0) ∉ ps → ps.length ≤ n →
      skip_pairs (A ++ ps.flatMap (fun p => [p.1, p.2]) ++ 0 :: 0 :: rest)
        (A ++ ps.flatMap (fun p => [p.1, p.2]) ++ 0 :: 0 :: rest).length n A.length =
        A.length + 2 * ps.length := by
  intro ps
  induction ps with
  | nil =>
    intro A n _ _
    cases n with
    | zero => simp [skip_pairs]
    | succ m =>
      simp only [skip_pairs, List.flatMap_nil, List.append_nil, getD_append_at,
        getD_append_at_succ]
      simp
  | cons q ps ih =>
    intro A n h0 hn
    obtain ⟨x, y⟩ := q
    cases n with
    | zero => simp at hn
    | succ m =>
      have hq : x ≠ 0 ∨ y ≠ 0 := by
        by_contra hc
        push_neg at hc
        exact h0 (by simp [hc.1, hc.2])
      have hps : (0, 0) ∉ ps := fun e => h0 (List.mem_cons_of_mem _ e)
      have e0 : A ++ ((x, y) :: ps).flatMap (fun p => [p.1, p.2]) ++ 0 :: 0 :: rest =
          A ++ x :: y :: (ps.flatMap (fun p => [p.1, p.2]) ++ 0 :: 0 :: rest) := by
        simp [List.flatMap_cons]
      have e1 : A ++ x :: y :: (ps.flatMap (fun p => [p.1, p.2]) ++ 0 :: 0 :: rest) =
          (A ++ [x, y]) ++ ps.flatMap (fun p => [p.1, p.2]) ++ 0 :: 0 :: rest := by simp
      rw [e0]
      have hlt : (A.length : Int) <
          ((A ++ x :: y :: (ps.flatMap (fun p => [p.1, p.2]) ++ 0 :: 0 :: rest)).length : Int) - 1 := by
        simp only [List.length_append, List.length_cons]
        push_cast
        omega
      simp only [skip_pairs, getD_append_at, getD_append_at_succ, hlt, hq, ne_eq, and_self, if_true]
      have := ih (A ++ [x, y]) m hps (by simpa using hn)
      rw [e1]
      simp only [List.length_append, List.length_cons, List.length_nil] at this ⊢
      rw [this]
      omega


theorem id3v2_skip_str_single (enc : Int) (henc : enc = 0 ∨ enc = 3) (A B rest : List Nat)
    (hB : 0 ∉ B) (hrest : rest ≠ []) :
    id3v2_skip_str enc (A ++ B ++ 0 :: rest) A.length (A ++ B ++ 0 :: rest).length =
      some (A.length + B.length + 1) := by
  have hr : 0 < rest.length := List.length_pos.mpr hrest
  have h := skip_bytes_spec rest B A ((A ++ B ++ 0 :: rest).length - A.length) hB
    (by simp only [List.length_append, List.length_cons]; omega)
  simp only [id3v2_skip_str, henc, if_true, h]
  have : A.length + B.length + 1 < (A ++ B ++ 0 :: rest).length := by
    simp only [List.length_append, List.length_cons]; omega
  rw [if_pos this]

theorem id3v2_skip_str_double (enc : Int) (henc : ¬ (enc = 0 ∨ enc = 3)) (A rest : List Nat)
    (ps : List (Nat × Nat)) (hps : (0, 0) ∉ ps) (hrest : rest ≠ []) :
    id3v2_skip_str enc (A ++ ps.flatMap (fun p => [p.1, p.2]) ++ 0 :: 0 :: rest) A.length
        (A ++ ps.flatMap (fun p => [p.1, p.2]) ++ 0 :: 0 :: rest).length =
      some (A.length + 2 * ps.length + 2) := by
  have hr : 0 < rest.length := List.length_pos.mpr hrest
  have hl : (ps.flatMap (fun p => [p.1, p.2])).length = 2 * ps.length := by
    clear hps
    induction ps with
    | nil => rfl
    | cons q ps ih => simp only [List.flatMap_cons, List.length_append, ih, List.length_cons,
        List.length_nil]; omega
  have h := skip_pairs_spec rest ps A
    ((A ++ ps.flatMap (fun p => [p.1, p.2]) ++ 0 :: 0 :: rest).length - A.length) hps
    (by simp only [List.length_append, List.length_cons, hl]; omega)
  simp only [id3v2_skip_str, henc, if_false, h]
  have : A.length + 2 * ps.length + 2 <
      (A ++ ps.flatMap (fun p => [p.1, p.2]) ++ 0 :: 0 :: rest).length := by
    simp only [List.length_append, List.length_cons, hl]; omega
  rw [if_pos this]

theorem id3v2_skip_str_description (enc : Nat) (d : Description) (hd : d.ok enc = true)
    (A image : List Nat) (himage : image ≠ []) :
    id3v2_skip_str (enc : Int) (A ++ (d.bytes ++ image)) A.length (A ++ (d.bytes ++ image)).length =
      some (A.length + d.bytes.length) := by
  cases d with
  | single text =>
    simp only [Description.ok, Bool.and_eq_true, Bool.or_eq_true, decide_eq_true_eq,
      Bool.not_eq_true', List.contains_eq_any_beq] at hd
    have h0 : 0 ∉ text := by
      intro h
      have := hd.2
      simp [List.any_eq_false] at this
      exact this 0 h rfl
    have henc : (enc : Int) = 0 ∨ (enc : Int) = 3 := by
      rcases hd.1 with h | h
      · left; exact_mod_cast h
      · right; exact_mod_cast h
    have e : A ++ ((Description.single text).bytes ++ image) = A ++ text ++ 0 :: image := by
      simp [Description.bytes]
    rw [e, id3v2_skip_str_single (enc : Int) henc A text image h0 himage]
    simp [Description.bytes]
    omega
  | double pairs =>
    simp only [Description.ok, Bool.and_eq_true, Bool.or_eq_true, decide_eq_true_eq,
      Bool.not_eq_true', List.contains_eq_any_beq] at hd
    have h0 : (0, 0) ∉ pairs := by
      intro h
      have := hd.2
      simp [List.any_eq_false] at this
      exact this 0 0 h rfl
    have henc : ¬ ((enc : Int) = 0 ∨ (enc : Int) = 3) := by
      rcases hd.1 with h | h <;> subst h <;> decide
    have e : A ++ ((Description.double pairs).bytes ++ image) =
        A ++ pairs.flatMap (fun p => [p.1, p.2]) ++ 0 :: 0 :: image := by
      simp [Description.bytes]
    have hl : (pairs.flatMap (fun p => [p.1, p.2])).length = 2 * pairs.length := by
      clear h0 hd e
      induction pairs with
      | nil => rfl
      | cons q ps ih => simp only [List.flatMap_cons, List.length_append, ih, List.length_cons,
          List.length_nil]; omega
    rw [e, id3v2_skip_str_double (enc : Int) henc A image pairs h0 himage]
    simp only [Description.bytes, List.length_append, hl, List.length_cons, List.length_nil]
    congr 1


theorem id3v2_artwork_some_pre (f : DB_id3v2_frame_t) (minor_version type : Int) (p : Nat)
    (h : id3v2_artwork f minor_version type = some p) :
    ¬ ((minor_version > 2 ∧ f.id ≠ "APIC".toList) ∨ (minor_version = 2 ∧ f.id ≠ "PIC".toList)) ∧
    ¬ f.size < 20 := by
  unfold id3v2_artwork at h
  by_cases h1 : (minor_version > 2 ∧ f.id ≠ "APIC".toList) ∨
      (minor_version = 2 ∧ f.id ≠ "PIC".toList)
  · rw [if_pos h1] at h; exact absurd h (by simp)
  · rw [if_neg h1] at h
    by_cases h2 : f.size < 20
    · rw [if_pos h2] at h; exact absurd h (by simp)
    · exact ⟨h1, h2⟩

theorem id3v2_artwork_value (f : DB_id3v2_frame_t) (minor_version type : Int)
    (pre header image : List Nat) (enc picture_type : Nat) (d : Description)
    (hid : ¬ ((minor_version > 2 ∧ f.id ≠ "APIC".toList) ∨
      (minor_version = 2 ∧ f.id ≠ "PIC".toList)))
    (hsz : ¬ f.size < 20)
    (hdata : f.data = picture_payload pre enc header picture_type d image)
    (hsize : f.size = f.data.length)
    (hpre : pre.length = if minor_version = 4 ∧ f.flags.getD 1 0 % 2 = 1 then 4 else 0)
    (hheader : mime_or_format_ok minor_version header = true)
    (hd : d.ok enc = true) (himage : image ≠ []) :
    id3v2_artwork f minor_version type =
      if minor_version > 2 ∧ (type = -1 ∨ (picture_type : Int) = type) then none
      else some (f.data.length - image.length) := by
  have hlen : f.data.length - image.length =
      pre.length + 1 + header.length + 1 + d.bytes.length := by
    rw [hdata]
    simp only [picture_payload, List.length_append, List.length_cons]
    omega
  have h1 : f.data.getD pre.length 0 = enc := by
    rw [hdata]; exact getD_append_at _ _ _
  unfold id3v2_artwork
  rw [if_neg hid, if_neg hsz]
  simp only [← hpre, h1]
  by_cases hv : minor_version > 2
  · simp only [mime_or_format_ok, hv, if_true, Bool.and_eq_true, decide_eq_true_eq,
      Bool.not_eq_true', List.contains_eq_any_beq] at hheader
    have hne : header ≠ [] := by
      intro e; rw [e] at hheader; simp at hheader
    have hh : header = header.dropLast ++ [0] := by
      have := List.dropLast_append_getLast? 0 (by simpa using hheader.1)
      exact this.symm
    have hm : 0 ∉ header.dropLast := by
      intro h
      have := hheader.2
      simp [List.any_eq_false] at this
      exact this 0 h rfl
    have hhl : header.length = header.dropLast.length + 1 := by
      conv_lhs => rw [hh]
      simp
    have e2 : f.data = (pre ++ [enc]) ++ header.dropLast ++
        0 :: picture_type :: (d.bytes ++ image) := by
      rw [hdata, picture_payload]
      conv_lhs => rw [hh]
      simp
    have h2 : id3v2_skip_str 0 f.data (pre.length + 1) f.size =
        some (pre.length + 1 + header.dropLast.length + 1) := by
      rw [hsize, e2]
      have := id3v2_skip_str_single 0 (Or.inl rfl) (pre ++ [enc]) header.dropLast
        (picture_type :: (d.bytes ++ image)) hm (by simp)
      simpa using this
    have e3 : f.data = (pre ++ [enc] ++ header.dropLast ++ [0]) ++
        picture_type :: (d.bytes ++ image) := by
      rw [e2]; simp
    have h3 : f.data.getD (pre.length + 1 + header.dropLast.length + 1) 0 = picture_type := by
      have hA : (pre ++ [enc] ++ header.dropLast ++ [0]).length =
          pre.length + 1 + header.dropLast.length + 1 := by
        simp only [List.length_append, List.length_cons, List.length_nil]
      rw [e3, ← hA]
      exact getD_append_at _ _ _
    have e4 : f.data = (pre ++ [enc] ++ header.dropLast ++ [0] ++ [picture_type]) ++
        (d.bytes ++ image) := by
      rw [e2]; simp
    have h4 : id3v2_skip_str (enc : Int) f.data (pre.length + 1 + header.dropLast.length + 1 + 1)
        f.size = some (f.data.length - image.length) := by
      rw [hlen, hsize, e4]
      have := id3v2_skip_str_description enc d hd
        (pre ++ [enc] ++ header.dropLast ++ [0] ++ [picture_type]) image himage
      simp only [List.length_append, List.length_cons, List.length_nil] at this ⊢
      rw [hhl]
      simpa using this
    simp only [hv, if_true, h2, h3, true_and]
    by_cases ht : type = -1 ∨ (picture_type : Int) = type
    · simp only [ht, if_true]
    · simp only [ht, if_false, h4]
  · simp only [mime_or_format_ok, hv, if_false, Bool.and_eq_true, decide_eq_true_eq] at hheader
    have hp0 : pre.length = 0 := by
      rw [hpre]
      have : ¬ (minor_version = 4 ∧ f.flags.getD 1 0 % 2 = 1) := by
        intro h; rw [hheader.1] at h; exact absurd h.1 (by decide)
      rw [if_neg this]
    have hp : pre = [] := List.length_eq_zero.mp hp0
    have e4 : f.data = (enc :: header ++ [picture_type]) ++ (d.bytes ++ image) := by
      rw [hdata, picture_payload, hp]; simp
    have h4 : id3v2_skip_str (enc : Int) f.data (pre.length + 1 + 3 + 1) f.size =
        some (f.data.length - image.length) := by
      rw [hlen, hsize, e4, hp0]
      have := id3v2_skip_str_description enc d hd (enc :: header ++ [picture_type]) image himage
      simp only [List.length_append, List.length_cons, List.length_nil, hheader.2] at this ⊢
      simpa using this
    simp only [hv, if_false, h4, false_and]

end Artwork
namespace Artwork

/-- For a picture frame laid out as encoding byte (after the data length
indicator, if the frame has one), MIME string or image format, picture type,
description terminated as the encoding says, and a non-empty image, whenever
`id3v2_artwork` accepts the frame the position it returns is that of the
first image byte: the bytes from there to the end of the payload are exactly
the image. -/
theorem id3v2_artwork_position (f : DB_id3v2_frame_t) (minor_version type : Int)
    (pre header image : List Nat) (enc picture_type : Nat) (d : Description) (p : Nat)
    (hdata : f.data = picture_payload pre enc header picture_type d image)
    (hsize : f.size = f.data.length)
    (hpre : pre.length = if minor_version = 4 ∧ f.flags.getD 1 0 % 2 = 1 then 4 else 0)
    (hheader : mime_or_format_ok minor_version header = true)
    (hd : d.ok enc = true) (himage : image ≠ [])
    (hacc : id3v2_artwork f minor_version type = some p) :
    p = f.size - image.length ∧ f.data.drop p = image ∧ f.size - p = image.length ∧
      (f.data.drop p).take (f.size - p) = image := by
  obtain ⟨hid, hsz⟩ := id3v2_artwork_some_pre f minor_version type p hacc
  have hv := id3v2_artwork_value f minor_version type pre header image enc picture_type d
    hid hsz hdata hsize hpre hheader hd himage
  rw [hv] at hacc
  split at hacc
  · exact absurd hacc (by simp)
  · simp only [Option.some.injEq] at hacc
    have hp : p = f.size - image.length := by rw [hsize]; exact hacc.symm
    have hdrop : f.data.drop p = image := by
      have e : f.data = (pre ++ enc :: (header ++ picture_type :: d.bytes)) ++ image := by
        rw [hdata, picture_payload]; simp
      have hl : (pre ++ enc :: (header ++ picture_type :: d.bytes)).length = p := by
        rw [hp, hsize]
        conv_rhs => rw [e]
        simp only [List.length_append, List.length_cons]
        omega
      conv_lhs => rw [e]
      exact List.drop_left' hl
    have hlen : f.size - p = image.length := by
      have : image.length ≤ f.size := by
        rw [hsize, hdata, picture_payload]
        simp only [List.length_append, List.length_cons]
        omega
      omega
    refine ⟨hp, hdrop, hlen, ?_⟩
    rw [hdrop, hlen, List.take_length]

set_option maxRecDepth 100000 in
/-- The position returned for `picFrame22`. -/
theorem id3v2_artwork_position_example :
    9 = picFrame22.size - (List.replicate 21 255).length ∧
    picFrame22.data.drop 9 = List.replicate 21 255 ∧
    picFrame22.size - 9 = (List.replicate 21 255).length ∧
    (picFrame22.data.drop 9).take (picFrame22.size - 9) = List.replicate 21 255 :=
  id3v2_artwork_position picFrame22 2 3 [] [74, 80, 71] (List.replicate 21 255) 1 3
    (.double [(65, 0)]) 9 rfl (by decide) (by decide) (by decide) (by decide) (by decide)
    (by decide)

/-- The same for an ID3v2.4 frame with a data length indicator and a
description in single bytes. -/
theorem id3v2_artwork_v24_example :
    id3v2_artwork
      { head := [], id := "APIC".toList, size := 40, flags := [0, 1],
        data := picture_payload [0, 0, 0, 36] 3 [105, 109, 97, 103, 101, 47, 112, 110, 103, 0] 3
          (.single [99, 111, 118]) (List.replicate 20 7) } 4 0 = some 20 := by
  decide

set_option maxRecDepth 100000 in
/-- C23: evaluation of `id3v2_artwork` on well-formed ID3v2.3 `APIC` frames
that differ in the picture type only.  The pass for type 3 rejects the frame
of picture type 3 and accepts every other picture type, 5 for one; the pass
for type 0 rejects picture type 0 and accepts every other one.  So with a
tag whose frames have the picture types 5 and 3, in this order,
`id3_extract_art` hands out the frame of type 5. -/
theorem id3v2_artwork_rejects_requested_type :
    id3v2_artwork (apicFrameOfType 3) 3 3 = none ∧
    id3v2_artwork (apicFrameOfType 3) 3 0 = some 4 ∧
    id3v2_artwork (apicFrameOfType 5) 3 3 = some 4 ∧
    id3v2_artwork (apicFrameOfType 0) 3 3 = some 4 ∧
    id3v2_artwork (apicFrameOfType 0) 3 0 = none ∧
    (∀ t : Nat, id3v2_artwork (apicFrameOfType t) 3 3 = if t = 3 then none else some 4) ∧
    (∀ t : Nat, id3v2_artwork (apicFrameOfType t) 3 0 = if t = 0 then none else some 4) ∧
    (id3_extract_art { cfgAll with artwork_disable_cache := true } worldTwoFrames none
      trackCover).2.1.blob = some (apicFrameOfType 5).data := by
  have hgen : ∀ (t : Nat) (type : Int), type ≠ -1 →
      id3v2_artwork (apicFrameOfType t) 3 type = if (t : Int) = type then none else some 4 := by
    intro t type ht
    have h := id3v2_artwork_value (apicFrameOfType t) 3 type [] [0] (List.replicate 20 255) 0 t
      (.single []) (by simp [apicFrameOfType]) (by simp [apicFrameOfType]) rfl
      (by simp [apicFrameOfType, picture_payload, Description.bytes])
      (by simp [apicFrameOfType]) (by decide) (by decide) (by decide)
    rw [h]
    have e : (apicFrameOfType t).data.length - (List.replicate 20 255).length = 4 := by
      simp [apicFrameOfType, picture_payload, Description.bytes]
    rw [e]
    simp [ht]
  refine ⟨by decide, by decide, by decide, by decide, by decide, ?_, ?_, by decide⟩
  · intro t
    rw [hgen t 3 (by decide)]
    by_cases h : t = 3
    · simp [h]
    · have : ¬ ((t : Int) = 3) := by exact_mod_cast h
      simp [h, this]
  · intro t
    rw [hgen t 0 (by decide)]
    by_cases h : t = 0
    · simp [h]
    · have : ¬ ((t : Int) = 0) := by exact_mod_cast h
      simp [h, this]

end Artwork
namespace Artwork

theorem skip_bytes_indexOf :
    ∀ (data A : List Nat) (n : Nat), data.length ≤ n →
      skip_bytes (A ++ data) (A ++ data).length n A.length = A.length + data.indexOf 0 := by
  intro data
  induction data with
  | nil =>
    intro A n _
    cases n with
    | zero => simp [skip_bytes]
    | succ m => simp [skip_bytes]
  | cons b r ih =>
    intro A n hn
    cases n with
    | zero => simp at hn
    | succ m =>
      have hlt : A.length < (A ++ b :: r).length := by simp
      by_cases hb : b = 0
      · subst hb
        simp only [skip_bytes, getD_append_at]
        simp
      · have e1 : A ++ b :: r = (A ++ [b]) ++ r := by simp
        have e2 : (A ++ [b]).length = A.length + 1 := by simp
        have := ih (A ++ [b]) m (by simpa using hn)
        rw [e2] at this
        simp only [skip_bytes, getD_append_at, hlt, hb, ne_eq, not_false_eq_true, and_self, if_true]
        rw [e1, this, List.indexOf_cons_ne _ hb]
        omega

theorem not_mem_take_indexOf : ∀ l : List Nat, 0 ∉ l.take (l.indexOf 0) := by
  intro l
  induction l with
  | nil => simp
  | cons b r ih =>
    by_cases hb : b = 0
    · subst hb; simp
    · rw [List.indexOf_cons_ne _ hb, List.take_succ_cons, List.mem_cons]
      rintro (h | h)
      · exact hb h.symm
      · exact ih h

theorem apev2_artwork_value (f : DB_apev2_frame_t) (hsize : f.size = f.data.length) :
    apev2_artwork f =
      if strcasecmp_eq f.key "cover art (front)".toList = true ∧ 0 ∈ f.data ∧
          20 ≤ f.data.length - (f.data.indexOf 0 + 1) then some (f.data.indexOf 0 + 1)
      else none := by
  have h := skip_bytes_indexOf f.data [] f.data.length (le_refl _)
  simp only [List.nil_append, List.length_nil, Nat.zero_add] at h
  unfold apev2_artwork
  generalize strcasecmp_eq f.key "cover art (front)".toList = kb
  cases kb with
  | false => simp
  | true =>
    simp only [Bool.not_true, Bool.false_eq_true, if_false, hsize, h, true_and]
    by_cases hm : 0 ∈ f.data
    · have hlt : f.data.indexOf 0 < f.data.length := List.indexOf_lt_length.mpr hm
      have hne : ¬ f.data.indexOf 0 = f.data.length := by omega
      simp only [hne, if_false, hm, true_and]
      by_cases h20 : 20 ≤ f.data.length - (f.data.indexOf 0 + 1)
      · have : ¬ f.data.length - (f.data.indexOf 0 + 1) < 20 := by omega
        simp [h20, this]
      · have : f.data.length - (f.data.indexOf 0 + 1) < 20 := by omega
        simp [h20, this]
    · have he : f.data.indexOf 0 = f.data.length := List.indexOf_eq_length.mpr hm
      simp [he, hm]

/-- C25: for an APEv2 frame whose payload has the `size` bytes it declares,
`apev2_artwork` returns image data exactly when the key equals
`cover art (front)` without regard to case, the payload contains a NUL byte,
and at least 20 bytes follow the first NUL; the position returned is then
the one right after the first NUL. -/
theorem apev2_artwork_accepts_iff (f : DB_apev2_frame_t) (hsize : f.size = f.data.length) :
    ((apev2_artwork f).isSome = true ↔
      (strcasecmp_eq f.key "cover art (front)".toList = true ∧ 0 ∈ f.data ∧
        20 ≤ f.data.length - (f.data.indexOf 0 + 1))) ∧
    (∀ p, apev2_artwork f = some p →
      p = f.data.indexOf 0 + 1 ∧ f.data.getD (p - 1) 1 = 0 ∧ 0 ∉ f.data.take (p - 1)) := by
  rw [apev2_artwork_value f hsize]
  constructor
  · split
    · rename_i h
      exact ⟨fun _ => h, fun _ => rfl⟩
    · rename_i h
      exact ⟨fun hc => absurd hc (by simp), fun hc => absurd hc h⟩
  · intro p hp
    split at hp
    · rename_i h
      simp only [Option.some.injEq] at hp
      subst hp
      refine ⟨rfl, ?_, ?_⟩
      · simp only [Nat.add_sub_cancel]
        have hlt : f.data.indexOf 0 < f.data.length := List.indexOf_lt_length.mpr h.2.1
        rw [List.getD_eq_getElem?_getD, List.getElem?_eq_getElem hlt]
        simp [List.getElem_indexOf]
      · simp only [Nat.add_sub_cancel]
        exact not_mem_take_indexOf f.data
    · exact absurd hp (by simp)

set_option maxRecDepth 100000 in
theorem apev2_artwork_accepts_iff_witness :
    ((apev2_artwork apeFrame).isSome = true ↔
      (strcasecmp_eq apeFrame.key "cover art (front)".toList = true ∧ 0 ∈ apeFrame.data ∧
        20 ≤ apeFrame.data.length - (apeFrame.data.indexOf 0 + 1))) ∧
    (∀ p, apev2_artwork apeFrame = some p →
      p = apeFrame.data.indexOf 0 + 1 ∧ apeFrame.data.getD (p - 1) 1 = 0 ∧
        0 ∉ apeFrame.data.take (p - 1)) :=
  apev2_artwork_accepts_iff apeFrame (by decide)

set_option maxRecDepth 100000 in
/-- The cover frame of the examples is accepted at position 6; with one image
byte less, with another key or without a NUL it is not. -/
theorem apev2_artwork_examples :
    apev2_artwork apeFrame = some 6 ∧
    apev2_artwork { apeFrame with size := 25, data := apeFrame.data.take 25 } = none ∧
    apev2_artwork { apeFrame with key := "Cover Art (Back)".toList } = none ∧
    apev2_artwork { apeFrame with data := List.replicate 26 255 } = none := by
  refine ⟨by decide, by decide, by decide, by decide⟩

end Artwork
namespace Medialib

open Artwork (CStr)

theorem find_reluri_eq (uri : CStr) :
    ∀ paths : List json_t, find_reluri paths uri =
      ((monitored_paths paths).find? (fun d => d.isPrefixOf uri)).map
        (fun d => strip_monitored d uri) := by
  intro paths
  induction paths with
  | nil => rfl
  | cons p rest ih =>
    cases p with
    | other => rfl
    | string d =>
      simp only [find_reluri, monitored_paths, List.find?_cons]
      cases h : d.isPrefixOf uri with
      | true => simp [strip_monitored]
      | false => simp [ih]

/-- C26 (amended): `ml_index` computes the relative URI from the first
monitored path, in the order of the list, that the URI starts with: that
path and one following `/` are stripped; there is none when no monitored
path matches. -/
theorem find_reluri_first_match (paths : List json_t) (uri : CStr) :
    find_reluri paths uri =
      ((monitored_paths paths).find? (fun d => d.isPrefixOf uri)).map
        (fun d => strip_monitored d uri) ∧
    track_folder paths uri =
      ((monitored_paths paths).find? (fun d => d.isPrefixOf uri)).map
        (fun d => match Artwork.strrchr_idx '/' (strip_monitored d uri) with
          | some fn => (strip_monitored d uri).take fn
          | none => ['/']) := by
  refine ⟨find_reluri_eq uri paths, ?_⟩
  rw [track_folder, find_reluri_eq uri paths]
  cases (monitored_paths paths).find? (fun d => d.isPrefixOf uri) <;> rfl

set_option maxRecDepth 100000 in
/-- C26: evaluation for the track `/music/rock/a.mp3`.  With the monitored
paths `/music`, `/music/rock` in this order the relative URI is `rock/a.mp3`
and the track goes to the folder `rock`, although the longest matching path
is `/music/rock`; with the two paths in the other order the relative URI is
`a.mp3` and the track goes to the folder `/`. -/
theorem find_reluri_depends_on_order :
    longest_monitored [json_t.string "/music".toList, json_t.string "/music/rock".toList]
      "/music/rock/a.mp3".toList = some "/music/rock".toList ∧
    find_reluri [json_t.string "/music".toList, json_t.string "/music/rock".toList]
      "/music/rock/a.mp3".toList = some "rock/a.mp3".toList ∧
    find_reluri [json_t.string "/music/rock".toList, json_t.string "/music".toList]
      "/music/rock/a.mp3".toList = some "a.mp3".toList ∧
    tree_paths (ml_index host0 false
      [json_t.string "/music".toList, json_t.string "/music/rock".toList]
      [mkTrack 1 "/music/rock/a.mp3" []]).2.folders_tree =
        [([[], "rock".toList], mkTrack 1 "/music/rock/a.mp3" [])] ∧
    tree_paths (ml_index host0 false
      [json_t.string "/music/rock".toList, json_t.string "/music".toList]
      [mkTrack 1 "/music/rock/a.mp3" []]).2.folders_tree =
        [([[], "/".toList], mkTrack 1 "/music/rock/a.mp3" [])] := by
  refine ⟨by decide, by decide, by decide, by decide, by decide⟩

set_option maxRecDepth 100000 in
/-- C27: evaluation of `ml_index` for the monitored path `/music` and the
tracks `/music/rockabilly/a.mp3` and `/music/rock/b.mp3`, in this order.  The
second track resides in the folder `rock`, but the child search compares only
the first four characters of the text of a child and takes the node
`rockabilly`: both tracks are held by that node and there is no node `rock`.
With the tracks in the other order each one gets the node of its folder. -/
theorem ml_reg_item_in_folder_takes_longer_name :
    track_folder [json_t.string "/music".toList] "/music/rock/b.mp3".toList =
      some "rock".toList ∧
    folder_segments "rock".toList = ["rock".toList] ∧
    tree_paths (ml_index host0 false [json_t.string "/music".toList]
      [mkTrack 1 "/music/rockabilly/a.mp3" [], mkTrack 2 "/music/rock/b.mp3" []]).2.folders_tree =
        [([[], "rockabilly".toList], mkTrack 1 "/music/rockabilly/a.mp3" []),
         ([[], "rockabilly".toList], mkTrack 2 "/music/rock/b.mp3" [])] ∧
    tree_paths (ml_index host0 false [json_t.string "/music".toList]
      [mkTrack 2 "/music/rock/b.mp3" [], mkTrack 1 "/music/rockabilly/a.mp3" []]).2.folders_tree =
        [([[], "rock".toList], mkTrack 2 "/music/rock/b.mp3" []),
         ([[], "rockabilly".toList], mkTrack 1 "/music/rockabilly/a.mp3" [])] ∧
    tree_paths (ml_reg_item_in_folder 5
      (.mk [] [] [.mk "rockabilly".toList [mkTrack 1 "/music/rockabilly/a.mp3" []] []])
      "rock".toList (mkTrack 2 "/music/rock/b.mp3" [])) =
        [([[], "rockabilly".toList], mkTrack 1 "/music/rockabilly/a.mp3" []),
         ([[], "rockabilly".toList], mkTrack 2 "/music/rock/b.mp3" [])] := by
  refine ⟨by decide, by decide, by decide, by decide, by decide⟩

end Medialib
namespace Artwork

theorem make_cache_dir_path_length (win32 : Bool) (root : Int → Int × CStr) (a : CStr) (n : Int)
    (hroot : 0 ≤ (root n).1 → ((root n).2.length : Int) < n) (hn : n < 2 ^ 31)
    (h : (make_cache_dir_path win32 root (some a) n).1 = 0) :
    ((make_cache_dir_path win32 root (some a) n).2.length : Int) < n := by
  unfold make_cache_dir_path at h ⊢
  simp only at h ⊢
  by_cases h1 : (root n).1 < 0
  · rw [if_pos h1] at h
    exact absurd (show (-1 : Int) = 0 from h) (by decide)
  · rw [if_neg h1] at h ⊢
    have hr := hroot (not_lt.mp h1)
    have hmod : (n - ((root n).2.length : Int)) % 2 ^ 64 = n - ((root n).2.length : Int) :=
      Int.emod_eq_of_lt (by omega) (by omega)
    rw [hmod] at h ⊢
    split at h
    · exact absurd (show (-1 : Int) = 0 from h) (by decide)
    · rename_i h2
      rw [if_neg h2]
      simp only [List.length_append] at h2 ⊢
      push_cast at h2 ⊢
      omega

theorem make_cache_path_name_tail (win32 : Bool) (album outpath : CStr) (outsize : Int)
    (h : (outpath.length : Int) < outsize - NAME_MAX) :
    make_cache_path_name win32 album outpath outsize =
      (0, outpath ++ (album.drop (album.length - 244)).map (esc_char win32) ++ ".jpg".toList) := by
  have hN : (NAME_MAX : Int) = 255 := rfl
  rw [hN] at h
  have hmin : min (NAME_MAX : Int) (outsize - (outpath.length : Int)) = 255 := by
    rw [hN]; exact min_eq_left (by omega)
  unfold make_cache_path_name
  simp only [hmin]
  have h0 : ¬ ((255 : Int) - 11 ≤ 0) := by decide
  rw [if_neg h0]
  have e : ((255 : Int) - 11).toNat = 244 := by decide
  rw [e]
  by_cases hl : (album.length : Int) > 255 - 11
  · rw [if_pos hl]
  · rw [if_neg hl]
    have : album.length - 244 = 0 := by omega
    rw [this, List.drop_zero]

theorem make_cache_path_success (win32 : Bool) (root : Int → Int × CStr)
    (filepath album artist : Option CStr) (outsize : Int)
    (hroot : 0 ≤ (root (outsize - NAME_MAX)).1 →
      ((root (outsize - NAME_MAX)).2.length : Int) < outsize - NAME_MAX)
    (hout : outsize < 2 ^ 31)
    (hok : (make_cache_path win32 root filepath album artist outsize).1 = 0) :
    ∃ alb, album_component filepath album artist = some alb ∧
      (((root (outsize - NAME_MAX)).2 ++ "covers2/".toList ++
        ((artist_component artist).take NAME_MAX).map (esc_char win32) ++ ['/']).length : Int) <
          outsize - NAME_MAX ∧
      (make_cache_path win32 root filepath album artist outsize).2 =
        ((root (outsize - NAME_MAX)).2 ++ "covers2/".toList ++
          ((artist_component artist).take NAME_MAX).map (esc_char win32) ++ ['/']) ++
        (alb.drop (alb.length - 244)).map (esc_char win32) ++ ".jpg".toList := by
  have ha := make_cache_path_album_eq filepath album artist
  have hr := make_cache_path_artist_eq artist
  unfold make_cache_path at hok ⊢
  rw [ha, hr] at hok ⊢
  cases halb : album_component filepath album artist with
  | none =>
    rw [halb] at hok
    exact absurd (show (-1 : Int) = 0 from hok) (by decide)
  | some alb =>
    rw [halb] at hok
    simp only at hok ⊢
    by_cases hd : (make_cache_dir_path win32 root (some (artist_component artist))
        (outsize - NAME_MAX)).1 = 0
    · have hp := make_cache_dir_path_content win32 root (artist_component artist) _ hd
      have hN : (NAME_MAX : Int) = 255 := rfl
      have hlen := make_cache_dir_path_length win32 root (artist_component artist)
        (outsize - NAME_MAX) hroot (by rw [hN]; omega) hd
      simp only [hd, ne_eq, not_true_eq_false, if_false]
      rw [make_cache_path_name_tail win32 alb _ outsize hlen]
      rw [hp] at hlen ⊢
      exact ⟨alb, rfl, hlen, rfl⟩
    · simp only [ne_eq, hd, not_false_eq_true, if_true] at hok
      exact absurd (show (-1 : Int) = 0 from hok) (by decide)


theorem drop_map_esc (win32 : Bool) (l : CStr) (n : Nat) :
    (l.drop n).map (esc_char win32) = (l.map (esc_char win32)).drop n := by
  rw [List.map_drop]

/-- C21 (amended): when `make_cache_path` succeeds, the cache root keeping to
the buffer size it is given, the budget `max_album_chars` is 244 and the file
name is made of the escaped last 244 characters of the album name (the whole
name when it is not longer), followed by `.jpg`: a name that is too long
loses its beginning, and the segment is a suffix of the escaped album name. -/
theorem make_cache_path_keeps_album_tail (win32 : Bool) (root : Int → Int × CStr)
    (filepath album artist : Option CStr) (outsize : Int)
    (hroot : 0 ≤ (root (outsize - NAME_MAX)).1 →
      ((root (outsize - NAME_MAX)).2.length : Int) < outsize - NAME_MAX)
    (hout : outsize < 2 ^ 31)
    (hok : (make_cache_path win32 root filepath album artist outsize).1 = 0) :
    ∃ alb, album_component filepath album artist = some alb ∧
      (make_cache_path win32 root filepath album artist outsize).2 =
        ((root (outsize - NAME_MAX)).2 ++ "covers2/".toList ++
          ((artist_component artist).take NAME_MAX).map (esc_char win32) ++ ['/']) ++
        (alb.map (esc_char win32)).drop (alb.length - 244) ++ ".jpg".toList ∧
      (alb.map (esc_char win32)).drop (alb.length - 244) <:+ alb.map (esc_char win32) ∧
      (244 < alb.length → ((alb.map (esc_char win32)).drop (alb.length - 244)).length = 244) := by
  obtain ⟨alb, h1, _, h3⟩ := make_cache_path_success win32 root filepath album artist outsize
    hroot hout hok
  refine ⟨alb, h1, ?_, List.drop_suffix _ _, ?_⟩
  · rw [h3, drop_map_esc]
  · intro hl
    rw [List.length_drop, List.length_map]
    omega

set_option maxRecDepth 100000 in
theorem make_cache_path_keeps_album_tail_witness :
    ∃ alb, album_component (some "/m/t.mp3".toList) (some "Album".toList)
        (some "Artist".toList) = some alb ∧
      (make_cache_path false rootC (some "/m/t.mp3".toList) (some "Album".toList)
        (some "Artist".toList) PATH_MAX).2 =
        ((rootC (PATH_MAX - NAME_MAX)).2 ++ "covers2/".toList ++
          ((artist_component (some "Artist".toList)).take NAME_MAX).map (esc_char false) ++ ['/']) ++
        (alb.map (esc_char false)).drop (alb.length - 244) ++ ".jpg".toList ∧
      (alb.map (esc_char false)).drop (alb.length - 244) <:+ alb.map (esc_char false) ∧
      (244 < alb.length → ((alb.map (esc_char false)).drop (alb.length - 244)).length = 244) :=
  make_cache_path_keeps_album_tail false rootC (some "/m/t.mp3".toList) (some "Album".toList)
    (some "Artist".toList) PATH_MAX (fun _ => by decide) (by decide) (by decide)

theorem longAlbum_length : longAlbum.length = 245 := by
  unfold longAlbum
  rw [List.length_cons, List.length_replicate]

set_option maxRecDepth 100000 in
/-- C21: evaluation of `make_cache_path` for an album name of 245 characters,
`x` followed by 244 times `y`.  The file name is the last 244 characters, all
`y`, and `.jpg`; the first 244 characters, which start with `x`, are not
what is kept. -/
theorem make_cache_path_drops_album_head :
    (make_cache_path false rootC (some "/m/t.mp3".toList) (some longAlbum)
      (some "Artist".toList) PATH_MAX) =
        (0, "/c/covers2/Artist/".toList ++ List.replicate 244 'y' ++ ".jpg".toList) ∧
    (longAlbum.take 244).map (esc_char false) = 'x' :: List.replicate 243 'y' ∧
    (make_cache_path false rootC (some "/m/t.mp3".toList) (some longAlbum)
      (some "Artist".toList) PATH_MAX).2 ≠
        "/c/covers2/Artist/".toList ++ (longAlbum.take 244).map (esc_char false) ++
          ".jpg".toList := by
  refine ⟨by decide, by decide, by decide⟩


/-- C22: when `make_cache_path` succeeds, the cache root keeping to the
buffer size it is given and the buffer size being an `int`, the path is a
directory part that ends in `/` followed by the file name; the file name
together with a `.part` tail has at most `NAME_MAX` characters, and the
whole path with `.part` and the terminator fits into the output buffer.  In
the POSIX build the file name holds no `/`, so it is the last segment. -/
theorem make_cache_path_fits (win32 : Bool) (root : Int → Int × CStr)
    (filepath album artist : Option CStr) (outsize : Int)
    (hroot : 0 ≤ (root (outsize - NAME_MAX)).1 →
      ((root (outsize - NAME_MAX)).2.length : Int) < outsize - NAME_MAX)
    (hout : outsize < 2 ^ 31)
    (hok : (make_cache_path win32 root filepath album artist outsize).1 = 0) :
    ∃ dir name : CStr,
      (make_cache_path win32 root filepath album artist outsize).2 = dir ++ name ∧
      dir.getLast? = some '/' ∧
      name.length + ".part".toList.length ≤ NAME_MAX ∧
      (((make_cache_path win32 root filepath album artist outsize).2.length +
        ".part".toList.length + 1 : Nat) : Int) ≤ outsize ∧
      (win32 = false → '/' ∉ name) := by
  obtain ⟨alb, _, h2, h3⟩ := make_cache_path_success win32 root filepath album artist outsize
    hroot hout hok
  have hN : (NAME_MAX : Int) = 255 := rfl
  have hN2 : NAME_MAX = 255 := rfl
  have hname : ((alb.drop (alb.length - 244)).map (esc_char win32) ++ ".jpg".toList).length ≤
      248 := by
    rw [List.length_append, List.length_map, List.length_drop]
    have : ".jpg".toList.length = 4 := rfl
    omega
  have hpart : ".part".toList.length = 5 := rfl
  refine ⟨(root (outsize - NAME_MAX)).2 ++ "covers2/".toList ++
      ((artist_component artist).take NAME_MAX).map (esc_char win32) ++ ['/'],
    (alb.drop (alb.length - 244)).map (esc_char win32) ++ ".jpg".toList, ?_, ?_, ?_, ?_, ?_⟩
  · rw [h3, List.append_assoc]
  · rw [List.getLast?_append]
    rfl
  · rw [hpart, hN2]; omega
  · rw [h3, hpart, List.append_assoc, List.length_append]
    push_cast
    have : (((alb.drop (alb.length - 244)).map (esc_char win32) ++ ".jpg".toList).length : Int) ≤
        248 := by exact_mod_cast hname
    omega
  · intro hw
    subst hw
    rw [List.mem_append]
    rintro (h | h)
    · exact esc_no_slash _ h
    · exact absurd h (by decide)

set_option maxRecDepth 100000 in
theorem make_cache_path_fits_witness :
    ∃ dir name : CStr,
      (make_cache_path false rootC (some "/m/t.mp3".toList) (some longAlbum)
        (some "Artist".toList) PATH_MAX).2 = dir ++ name ∧
      dir.getLast? = some '/' ∧
      name.length + ".part".toList.length ≤ NAME_MAX ∧
      (((make_cache_path false rootC (some "/m/t.mp3".toList) (some longAlbum)
        (some "Artist".toList) PATH_MAX).2.length + ".part".toList.length + 1 : Nat) : Int) ≤
          PATH_MAX ∧
      (false = false → '/' ∉ name) :=
  make_cache_path_fits false rootC (some "/m/t.mp3".toList) (some longAlbum)
    (some "Artist".toList) PATH_MAX (fun _ => by decide) (by decide) (by decide)

end Artwork
namespace Medialib

open Artwork (CStr)

theorem children_mk (t : Option CStr) (tr : Option DB_playItem_t)
    (cs : List ddb_medialib_item_t) (n : Int) : (ddb_medialib_item_t.mk t tr cs n).children = cs :=
  rfl

theorem num_children_mk (t : Option CStr) (tr : Option DB_playItem_t)
    (cs : List ddb_medialib_item_t) (n : Int) :
    (ddb_medialib_item_t.mk t tr cs n).num_children = n := rfl

theorem text_mk (t : Option CStr) (tr : Option DB_playItem_t)
    (cs : List ddb_medialib_item_t) (n : Int) : (ddb_medialib_item_t.mk t tr cs n).text = t := rfl

theorem track_mk (t : Option CStr) (tr : Option DB_playItem_t)
    (cs : List ddb_medialib_item_t) (n : Int) : (ddb_medialib_item_t.mk t tr cs n).track = tr :=
  rfl

theorem all_counts_ok_append (a b : List ddb_medialib_item_t) :
    all_counts_ok (a ++ b) = (all_counts_ok a && all_counts_ok b) := by
  induction a with
  | nil => simp [all_counts_ok]
  | cons c rest ih => simp [all_counts_ok, ih, Bool.and_assoc]

theorem all_have_append (a b : List ddb_medialib_item_t) :
    all_have_track_or_child (a ++ b) =
      (all_have_track_or_child a && all_have_track_or_child b) := by
  induction a with
  | nil => simp [all_have_track_or_child]
  | cons c rest ih => simp [all_have_track_or_child, ih, Bool.and_assoc]

theorem counts_ok_iff (x : ddb_medialib_item_t) :
    counts_ok x = true ↔
      x.num_children = (x.children.length : Int) ∧ all_counts_ok x.children = true := by
  cases x with
  | mk t tr cs n =>
    simp [counts_ok, num_children_mk, children_mk]

theorem has_track_or_child_iff (x : ddb_medialib_item_t) :
    has_track_or_child x = true ↔
      (x.track.isSome = true ∨ x.children ≠ []) ∧ all_have_track_or_child x.children = true := by
  cases x with
  | mk t tr cs n =>
    simp [has_track_or_child, track_mk, children_mk, List.isEmpty_iff]

theorem track_item_ok (host : Host) (it : DB_playItem_t) :
    counts_ok (track_item host it) = true ∧ has_track_or_child (track_item host it) = true := by
  simp [track_item, counts_ok, all_counts_ok, has_track_or_child, all_have_track_or_child]

theorem link_child_good (st : ddb_medialib_item_t × Bool) (x : ddb_medialib_item_t)
    (h : GoodParent st) (hx1 : counts_ok x = true) (hx2 : has_track_or_child x = true) :
    GoodParent (link_child st x) ∧ (link_child st x).2 = true ∧
      (link_child st x).1.children ≠ [] ∧ (link_child st x).1.text = st.1.text ∧
      (link_child st x).1.track = st.1.track := by
  obtain ⟨h1, h2, h3, h4⟩ := h
  cases hb : st.2 with
  | true =>
    refine ⟨⟨?_, ?_, ?_, ?_⟩, rfl, ?_, rfl, rfl⟩
    · simp only [link_child, hb, if_true, num_children_mk, children_mk, h1, List.length_append,
        List.length_singleton]
      push_cast
      rfl
    · simp only [link_child, hb, if_true, children_mk, all_counts_ok_append, h2, all_counts_ok,
        hx1, Bool.and_self]
    · simp only [link_child, hb, if_true, children_mk, all_have_append, h3,
        all_have_track_or_child, hx2, Bool.and_self]
    · intro hc; exact absurd hc (by simp [link_child])
    · simp only [link_child, hb, if_true, children_mk]
      simp
  | false =>
    have he := h4 hb
    rw [he] at h1
    refine ⟨⟨?_, ?_, ?_, ?_⟩, rfl, ?_, rfl, rfl⟩
    · simp only [link_child, hb, Bool.false_eq_true, if_false, num_children_mk, children_mk, h1,
        List.length_singleton, List.length_nil]
      rfl
    · simp only [link_child, hb, Bool.false_eq_true, if_false, children_mk, all_counts_ok, hx1,
        Bool.and_self]
    · simp only [link_child, hb, Bool.false_eq_true, if_false, children_mk,
        all_have_track_or_child, hx2, Bool.and_self]
    · intro hc; exact absurd hc (by simp [link_child])
    · simp only [link_child, hb, Bool.false_eq_true, if_false, children_mk]
      simp

theorem get_list_of_tracks_step_good (host : Host) (is_selected : DB_playItem_t → Bool)
    (selected : Bool) (st : ddb_medialib_item_t × Bool) (it : DB_playItem_t)
    (h : GoodParent st) :
    GoodParent (get_list_of_tracks_step host is_selected selected st it) ∧
    (get_list_of_tracks_step host is_selected selected st it).1.track = st.1.track := by
  unfold get_list_of_tracks_step
  split
  · exact ⟨h, rfl⟩
  · obtain ⟨t1, t2⟩ := track_item_ok host it
    simp only
    cases hb : st.2 with
    | true =>
      simp only [if_true]
      have hg : GoodParent (st.1, true) := by
        obtain ⟨h1, h2, h3, _⟩ := h
        exact ⟨h1, h2, h3, fun hc => absurd hc (by simp)⟩
      have := link_child_good (st.1, true) (track_item host it) hg t1 t2
      exact ⟨this.1, this.2.2.2.2⟩
    | false =>
      simp only [Bool.false_eq_true, if_false]
      have hg : GoodParent (ddb_medialib_item_t.mk
          (some (if (!_is_blank_text (some (host.tf_eval artist_album_script it))) = true
            then host.tf_eval artist_album_script it else unknown))
          st.1.track st.1.children st.1.num_children, false) := by
        obtain ⟨h1, h2, h3, h4⟩ := h
        exact ⟨h1, h2, h3, fun _ => h4 hb⟩
      have := link_child_good _ (track_item host it) hg t1 t2
      exact ⟨this.1, this.2.2.2.2⟩

theorem get_list_of_tracks_fold_good (host : Host) (is_selected : DB_playItem_t → Bool)
    (selected : Bool) :
    ∀ (items : List DB_playItem_t) (st : ddb_medialib_item_t × Bool), GoodParent st →
      GoodParent (items.foldl (get_list_of_tracks_step host is_selected selected) st) ∧
      (items.foldl (get_list_of_tracks_step host is_selected selected) st).1.track =
        st.1.track := by
  intro items
  induction items with
  | nil => intro st h; exact ⟨h, rfl⟩
  | cons it rest ih =>
    intro st h
    obtain ⟨h1, h2⟩ := get_list_of_tracks_step_good host is_selected selected st it h
    obtain ⟨k1, k2⟩ := ih _ h1
    exact ⟨k1, by rw [List.foldl_cons, k2, h2]⟩

theorem goodParent_zeroed (t : Option CStr) :
    GoodParent (ddb_medialib_item_t.mk t none [] 0, false) := by
  refine ⟨rfl, rfl, rfl, fun _ => rfl⟩

theorem get_list_of_tracks_for_album_good (host : Host) (is_selected : DB_playItem_t → Bool)
    (album : ml_string_t) (selected : Bool) :
    counts_ok (get_list_of_tracks_for_album host is_selected ddb_medialib_item_t.zeroed album
      selected) = true ∧
    all_have_track_or_child (get_list_of_tracks_for_album host is_selected
      ddb_medialib_item_t.zeroed album selected).children = true := by
  obtain ⟨⟨h1, h2, h3, _⟩, _⟩ := get_list_of_tracks_fold_good host is_selected selected
    (album.items.take album.items_count.toNat) (ddb_medialib_item_t.zeroed, false)
    (goodParent_zeroed none)
  exact ⟨(counts_ok_iff _).mpr ⟨h1, h2⟩, h3⟩

theorem albums_fold_good (host : Host) (is_selected : DB_playItem_t → Bool) (selected : Bool) :
    ∀ (strings : List ml_string_t) (st : ddb_medialib_item_t × Bool), GoodParent st →
      GoodParent (strings.foldl (fun st s =>
        let item := get_list_of_tracks_for_album host is_selected ddb_medialib_item_t.zeroed s
          selected
        if item.children.isEmpty then st else link_child st item) st) := by
  intro strings
  induction strings with
  | nil => intro st h; exact h
  | cons s rest ih =>
    intro st h
    rw [List.foldl_cons]
    apply ih
    simp only
    obtain ⟨c1, c2⟩ := get_list_of_tracks_for_album_good host is_selected s selected
    split
    · exact h
    · rename_i hne
      refine (link_child_good st _ h c1 ?_).1
      rw [has_track_or_child_iff]
      refine ⟨Or.inr ?_, c2⟩
      intro he
      rw [he] at hne
      exact hne rfl


theorem get_subfolders_tracks_good (host : Host) (is_selected : DB_playItem_t → Bool)
    (selected : Bool) :
    ∀ (items : List DB_playItem_t) (st : ddb_medialib_item_t × Bool), GoodParent st →
      GoodParent (get_subfolders_tracks host is_selected selected st items) := by
  intro items
  induction items with
  | nil => intro st h; exact h
  | cons it rest ih =>
    intro st h
    unfold get_subfolders_tracks
    rw [List.foldl_cons]
    apply ih
    split
    · exact h
    · obtain ⟨t1, t2⟩ := track_item_ok host it
      exact (link_child_good st _ h t1 t2).1

mutual
theorem get_subfolders_for_folder_good (host : Host) (is_selected : DB_playItem_t → Bool)
    (selected : Bool) :
    ∀ (folder : ml_tree_node_t) (folderitem : ddb_medialib_item_t),
      GoodParent (folderitem, false) →
      GoodParent (get_subfolders_for_folder host is_selected selected folderitem folder, true)
  | .mk text items children, folderitem, h => by
    unfold get_subfolders_for_folder
    have h1 : GoodParent ((if folderitem.text = none then
        ddb_medialib_item_t.mk (some text) folderitem.track folderitem.children
          folderitem.num_children
      else folderitem), false) := by
      split
      · exact h
      · exact h
    have h2 := get_subfolders_children_good host is_selected selected children _ h1
    have h3 := get_subfolders_tracks_good host is_selected selected items _ h2
    obtain ⟨a, b, c, _⟩ := h3
    exact ⟨a, b, c, fun hc => absurd hc (by simp)⟩
theorem get_subfolders_children_good (host : Host) (is_selected : DB_playItem_t → Bool)
    (selected : Bool) :
    ∀ (children : List ml_tree_node_t) (st : ddb_medialib_item_t × Bool), GoodParent st →
      GoodParent (get_subfolders_children host is_selected selected st children)
  | [], st, h => by
    unfold get_subfolders_children
    exact h
  | c :: rest, st, h => by
    unfold get_subfolders_children
    have hs := get_subfolders_for_folder_good host is_selected selected c
      ddb_medialib_item_t.zeroed (goodParent_zeroed none)
    simp only
    split
    · rename_i hpos
      apply get_subfolders_children_good host is_selected selected rest
      obtain ⟨a, b, d, _⟩ := hs
      refine (link_child_good st _ h ((counts_ok_iff _).mpr ⟨a, b⟩) ?_).1
      rw [has_track_or_child_iff]
      refine ⟨Or.inr ?_, d⟩
      intro he
      simp only at a
      rw [he] at a
      rw [a] at hpos
      exact absurd hpos (by decide)
    · exact get_subfolders_children_good host is_selected selected rest st h
end


theorem update_last_append_singleton {α : Type} (f : α → α) :
    ∀ (l : List α) (a : α), update_last f (l ++ [a]) = l ++ [f a] := by
  intro l
  induction l with
  | nil => intro a; rfl
  | cons b rest ih =>
    intro a
    cases rest with
    | nil => rfl
    | cons c r =>
      have := ih a
      simp only [List.cons_append] at this ⊢
      rw [update_last, this]

theorem update_last_eq {α : Type} (f : α → α) (l : List α) (h : l ≠ []) :
    update_last f l = l.dropLast ++ [f (l.getLast h)] := by
  have e : l = l.dropLast ++ [l.getLast h] := (List.dropLast_append_getLast h).symm
  conv_lhs => rw [e]
  exact update_last_append_singleton f _ _

theorem group_update_inv (g : ml_group_state) (k : Nat) (lib2 : ddb_medialib_item_t)
    (hg : GroupInv g) (h1 : GoodParent (lib2, true)) (h2 : lib2.children ≠ [])
    (h3 : lib2.track = none) :
    GroupInv
      (if (g.coll_item k).isNone then
        { coll_item := fun j => if j = k then some lib2 else g.coll_item j
          coll_item_tail := fun j => if j = k then true else g.coll_item_tail j
          root_links := if g.root_tail then g.root_links ++ [k] else [k]
          root_tail := true
          root_num_children := g.root_num_children + 1 }
      else
        { coll_item := fun j => if j = k then some lib2 else g.coll_item j
          coll_item_tail := fun j => if j = k then true else g.coll_item_tail j
          root_links := g.root_links
          root_tail := g.root_tail
          root_num_children := g.root_num_children }) := by
  obtain ⟨a, b, c, d, e, f⟩ := hg
  have hci : ∀ j L, (if j = k then some lib2 else g.coll_item j) = some L →
      GoodParent (L, true) ∧ L.children ≠ [] ∧ L.track = none ∧
        (if j = k then true else g.coll_item_tail j) = true := by
    intro j L hj
    by_cases hjk : j = k
    · simp only [hjk, if_true, Option.some.injEq] at hj ⊢
      subst hj
      exact ⟨h1, h2, h3, trivial⟩
    · simp only [hjk, if_false] at hj ⊢
      exact a j L hj
  have hcn : ∀ j, (if j = k then some lib2 else g.coll_item j) = none →
      (if j = k then true else g.coll_item_tail j) = false := by
    intro j hj
    by_cases hjk : j = k
    · simp [hjk] at hj
    · simp only [hjk, if_false] at hj ⊢
      exact b j hj
  cases hk : (g.coll_item k).isNone with
  | true =>
    simp only [if_true]
    have hkn : k ∉ g.root_links := by
      intro hmem
      cases hck : g.coll_item k with
      | none => exact e k hmem hck
      | some L => rw [hck] at hk; exact absurd hk (by simp)
    refine ⟨hci, hcn, ?_, fun hc => absurd hc (by simp), ?_, ?_⟩
    · cases ht : g.root_tail with
      | true => simp only [if_true, c, List.length_append, List.length_singleton]; push_cast; rfl
      | false =>
        have := d ht
        simp only [Bool.false_eq_true, if_false, c, this, List.length_nil, List.length_singleton]
        rfl
    · intro j hj
      by_cases hjk : j = k
      · simp [hjk]
      · simp only [hjk, if_false]
        apply e j
        cases ht : g.root_tail with
        | true =>
          simp only [ht, if_true, List.mem_append, List.mem_singleton] at hj
          rcases hj with hj | hj
          · exact hj
          · exact absurd hj hjk
        | false =>
          simp only [ht, Bool.false_eq_true, if_false, List.mem_singleton] at hj
          exact absurd hj hjk
    · cases ht : g.root_tail with
      | true =>
        simp only [if_true]
        exact List.Nodup.append f (List.nodup_singleton k)
          (by intro x hx hx2; rw [List.mem_singleton] at hx2; subst hx2; exact hkn hx)
      | false =>
        simp only [Bool.false_eq_true, if_false]
        exact List.nodup_singleton k
  | false =>
    simp only [Bool.false_eq_true, if_false]
    refine ⟨hci, hcn, c, d, ?_, f⟩
    intro j hj
    by_cases hjk : j = k
    · simp [hjk]
    · simp only [hjk, if_false]
      exact e j hj


theorem goodParent_of_ok (a : ddb_medialib_item_t) (h1 : counts_ok a = true)
    (h2 : has_track_or_child a = true) : GoodParent (a, true) := by
  obtain ⟨c1, c2⟩ := (counts_ok_iff a).mp h1
  obtain ⟨_, d2⟩ := (has_track_or_child_iff a).mp h2
  exact ⟨c1, c2, d2, fun hc => absurd hc (by simp)⟩

theorem link_track_ok (host : Host) (it : DB_playItem_t) (a : ddb_medialib_item_t) (tail : Bool)
    (h : GoodParent (a, tail)) :
    counts_ok (link_child (a, tail) (track_item host it)).1 = true ∧
    has_track_or_child (link_child (a, tail) (track_item host it)).1 = true := by
  obtain ⟨t1, t2⟩ := track_item_ok host it
  obtain ⟨⟨c1, c2, c3, _⟩, _, hne, _, _⟩ := link_child_good (a, tail) _ h t1 t2
  exact ⟨(counts_ok_iff _).mpr ⟨c1, c2⟩, (has_track_or_child_iff _).mpr ⟨Or.inr hne, c3⟩⟩

theorem update_last_link_good (host : Host) (it : DB_playItem_t)
    (L : ddb_medialib_item_t) (h : GoodParent (L, true)) (hne : L.children ≠ []) :
    GoodParent (ddb_medialib_item_t.mk L.text L.track
      (update_last (fun album_item => (link_child (album_item, true) (track_item host it)).1)
        L.children) L.num_children, true) ∧
    update_last (fun album_item => (link_child (album_item, true) (track_item host it)).1)
        L.children ≠ [] := by
  obtain ⟨c1, c2, c3, _⟩ := h
  rw [update_last_eq _ _ hne]
  have e : L.children = L.children.dropLast ++ [L.children.getLast hne] :=
    (List.dropLast_append_getLast hne).symm
  have c2b := c2
  have c3b := c3
  rw [e, all_counts_ok_append] at c2b
  rw [e, all_have_append] at c3b
  simp only [all_counts_ok, all_have_track_or_child, Bool.and_true, Bool.and_eq_true] at c2b c3b
  have hl := link_track_ok host it (L.children.getLast hne) true
    (goodParent_of_ok _ c2b.2 c3b.2)
  refine ⟨⟨?_, ?_, ?_, fun hc => absurd hc (by simp)⟩, by simp⟩
  · simp only [num_children_mk, children_mk, c1, List.length_append, List.length_singleton,
      List.length_dropLast]
    have : 0 < L.children.length := List.length_pos.mpr hne
    congr 1
    omega
  · simp only [children_mk, all_counts_ok_append, c2b.1, all_counts_ok, hl.1, Bool.and_self]
  · simp only [children_mk, all_have_append, c3b.1, all_have_track_or_child, hl.2, Bool.and_self]

theorem group_linked_eq (host : Host) (k : Nat) (s_text : CStr) (st : ml_album_loop)
    (it : DB_playItem_t) :
    group_linked host k s_text st it =
      if (!st.album_item) = true then
        link_child ((st.g.coll_item k).getD (ddb_medialib_item_t.mk (some s_text) none [] 0),
            st.g.coll_item_tail k)
          (ddb_medialib_item_t.mk (some (host.tf_eval artist_album_script it)) none [] 0)
      else ((st.g.coll_item k).getD (ddb_medialib_item_t.mk (some s_text) none [] 0),
        st.g.coll_item_tail k) := by
  unfold group_linked
  cases st.g.coll_item k <;> rfl

theorem group_libitem_good (host : Host) (k : Nat) (s_text : CStr) (st : ml_album_loop)
    (it : DB_playItem_t) (hinv : GroupInv st.g)
    (hloc : (st.album_item = true → st.album_tail = true ∧ (st.g.coll_item k).isSome = true) ∧
      (st.album_item = false → st.album_tail = false)) :
    GoodParent (group_libitem host k s_text st it, true) ∧
    (group_libitem host k s_text st it).children ≠ [] ∧
    (group_libitem host k s_text st it).track = none ∧
    (group_linked host k s_text st it).2 = true := by
  obtain ⟨ia, ib, _, _, _⟩ := hinv
  unfold group_libitem
  rw [group_linked_eq]
  have hgood : GoodParent ((st.g.coll_item k).getD
      (ddb_medialib_item_t.mk (some s_text) none [] 0), st.g.coll_item_tail k) ∧
      ((st.g.coll_item k).getD (ddb_medialib_item_t.mk (some s_text) none [] 0)).track = none ∧
      (∀ L, st.g.coll_item k = some L →
        (st.g.coll_item k).getD (ddb_medialib_item_t.mk (some s_text) none [] 0) = L ∧
        st.g.coll_item_tail k = true ∧ L.children ≠ []) := by
    cases hci : st.g.coll_item k with
    | none =>
      simp only [ib k hci, Option.getD_none]
      exact ⟨goodParent_zeroed _, rfl, fun L hL => absurd hL (by simp)⟩
    | some L =>
      obtain ⟨g1, g2, g3, g4⟩ := ia k L hci
      simp only [g4, Option.getD_some]
      refine ⟨g1, g3, fun L2 hL => ?_⟩
      rw [Option.some.injEq] at hL
      subst hL
      exact ⟨rfl, trivial, g2⟩
  generalize (st.g.coll_item k).getD (ddb_medialib_item_t.mk (some s_text) none [] 0) = lib0
    at hgood ⊢
  generalize htl : st.g.coll_item_tail k = tail0 at hgood ⊢
  cases hai : st.album_item with
  | false =>
    have hat := hloc.2 hai
    simp only [Bool.not_false, if_true, hat]
    have hA := link_track_ok host it
      (ddb_medialib_item_t.mk (some (host.tf_eval artist_album_script it)) none [] 0) false
      (goodParent_zeroed _)
    have hl := link_child_good (lib0, tail0) _ hgood.1 hA.1 hA.2
    have e : ddb_medialib_item_t.mk
        (link_child (lib0, tail0)
          (ddb_medialib_item_t.mk (some (host.tf_eval artist_album_script it)) none [] 0)).1.text
        (link_child (lib0, tail0)
          (ddb_medialib_item_t.mk (some (host.tf_eval artist_album_script it)) none [] 0)).1.track
        (update_last (fun album_item => (link_child (album_item, false) (track_item host it)).1)
          (link_child (lib0, tail0)
            (ddb_medialib_item_t.mk (some (host.tf_eval artist_album_script it)) none []
              0)).1.children)
        (link_child (lib0, tail0)
          (ddb_medialib_item_t.mk (some (host.tf_eval artist_album_script it)) none []
            0)).1.num_children =
        (link_child (lib0, tail0) (link_child
          (ddb_medialib_item_t.mk (some (host.tf_eval artist_album_script it)) none [] 0, false)
          (track_item host it)).1).1 := by
      cases tail0 with
      | true =>
        simp only [link_child, if_true, children_mk, text_mk, track_mk, num_children_mk,
          update_last_append_singleton]
      | false =>
        simp only [link_child, Bool.false_eq_true, if_false, children_mk, text_mk, track_mk,
          num_children_mk, update_last]
    rw [e]
    refine ⟨hl.1, hl.2.2.1, ?_, rfl⟩
    rw [hl.2.2.2.2]; exact hgood.2.1
  | true =>
    obtain ⟨hat, hsome⟩ := hloc.1 hai
    simp only [Bool.not_true, Bool.false_eq_true, if_false, hat]
    obtain ⟨L, hL⟩ := Option.isSome_iff_exists.mp hsome
    obtain ⟨e1, e2, e3⟩ := hgood.2.2 L hL
    subst e1
    subst e2
    obtain ⟨u1, u2⟩ := update_last_link_good host it lib0 hgood.1 e3
    exact ⟨u1, u2, hgood.2.1, rfl⟩

theorem group_track_step_inv (host : Host) (is_selected : DB_playItem_t → Bool) (selected : Bool)
    (k : Nat) (s_text : CStr) (st : ml_album_loop) (it : DB_playItem_t)
    (hinv : GroupInv st.g)
    (hloc : (st.album_item = true → st.album_tail = true ∧ (st.g.coll_item k).isSome = true) ∧
      (st.album_item = false → st.album_tail = false)) :
    GroupInv (group_track_step host is_selected selected k s_text st it).g ∧
    ((group_track_step host is_selected selected k s_text st it).album_item = true →
      (group_track_step host is_selected selected k s_text st it).album_tail = true ∧
      ((group_track_step host is_selected selected k s_text st it).g.coll_item k).isSome = true) ∧
    ((group_track_step host is_selected selected k s_text st it).album_item = false →
      (group_track_step host is_selected selected k s_text st it).album_tail = false) := by
  obtain ⟨k1, k2, k3, k5⟩ := group_libitem_good host k s_text st it hinv hloc
  have hne : (group_libitem host k s_text st it).children.isEmpty = false := by
    cases hc : (group_libitem host k s_text st it).children with
    | nil => exact absurd hc k2
    | cons a r => rfl
  have hu := group_update_inv st.g k (group_libitem host k s_text st it) hinv k1 k2 k3
  unfold group_track_step
  split
  · exact ⟨hinv, hloc⟩
  · rw [hne]
    simp only [Bool.false_eq_true, if_false, k5]
    cases hk : (st.g.coll_item k).isNone with
    | true =>
      rw [hk] at hu
      simp only [if_true] at hu ⊢
      exact ⟨hu, fun _ => ⟨trivial, by simp⟩, fun hc => absurd hc (by simp)⟩
    | false =>
      rw [hk] at hu
      simp only [Bool.false_eq_true, if_false] at hu ⊢
      exact ⟨hu, fun _ => ⟨trivial, by simp⟩, fun hc => absurd hc (by simp)⟩

theorem group_track_fold_inv (host : Host) (is_selected : DB_playItem_t → Bool)
    (selected : Bool) (k : Nat) (s_text : CStr) :
    ∀ (items : List DB_playItem_t) (st : ml_album_loop), GroupInv st.g →
      ((st.album_item = true → st.album_tail = true ∧ (st.g.coll_item k).isSome = true) ∧
        (st.album_item = false → st.album_tail = false)) →
      GroupInv (items.foldl (group_track_step host is_selected selected k s_text) st).g := by
  intro items
  induction items with
  | nil => intro st h _; exact h
  | cons it rest ih =>
    intro st h hloc
    obtain ⟨h1, h2⟩ := group_track_step_inv host is_selected selected k s_text st it h hloc
    rw [List.foldl_cons]
    exact ih _ h1 h2

theorem group_album_step_inv (host : Host) (is_selected : DB_playItem_t → Bool)
    (coll : ml_collection_t) (field : String) (field_tf : Bool) (default_field_value : CStr)
    (selected : Bool) (g : ml_group_state) (album : ml_string_t) (h : GroupInv g) :
    GroupInv (group_album_step host is_selected coll field field_tf default_field_value selected
      g album) := by
  unfold group_album_step
  split
  · exact h
  · split
    · exact h
    · simp only
      split
      · exact h
      · exact group_track_fold_inv host is_selected selected _ _ _ _ h
          ⟨fun hc => absurd hc (by simp), fun _ => rfl⟩

theorem group_album_fold_inv (host : Host) (is_selected : DB_playItem_t → Bool)
    (coll : ml_collection_t) (field : String) (field_tf : Bool) (default_field_value : CStr)
    (selected : Bool) :
    ∀ (albums : List ml_string_t) (g : ml_group_state), GroupInv g →
      GroupInv (albums.foldl (group_album_step host is_selected coll field field_tf
        default_field_value selected) g) := by
  intro albums
  induction albums with
  | nil => intro g h; exact h
  | cons a rest ih =>
    intro g h
    rw [List.foldl_cons]
    exact ih _ (group_album_step_inv host is_selected coll field field_tf default_field_value
      selected g a h)

theorem filterMap_links (g : ml_group_state)
    (ha : ∀ k L, g.coll_item k = some L →
      GoodParent (L, true) ∧ L.children ≠ [] ∧ L.track = none ∧ g.coll_item_tail k = true) :
    ∀ links : List Nat, (∀ k ∈ links, g.coll_item k ≠ none) →
      (links.filterMap g.coll_item).length = links.length ∧
      all_counts_ok (links.filterMap g.coll_item) = true ∧
      all_have_track_or_child (links.filterMap g.coll_item) = true := by
  intro links
  induction links with
  | nil => intro _; exact ⟨rfl, rfl, rfl⟩
  | cons k rest ih =>
    intro h
    obtain ⟨i1, i2, i3⟩ := ih (fun j hj => h j (List.mem_cons_of_mem _ hj))
    cases hk : g.coll_item k with
    | none => exact absurd hk (h k (List.mem_cons_self _ _))
    | some L =>
      obtain ⟨⟨c1, c2, c3, _⟩, hne, _, _⟩ := ha k L hk
      rw [List.filterMap_cons, hk]
      refine ⟨by simp [i1], ?_, ?_⟩
      · simp only [all_counts_ok, i2, Bool.and_true]
        exact (counts_ok_iff L).mpr ⟨c1, c2⟩
      · simp only [all_have_track_or_child, i3, Bool.and_true]
        exact (has_track_or_child_iff L).mpr ⟨Or.inr hne, c3⟩

theorem get_albums_for_collection_group_by_field_good (host : Host)
    (is_selected : DB_playItem_t → Bool) (albums : ml_collection_t) (t : Option CStr)
    (coll : ml_collection_t) (field : String) (field_tf : Bool) (default_field_value : CStr)
    (selected : Bool) :
    counts_ok (get_albums_for_collection_group_by_field host is_selected albums
      (ddb_medialib_item_t.mk t none [] 0) coll field field_tf default_field_value selected) =
        true ∧
    all_have_track_or_child (get_albums_for_collection_group_by_field host is_selected albums
      (ddb_medialib_item_t.mk t none [] 0) coll field field_tf default_field_value
        selected).children = true := by
  have hinit : GroupInv (ml_group_state.mk (fun _ => none) (fun _ => false) [] false
      (ddb_medialib_item_t.mk t none [] 0).num_children) := by
    refine ⟨fun k L hc => absurd hc (by simp), fun _ _ => rfl, rfl, fun _ => rfl, ?_,
      List.nodup_nil⟩
    intro k hk
    simp at hk
  have h := group_album_fold_inv host is_selected coll field field_tf default_field_value
    selected (albums.strings.take albums.count.toNat) _ hinit
  unfold get_albums_for_collection_group_by_field
  simp only
  generalize (albums.strings.take albums.count.toNat).foldl
    (group_album_step host is_selected coll field field_tf default_field_value selected)
    _ = g at h ⊢
  obtain ⟨a, _, c, d, e, _⟩ := h
  obtain ⟨f1, f2, f3⟩ := filterMap_links g a g.root_links e
  cases ht : g.root_tail with
  | true =>
    simp only [if_true, children_mk]
    refine ⟨?_, f3⟩
    rw [counts_ok_iff]
    simp only [num_children_mk, children_mk, f1, c, f2, and_self]
  | false =>
    have hl := d ht
    simp only [Bool.false_eq_true, if_false, children_mk]
    refine ⟨?_, rfl⟩
    rw [counts_ok_iff]
    simp only [num_children_mk, children_mk, c, hl, List.length_nil, all_counts_ok, and_self]

/-- C29: for every selector, collection, filter selection and source,
`_create_item_tree_from_collection` returns a tree as soon as the pointers
it dereferences are not NULL (the collection for the album, artist and genre
selectors, the folder tree for the folder selector); in each node of that
tree `num_children` is the length of the list of children, and each node
below the root that has no track has at least one child. -/
theorem create_item_tree_counts (host : Host) (is_selected : DB_playItem_t → Bool)
    (coll : Option ml_collection_t) (filter : Option CStr) (index : medialibSelector_t)
    (source : medialib_source_t)
    (hcoll : index = medialibSelector_t.SEL_ALBUMS ∨ index = medialibSelector_t.SEL_ARTISTS ∨
      index = medialibSelector_t.SEL_GENRES → coll.isSome = true)
    (hdb : index = medialibSelector_t.SEL_FOLDERS → source.db.isSome = true) :
    ∃ root, _create_item_tree_from_collection host is_selected coll filter index source =
        some root ∧
      counts_ok root = true ∧ all_have_track_or_child root.children = true := by
  unfold _create_item_tree_from_collection
  cases index with
  | SEL_FOLDERS =>
    obtain ⟨db, hdb2⟩ := Option.isSome_iff_exists.mp (hdb rfl)
    rw [hdb2]
    obtain ⟨a, b, c, _⟩ := get_subfolders_for_folder_good host is_selected
      (filter.isSome && source.ml_playlist.isSome) db.folders_tree
      (ddb_medialib_item_t.mk (some "All Music".toList) none [] 0) (goodParent_zeroed _)
    simp only [Option.map_some']
    exact ⟨_, rfl, (counts_ok_iff _).mpr ⟨a, b⟩, c⟩
  | SEL_ARTISTS =>
    obtain ⟨c, hc⟩ := Option.isSome_iff_exists.mp (hcoll (Or.inr (Or.inl rfl)))
    rw [hc]
    exact ⟨_, rfl, get_albums_for_collection_group_by_field_good host is_selected _ _ c _ _ _ _⟩
  | SEL_GENRES =>
    obtain ⟨c, hc⟩ := Option.isSome_iff_exists.mp (hcoll (Or.inr (Or.inr rfl)))
    rw [hc]
    exact ⟨_, rfl, get_albums_for_collection_group_by_field_good host is_selected _ _ c _ _ _ _⟩
  | SEL_ALBUMS =>
    obtain ⟨c, hc⟩ := Option.isSome_iff_exists.mp (hcoll (Or.inl rfl))
    rw [hc]
    obtain ⟨a, b, d, _⟩ := albums_fold_good host is_selected
      (filter.isSome && source.ml_playlist.isSome) c.strings
      (ddb_medialib_item_t.mk (some "All Music".toList) none [] 0, false) (goodParent_zeroed _)
    exact ⟨_, rfl, (counts_ok_iff _).mpr ⟨a, b⟩, d⟩
  | SEL_FILLER => exact ⟨_, rfl, rfl, rfl⟩

set_option maxRecDepth 100000 in
/-- The tree by artist of the index of `trackA`. -/
theorem create_item_tree_counts_witness :
    ∃ root, _create_item_tree_from_collection host1 (fun _ => true) (some dbA.artists) none
        medialibSelector_t.SEL_ARTISTS sourceTree = some root ∧
      counts_ok root = true ∧ all_have_track_or_child root.children = true :=
  create_item_tree_counts host1 (fun _ => true) (some dbA.artists) none
    medialibSelector_t.SEL_ARTISTS sourceTree (fun _ => rfl) (fun h => absurd h (by decide))

set_option maxRecDepth 100000 in
/-- The tree by artist of the index of `trackA` is the root with one artist
node `<?>`, which holds one album node with one track; the trees by album
and by folder have one node with the track below the root. -/
theorem create_item_tree_example :
    (_create_item_tree_from_collection host1 (fun _ => true) (some dbA.artists) none
      medialibSelector_t.SEL_ARTISTS sourceTree).map
        (fun r => (r.num_children, r.children.map (fun a => (a.text, a.num_children,
          a.children.map (fun b => (b.num_children, b.children.map (fun t => t.track))))))) =
      some (1, [(some "<?>".toList, 1, [(1, [some trackA])])]) ∧
    (ml_create_item_tree host1 (fun _ => true) sourceTree medialibSelector_t.SEL_ALBUMS none).map
        (fun r => (r.num_children, r.children.map (fun a => (a.num_children,
          a.children.map (fun t => t.track))))) = some (1, [(1, [some trackA])]) ∧
    (ml_create_item_tree host1 (fun _ => true) sourceTree medialibSelector_t.SEL_FOLDERS none).map
        (fun r => (r.num_children, r.children.map (fun a => (a.text, a.num_children,
          a.children.map (fun t => t.track))))) =
      some (1, [(some "/".toList, 1, [some trackA])]) :=
  ⟨rfl, rfl, rfl⟩

end Medialib
namespace Artwork

theorem id3_extract_art_loop_skip (cfg : Settings) (w : World) (outname : Option CStr)
    (minor_version : Int) (l : List DB_id3v2_frame_t) (cover : ddb_cover_info_t) :
    ∀ skipped : List DB_id3v2_frame_t,
      (∀ g ∈ skipped, id3v2_artwork g minor_version 3 = none ∧
        id3v2_artwork g minor_version 0 = none) →
      id3_extract_art_loop cfg w outname minor_version (skipped ++ l) cover =
        id3_extract_art_loop cfg w outname minor_version l cover := by
  intro skipped
  induction skipped with
  | nil => intro _; rfl
  | cons g rest ih =>
    intro h
    obtain ⟨h3, h0⟩ := h g (List.mem_cons_self _ _)
    rw [List.cons_append, id3_extract_art_loop]
    simp only [h3, h0]
    exact ih (fun x hx => h x (List.mem_cons_of_mem _ hx))

theorem id3v2_artwork_first_pass (f : DB_id3v2_frame_t) (minor_version : Int)
    (pre header image : List Nat) (enc picture_type : Nat) (d : Description)
    (hdata : f.data = picture_payload pre enc header picture_type d image)
    (hsize : f.size = f.data.length)
    (hpre : pre.length = if minor_version = 4 ∧ f.flags.getD 1 0 % 2 = 1 then 4 else 0)
    (hheader : mime_or_format_ok minor_version header = true)
    (hd : d.ok enc = true) (himage : image ≠ [])
    (hacc : (id3v2_artwork f minor_version 3).isSome = true ∨
      (id3v2_artwork f minor_version 0).isSome = true) :
    id3v2_artwork f minor_version 3 = some (f.size - image.length) ∨
    (id3v2_artwork f minor_version 3 = none ∧
      id3v2_artwork f minor_version 0 = some (f.size - image.length)) := by
  have hpre2 : ¬ ((minor_version > 2 ∧ f.id ≠ "APIC".toList) ∨
      (minor_version = 2 ∧ f.id ≠ "PIC".toList)) ∧ ¬ f.size < 20 := by
    rcases hacc with h | h
    · obtain ⟨p, hp⟩ := Option.isSome_iff_exists.mp h
      exact id3v2_artwork_some_pre f minor_version 3 p hp
    · obtain ⟨p, hp⟩ := Option.isSome_iff_exists.mp h
      exact id3v2_artwork_some_pre f minor_version 0 p hp
  have h3 := id3v2_artwork_value f minor_version 3 pre header image enc picture_type d
    hpre2.1 hpre2.2 hdata hsize hpre hheader hd himage
  have h0 := id3v2_artwork_value f minor_version 0 pre header image enc picture_type d
    hpre2.1 hpre2.2 hdata hsize hpre hheader hd himage
  rw [h3, h0, hsize]
  by_cases hc : minor_version > 2 ∧ ((3 : Int) = -1 ∨ (picture_type : Int) = 3)
  · rw [if_pos hc]
    have hn : ¬ (minor_version > 2 ∧ ((0 : Int) = -1 ∨ (picture_type : Int) = 0)) := by
      rintro ⟨_, h | h⟩
      · exact absurd h (by decide)
      · rcases hc.2 with h2 | h2
        · exact absurd h2 (by decide)
        · rw [h2] at h; exact absurd h (by decide)
    rw [if_neg hn]
    exact Or.inr ⟨rfl, rfl⟩
  · rw [if_neg hc]
    exact Or.inl rfl

theorem id3_extract_art_loop_accept (cfg : Settings) (w : World) (outname : Option CStr)
    (minor_version : Int) (f : DB_id3v2_frame_t) (rest : List DB_id3v2_frame_t)
    (cover : ddb_cover_info_t) (p : Nat) (hp : f.size - p ≠ 0)
    (h : id3v2_artwork f minor_version 3 = some p ∨
      (id3v2_artwork f minor_version 3 = none ∧ id3v2_artwork f minor_version 0 = some p)) :
    id3_extract_art_loop cfg w outname minor_version (f :: rest) cover =
      if !cfg.artwork_disable_cache then
        if (store_embedded w (outname.getD []) (f.size - p) cover).1 then
          (0, (store_embedded w (outname.getD []) (f.size - p) cover).2.1,
            (store_embedded w (outname.getD []) (f.size - p) cover).2.2)
        else
          ((id3_extract_art_loop cfg w outname minor_version rest cover).1,
            (id3_extract_art_loop cfg w outname minor_version rest cover).2.1,
            (store_embedded w (outname.getD []) (f.size - p) cover).2.2 ++
              (id3_extract_art_loop cfg w outname minor_version rest cover).2.2)
      else
        (0, { cover with blob := some (f.head ++ f.data), blob_size := f.size,
                         blob_image_offset := f.head.length + p,
                         blob_image_size := f.size - p }, []) := by
  rw [id3_extract_art_loop]
  rcases h with h | ⟨h3, h0⟩
  · simp only [h, hp, if_false]
  · simp only [h3, h0, hp, if_false]

/-- C24: the track has an ID3v2 tag, and the first frame of it that
`id3v2_artwork` accepts (in the pass for picture type 3 or in the one for
picture type 0) has a payload laid out as encoding byte (after the data
length indicator, if the frame has one), MIME string or image format,
picture type, description terminated as the encoding says, and a non-empty
image.  Then every position that `id3v2_artwork` returns for the frame is
that of the first image byte.  With caching disabled `id3_extract_art`
succeeds and hands out the frame structure as the blob, and the window
`(blob_image_offset, blob_image_size)` of the blob is exactly the image.
With caching enabled, no file at the output name and a write that succeeds,
the file written there has the length of the image. -/
theorem id3_extract_art_image_window (cfg : Settings) (w : World) (outname : Option CStr)
    (cover : ddb_cover_info_t) (tag : DB_id3v2_tag_t) (minor_version : Int)
    (skipped rest : List DB_id3v2_frame_t) (f : DB_id3v2_frame_t)
    (pre header image : List Nat) (enc picture_type : Nat) (d : Description)
    (htag : w.junk_id3v2_read_full cover.filepath = some tag)
    (hver : minor_version = ((tag.version.getD 0 0 : Nat) : Int))
    (hframes : tag.frames = skipped ++ f :: rest)
    (hskipped : ∀ g ∈ skipped, id3v2_artwork g minor_version 3 = none ∧
      id3v2_artwork g minor_version 0 = none)
    (hacc : (id3v2_artwork f minor_version 3).isSome = true ∨
      (id3v2_artwork f minor_version 0).isSome = true)
    (hdata : f.data = picture_payload pre enc header picture_type d image)
    (hsize : f.size = f.data.length)
    (hpre : pre.length = if minor_version = 4 ∧ f.flags.getD 1 0 % 2 = 1 then 4 else 0)
    (hheader : mime_or_format_ok minor_version header = true)
    (hd : d.ok enc = true) (himage : image ≠ []) :
    (∀ type p, id3v2_artwork f minor_version type = some p →
      p = f.size - image.length ∧ f.data.drop p = image ∧ f.size - p = image.length ∧
        (f.data.drop p).take (f.size - p) = image) ∧
    (cfg.artwork_disable_cache = true →
      id3_extract_art cfg w outname cover =
        (0, { cover with blob := some (f.head ++ f.data), blob_size := f.size,
                         blob_image_offset := f.head.length + (f.size - image.length),
                         blob_image_size := image.length }, []) ∧
      ∃ blob, (id3_extract_art cfg w outname cover).2.1.blob = some blob ∧
        (blob.drop (id3_extract_art cfg w outname cover).2.1.blob_image_offset).take
          (id3_extract_art cfg w outname cover).2.1.blob_image_size = image) ∧
    (cfg.artwork_disable_cache = false →
      nonempty_regular_file w (outname.getD []) = false →
      w.write_file (outname.getD []) image.length = 0 →
      id3_extract_art cfg w outname cover =
        (0, { cover with image_filename := some (outname.getD []) },
          [Action.write_file (outname.getD []) image.length])) := by
  have hpos : ∀ type p, id3v2_artwork f minor_version type = some p →
      p = f.size - image.length ∧ f.data.drop p = image ∧ f.size - p = image.length ∧
        (f.data.drop p).take (f.size - p) = image := by
    intro type p hp
    exact id3v2_artwork_position f minor_version type pre header image enc
      picture_type d p hdata hsize hpre hheader hd himage hp
  have hfirst := id3v2_artwork_first_pass f minor_version pre header image enc picture_type d
    hdata hsize hpre hheader hd himage hacc
  have hle : image.length ≤ f.size := by
    rw [hsize, hdata, picture_payload]
    simp only [List.length_append, List.length_cons]
    omega
  have hpos_len : 0 < image.length := List.length_pos.mpr himage
  have hsz : f.size - (f.size - image.length) = image.length := by omega
  have hsz0 : ¬ (f.size - (f.size - image.length) = 0) := by omega
  have hloop : id3_extract_art cfg w outname cover =
      id3_extract_art_loop cfg w outname minor_version (f :: rest) cover := by
    unfold id3_extract_art
    rw [htag]
    simp only [hframes, ← hver]
    exact id3_extract_art_loop_skip cfg w outname minor_version (f :: rest) cover skipped hskipped
  have hdrop : f.data.drop (f.size - image.length) = image := by
    have e : f.data = (pre ++ enc :: (header ++ picture_type :: d.bytes)) ++ image := by
      rw [hdata, picture_payload]; simp
    have hl : (pre ++ enc :: (header ++ picture_type :: d.bytes)).length =
        f.size - image.length := by
      rw [hsize]
      conv_rhs => rw [e]
      simp only [List.length_append, List.length_cons]
      omega
    conv_lhs => rw [e]
    exact List.drop_left' hl
  have hstep := id3_extract_art_loop_accept cfg w outname minor_version f rest cover
    (f.size - image.length) hsz0 hfirst
  refine ⟨hpos, ?_, ?_⟩
  · intro hc
    have hv : id3_extract_art cfg w outname cover =
        (0, { cover with blob := some (f.head ++ f.data), blob_size := f.size,
                         blob_image_offset := f.head.length + (f.size - image.length),
                         blob_image_size := image.length }, []) := by
      rw [hloop, hstep]
      simp only [hc, Bool.not_true, Bool.false_eq_true, if_false, hsz]
    refine ⟨hv, f.head ++ f.data, by rw [hv], ?_⟩
    rw [hv]
    simp only
    rw [List.drop_append_eq_append_drop]
    have h1 : f.head.drop (f.head.length + (f.size - image.length)) = [] :=
      List.drop_eq_nil_of_le (Nat.le_add_right _ _)
    rw [h1, List.nil_append, Nat.add_sub_cancel_left, hdrop, List.take_length]
  · intro hc hfile hw
    rw [hloop, hstep]
    simp only [hc, Bool.not_false, if_true, hsz, store_embedded, hfile,
      Bool.false_eq_true, if_false, hw]

set_option maxRecDepth 100000 in
/-- Witness for `id3_extract_art_image_window`: an ID3v2.2 tag with a text
frame and then a `PIC` frame whose structure has a head of 22 bytes; with
caching disabled the image is found at offset 31 of the blob. -/
theorem id3_extract_art_image_window_witness :
    id3_extract_art { cfgAll with artwork_disable_cache := true } worldPicture none trackCover =
      (0, { trackCover with blob := some (List.replicate 22 170 ++ picFrame22.data),
                            blob_size := 30, blob_image_offset := 31,
                            blob_image_size := 21 }, []) ∧
    ∃ blob, (id3_extract_art { cfgAll with artwork_disable_cache := true } worldPicture none
        trackCover).2.1.blob = some blob ∧
      (blob.drop (id3_extract_art { cfgAll with artwork_disable_cache := true } worldPicture none
          trackCover).2.1.blob_image_offset).take
        (id3_extract_art { cfgAll with artwork_disable_cache := true } worldPicture none
          trackCover).2.1.blob_image_size = List.replicate 21 255 :=
  (id3_extract_art_image_window { cfgAll with artwork_disable_cache := true } worldPicture none
    trackCover { version := [2, 0], frames := [textFrame22, picFrameInMemory] } 2
    [textFrame22] [] picFrameInMemory [] [74, 80, 71] (List.replicate 21 255) 1 3
    (.double [(65, 0)]) rfl rfl rfl (by decide) (by decide) rfl (by decide) (by decide)
    (by decide) (by decide) (by decide)).2.1 rfl

end Artwork
namespace Medialib

open Artwork (CStr)

theorem find_text_map (t : CStr) (g : ml_string_t → ml_string_t)
    (hg : ∀ s, (g s).text = s.text) :
    ∀ l : List ml_string_t,
      (l.map g).find? (fun s => decide (s.text = t)) =
        (l.find? (fun s => decide (s.text = t))).map g := by
  intro l
  induction l with
  | nil => rfl
  | cons a rest ih =>
    rw [List.map_cons, List.find?_cons, List.find?_cons, hg a]
    by_cases h : a.text = t
    · simp only [h, decide_True, Option.map_some']
    · simp only [h, decide_False, ih]

theorem find_text_none (t : CStr) (l : List ml_string_t) (h : t ∉ l.map (·.text)) :
    l.find? (fun s => decide (s.text = t)) = none := by
  rw [List.find?_eq_none]
  intro s hs hd
  exact h (List.mem_map.mpr ⟨s, hs, of_decide_eq_true hd⟩)

theorem find_text_some (t : CStr) (l : List ml_string_t) (h : t ∈ l.map (·.text)) :
    ∃ s, l.find? (fun s => decide (s.text = t)) = some s ∧ s.text = t := by
  cases hf : l.find? (fun s => decide (s.text = t)) with
  | none =>
    rw [List.find?_eq_none] at hf
    obtain ⟨s, hs, he⟩ := List.mem_map.mp h
    exact absurd (decide_eq_true he) (hf s hs)
  | some s =>
    have := List.find?_some hf
    exact ⟨s, rfl, by simpa using this⟩

theorem ml_reg_col_items (host : Host) (coll : ml_collection_t) (c : CStr) (it : DB_playItem_t)
    (hi : CollInv host coll) (t : CStr) :
    (ml_reg_col host coll c (some it)).1.items_of t =
      coll.items_of t ++ (if t = c then [it] else []) := by
  by_cases h : c ∈ coll.hash (hash_for_ptr (host.metacache_addr c))
  · have hc : c ∈ coll.strings.map (·.text) := (hi.2 c).mp h
    simp only [ml_reg_col, h, if_true, ml_collection_t.items_of]
    rw [find_text_map t (fun s => if s.text = c then s.add_item (some it) else s)
      (by intro s
          by_cases hs : s.text = c
          · simp only [hs, if_true, add_item_text]
          · simp only [hs, if_false])]
    cases hf : coll.strings.find? (fun s => decide (s.text = t)) with
    | none =>
      have htc : ¬ t = c := by
        intro e
        subst e
        obtain ⟨s, hs, _⟩ := find_text_some t coll.strings hc
        rw [hs] at hf
        exact absurd hf (by simp)
      simp [htc]
    | some s =>
      have hst : s.text = t := by
        have := List.find?_some hf
        simpa using this
      simp only [Option.map_some']
      by_cases htc : t = c
      · have : s.text = c := hst.trans htc
        simp only [this, if_true, htc, ml_string_t.add_item]
      · have : ¬ s.text = c := fun e => htc (hst.symm.trans e)
        simp only [this, if_false, htc, List.append_nil]
  · have hc : c ∉ coll.strings.map (·.text) := fun hc => h ((hi.2 c).mpr hc)
    simp only [ml_reg_col, h, if_false, ml_collection_t.items_of, List.find?_append]
    by_cases htc : t = c
    · subst htc
      rw [find_text_none t coll.strings hc]
      simp [ml_string_t.add_item]
    · have hct : ¬ c = t := fun e => htc e.symm
      cases hf : coll.strings.find? (fun s => decide (s.text = t)) with
      | none => simp [ml_string_t.add_item, hct, htc]
      | some s => simp [htc]

theorem reg_all_items (host : Host) (key : DB_playItem_t → CStr) (t : CStr) :
    ∀ (tracks : List DB_playItem_t) (coll : ml_collection_t), CollInv host coll →
      CollInv host (reg_all host key coll tracks) ∧
      (reg_all host key coll tracks).items_of t =
        coll.items_of t ++ tracks.filter (fun it => decide (key it = t)) := by
  intro tracks
  induction tracks with
  | nil => intro coll hi; exact ⟨hi, by simp [reg_all]⟩
  | cons it rest ih =>
    intro coll hi
    obtain ⟨h1, _, _⟩ := ml_reg_col_inv host coll (key it) (some it) hi
    obtain ⟨k1, k2⟩ := ih (ml_reg_col host coll (key it) (some it)).1 h1
    have e : reg_all host key coll (it :: rest) =
        reg_all host key (ml_reg_col host coll (key it) (some it)).1 rest := rfl
    rw [e]
    refine ⟨k1, ?_⟩
    rw [k2, ml_reg_col_items host coll (key it) it hi t, List.filter_cons]
    by_cases h : key it = t
    · subst h
      simp
    · have h2 : ¬ t = key it := fun e => h e.symm
      simp [h, h2]

theorem uri_items_eq (host : Host) (db : ml_db_t) (uri : CStr)
    (hi : CollInv host db.track_uris) : uri_items host db uri = db.track_uris.items_of uri := by
  unfold uri_items hash_find ml_collection_t.items_of
  by_cases h : uri ∈ db.track_uris.hash (hash_for_ptr (host.metacache_addr uri))
  · rw [if_pos h]
  · rw [if_neg h]
    have : uri ∉ db.track_uris.strings.map (·.text) := fun hc => h ((hi.2 uri).mpr hc)
    rw [find_text_none uri _ this]

theorem ml_index_uri_items (host : Host) (paths : List json_t) (plt : List DB_playItem_t)
    (uri : CStr) :
    uri_items host (ml_index host false paths plt).2 uri =
      (ml_index host false paths plt).1.filter (fun it => decide (it.uri = uri)) := by
  obtain ⟨_, _, _, _, e, _⟩ := ml_index_loop_proj host paths plt IndexVars.init
  have ht : (ml_index host false paths plt).2.track_uris =
      reg_all host (fun it => it.uri) ml_collection_t.empty (ml_index host false paths plt).1 := by
    simp only [ml_index, Bool.false_eq_true, if_false, ml_index_finish]
    rw [e]
    rfl
  obtain ⟨k1, k2⟩ := reg_all_items host (fun it => it.uri) uri (ml_index host false paths plt).1
    ml_collection_t.empty (collInv_empty host)
  rw [uri_items_eq host _ uri (by rw [ht]; exact k1), ht, k2]
  simp [ml_collection_t.items_of, ml_collection_t.empty]

theorem ml_index_loop_perm (host : Host) (paths : List json_t) :
    ∀ (plt : List DB_playItem_t) (v : IndexVars), v.db.hashed_entries.Perm v.db.tracks →
      (ml_index_loop host paths plt v).2.db.hashed_entries.Perm
        (ml_index_loop host paths plt v).2.db.tracks := by
  intro plt
  induction plt with
  | nil => intro v hp; exact hp
  | cons it rest ih =>
    intro v hp
    cases hr : find_reluri paths it.uri with
    | none =>
      simp only [ml_index_loop, hr]
      exact ih _ hp
    | some reluri =>
      simp only [ml_index_loop, hr]
      exact ih _ (ml_index_track_perm host it ((pl_find_meta it "artist").getD unknown) reluri
        (IndexVars.mk v.db (v.has_unknown_artist ||
          decide ((pl_find_meta it "artist").getD unknown = unknown))
          v.has_unknown_album v.has_unknown_genre) hp)

theorem ml_index_entry_has_track (host : Host) (paths : List json_t) (plt : List DB_playItem_t)
    (k : Nat) (hk : k < ML_HASH_SIZE) (en : ml_entry_t)
    (hen : en ∈ (ml_index host false paths plt).2.filename_hash k) :
    ∃ it ∈ (ml_index host false paths plt).1, it.uri = en.file := by
  have hp := ml_index_loop_perm host paths plt IndexVars.init
    (by simp [ml_db_t.hashed_entries, IndexVars.init])
  have hkept := ml_index_loop_kept host paths plt IndexVars.init
  have h1 : en ∈ (ml_index_loop host paths plt IndexVars.init).2.db.hashed_entries := by
    unfold ml_db_t.hashed_entries
    rw [List.mem_flatMap]
    exact ⟨k, List.mem_range.mpr hk, hen⟩
  have h2 : en ∈ (ml_index_loop host paths plt IndexVars.init).2.db.tracks := hp.mem_iff.mp h1
  have h3 : en.file ∈ (ml_index_loop host paths plt IndexVars.init).2.db.tracks.map (·.file) :=
    List.mem_map.mpr ⟨en, h2, rfl⟩
  rw [hkept.2] at h3
  simp only [IndexVars.init, List.map_nil, List.nil_append, List.mem_map] at h3
  obtain ⟨it, hit, hu⟩ := h3
  refine ⟨it, ?_, hu⟩
  show it ∈ (ml_index_loop host paths plt IndexVars.init).1
  rw [hkept.1]
  exact hit

/-- C13: the index is the one that `ml_index` built from a playlist without
repeated items, and the file name has an entry in the filename hash (and is
known to the interner, as every indexed name is).  Then the file name is the
URI of a track that `ml_index` kept, and `ml_filter_int` returns 0 exactly
when one of the kept tracks with that URI has no parseable
`:MEDIALIB_SCAN_TIME` or a scan time strictly older than `mtime`; otherwise
it returns -1, the kept tracks with that URI that were in the old playlist
are gone from it, and they are appended, in playlist order, to the playlist
being built.  The old playlist holds no track twice. -/
theorem ml_filter_int_after_index (host : Host) (interned : CStr → Bool) (paths : List json_t)
    (indexed ml_playlist plt : List DB_playItem_t) (filename : CStr) (mtime : Int)
    (hindexed : indexed.Nodup) (hint : interned filename = true)
    (hen : ∃ en ∈ (ml_index host false paths indexed).2.filename_hash
      (hash_for_ptr (host.metacache_addr filename)), en.file = filename)
    (hpl : ml_playlist.Nodup) :
    (∃ it ∈ (ml_index host false paths indexed).1, it.uri = filename) ∧
    ((ml_filter_int host interned (ml_index host false paths indexed).2 ml_playlist plt
        filename mtime).1 = 0 ↔
      ∃ it ∈ (ml_index host false paths indexed).1, it.uri = filename ∧ stale mtime it = true) ∧
    ((ml_filter_int host interned (ml_index host false paths indexed).2 ml_playlist plt
        filename mtime).1 ≠ 0 →
      (ml_filter_int host interned (ml_index host false paths indexed).2 ml_playlist plt
        filename mtime).1 = -1 ∧
      (ml_filter_int host interned (ml_index host false paths indexed).2 ml_playlist plt
        filename mtime).2.1 =
        ml_playlist.filter (fun it => decide (it ∉
          (ml_index host false paths indexed).1.filter (fun x => decide (x.uri = filename)))) ∧
      (ml_filter_int host interned (ml_index host false paths indexed).2 ml_playlist plt
        filename mtime).2.2 =
        plt ++ ((ml_index host false paths indexed).1.filter
          (fun x => decide (x.uri = filename))).filter (fun it => decide (it ∈ ml_playlist))) := by
  have hu := ml_index_uri_items host paths indexed filename
  have hsub : (ml_index host false paths indexed).1.Sublist indexed :=
    (ml_index_loop_proj host paths indexed IndexVars.init).1
  have hnd : (uri_items host (ml_index host false paths indexed).2 filename).Nodup := by
    rw [hu]
    exact (hindexed.sublist hsub).filter _
  obtain ⟨h1, h2⟩ := ml_filter_int_by_items host interned (ml_index host false paths indexed).2
    ml_playlist plt filename mtime hint hen hnd hpl
  rw [hu] at h1 h2
  refine ⟨?_, ?_, h2⟩
  · obtain ⟨en, hmem, hfile⟩ := hen
    obtain ⟨it, hit, hf⟩ := ml_index_entry_has_track host paths indexed _ (hash_for_ptr_lt _)
      en hmem
    exact ⟨it, hit, hf.trans hfile⟩
  · rw [h1]
    constructor
    · rintro ⟨it, hit, hs⟩
      rw [List.mem_filter] at hit
      exact ⟨it, hit.1, of_decide_eq_true hit.2, hs⟩
    · rintro ⟨it, hit, hf, hs⟩
      exact ⟨it, List.mem_filter.mpr ⟨hit, decide_eq_true hf⟩, hs⟩

set_option maxRecDepth 100000 in
/-- Witness for `ml_filter_int_after_index`: the index of `trackA`, `trackC`
and `trackA2`, the first and the last being tracks of the file `fileA`, and
a file time of 50, older than both scan times. -/
theorem ml_filter_int_after_index_witness :
    (∃ it ∈ (ml_index host1 false [json_t.string "/music".toList] [trackA, trackC, trackA2]).1,
      it.uri = fileA) ∧
    ((ml_filter_int host1 (fun _ => true)
        (ml_index host1 false [json_t.string "/music".toList] [trackA, trackC, trackA2]).2
        [trackA, trackC, trackA2] [] fileA 50).1 = 0 ↔
      ∃ it ∈ (ml_index host1 false [json_t.string "/music".toList] [trackA, trackC, trackA2]).1,
        it.uri = fileA ∧ stale 50 it = true) ∧
    ((ml_filter_int host1 (fun _ => true)
        (ml_index host1 false [json_t.string "/music".toList] [trackA, trackC, trackA2]).2
        [trackA, trackC, trackA2] [] fileA 50).1 ≠ 0 →
      (ml_filter_int host1 (fun _ => true)
        (ml_index host1 false [json_t.string "/music".toList] [trackA, trackC, trackA2]).2
        [trackA, trackC, trackA2] [] fileA 50).1 = -1 ∧
      (ml_filter_int host1 (fun _ => true)
        (ml_index host1 false [json_t.string "/music".toList] [trackA, trackC, trackA2]).2
        [trackA, trackC, trackA2] [] fileA 50).2.1 =
        [trackA, trackC, trackA2].filter (fun it => decide (it ∉
          (ml_index host1 false [json_t.string "/music".toList]
            [trackA, trackC, trackA2]).1.filter (fun x => decide (x.uri = fileA)))) ∧
      (ml_filter_int host1 (fun _ => true)
        (ml_index host1 false [json_t.string "/music".toList] [trackA, trackC, trackA2]).2
        [trackA, trackC, trackA2] [] fileA 50).2.2 =
        [] ++ ((ml_index host1 false [json_t.string "/music".toList]
          [trackA, trackC, trackA2]).1.filter
            (fun x => decide (x.uri = fileA))).filter
              (fun it => decide (it ∈ [trackA, trackC, trackA2]))) :=
  ml_filter_int_after_index host1 (fun _ => true) [json_t.string "/music".toList]
    [trackA, trackC, trackA2] [trackA, trackC, trackA2] [] fileA 50 (by decide) rfl
    (by decide) (by decide)

set_option maxRecDepth 100000 in
/-- The same index: a file time of 50 moves the two tracks of `fileA`, in
their order, to the playlist being built and leaves `trackC`; a file time of
150, newer than the scan time of `trackA`, has the file included and moves
nothing. -/
theorem ml_filter_int_after_index_example :
    (ml_index host1 false [json_t.string "/music".toList] [trackA, trackC, trackA2]).1 =
      [trackA, trackC, trackA2] ∧
    ml_filter_int host1 (fun _ => true)
      (ml_index host1 false [json_t.string "/music".toList] [trackA, trackC, trackA2]).2
      [trackA, trackC, trackA2] [] fileA 50 = (-1, [trackC], [trackA, trackA2]) ∧
    stale 150 trackA = true ∧
    ml_filter_int host1 (fun _ => true)
      (ml_index host1 false [json_t.string "/music".toList] [trackA, trackC, trackA2]).2
      [trackA, trackC, trackA2] [] fileA 150 = (0, [trackA, trackC, trackA2], []) := by
  refine ⟨by decide, by decide, by decide, by decide⟩

end Medialib

namespace Artwork

set_option maxRecDepth 100000 in
/-- Completion of the job of burst query 1 on `pendingTwo` with a cover that
was not found: the two callbacks of the group are called in the same order,
each with its own query, error -1 and NULL. -/
theorem callback_and_free_squashed_not_found_example :
    (callback_and_free_squashed 500 pendingTwo { mkCover ['x'] 0 with cover_found := 0 }
      (burstQuery 1)).2 =
      [CallbackCall.mk 20 (-1) (burstQuery 1) none, CallbackCall.mk 21 (-1) (burstQuery 2) none] := by
  decide

end Artwork
